import Mathlib

/-!
# go-3d-rasterizer: a shallow embedding of the transform and rasterization core

The Go sources `math3d/vector.go`, `math3d/matrix.go`, `rasterizer/rasterizer.go`,
`obj/renderer.go` and the types and `NormalizeVertices` of `obj/parser.go` are embedded
as Lean functions.

Numbers.  A Go `float64` that holds a finite value is a member of an ordered
field `K` (every definition is generic in `K` and runs on `ℚ`); arithmetic on
finite values is exact, rounding is not modelled in these definitions.  The only places where the
rasterizer divides by a quantity that can be zero are the barycentric functions
`sf`, `tf` and the interpolation parameter of `RasterizeLine`; their results are
values of `Flt K`, which adds the IEEE special values `+Inf`, `-Inf` and `NaN`
to `K` (signed zeros are not tracked, a zero divisor counts as `+0`).
The library functions `math.Sqrt`, `math.Pow`, `math.Tan`, `math.Sin`, `math.Cos` and
the constant `math.Pi` are parameters of the definitions that call them; the theorems
over the real numbers put `Real.sqrt`, `Real.sin` and `Real.cos` in their place.

Integers.  Go `int` is `Int` (no wrap-around: the sizes of a scene are far from
2^63); `int(x)` truncates toward zero, `float64(i)` is the cast.

Memory.  Slices are lists; reading or writing an index outside the slice is the
run-time fault `Result.fault`.  A `for` loop with fixed bounds is a recursion on
the number of iterations; the `for true` loop of `RasterizeLine` takes a bound on
its iterations (fuel) and ends in `Result.outOfFuel` when the bound is too small.

Callbacks.  A `LightingCalcCb` is a function on the pair of the scene and the state
`σ` the closure captured.

Rounding.  The transform to screen coordinates and the triangle scan are embedded a
second time in the namespaces `math3d.binary64` and `rasterizer.binary64`, on the type
`F64` of the IEEE 754 binary64 values with round to nearest, ties to even.  A theorem
about these definitions speaks of the values the Go program computes; a theorem about
the definitions over `K` speaks of exact arithmetic and says so.
-/

namespace math3d

/-- Vector struct holds the X, Y, Z and W coordinates (`vector.go`, `type Vector`). -/
structure Vector (K : Type) where
  X : K
  Y : K
  Z : K
  W : K
  deriving DecidableEq, Repr

/-- Matrix struct holds a 4x4 matrix as four column vectors (`matrix.go`, `type Matrix`). -/
structure Matrix (K : Type) where
  X : Vector K
  Y : Vector K
  Z : Vector K
  W : Vector K
  deriving DecidableEq, Repr

variable {K : Type} [LinearOrderedField K]

/-- The Go zero value `m.Vector{}`. -/
def Vector.zero : Vector K := ⟨0, 0, 0, 0⟩

/-- VectorOf constructs a vector of a given value. -/
def VectorOf (value : K) : Vector K := ⟨value, value, value, value⟩

/-- ClampValue clamps a vector to a min max range. -/
def ClampValue (v : Vector K) (lo hi : K) : Vector K :=
  ⟨min hi (max lo v.X), min hi (max lo v.Y), min hi (max lo v.Z), min hi (max lo v.W)⟩

/-- Add w to v; the result's W is the constant 1. -/
def Add (v w : Vector K) : Vector K := ⟨v.X + w.X, v.Y + w.Y, v.Z + w.Z, 1⟩

/-- Sub w from v; the result's W is the constant 1. -/
def Sub (v w : Vector K) : Vector K := ⟨v.X - w.X, v.Y - w.Y, v.Z - w.Z, 1⟩

/-- Mul multiplies v by f; the result's W is the constant 1. -/
def Mul (v : Vector K) (f : K) : Vector K := ⟨v.X * f, v.Y * f, v.Z * f, 1⟩

/-- MulComponentWise multiplies the components of two vectors. -/
def MulComponentWise (v w : Vector K) : Vector K :=
  ⟨v.X * w.X, v.Y * w.Y, v.Z * w.Z, v.W * w.W⟩

/-- Dot calculates the dot product of v and w over X, Y, Z. -/
def Dot (v w : Vector K) : K := v.X * w.X + v.Y * w.Y + v.Z * w.Z

/-- Magnitude determines the size of the vector; `sqrt` stands for `math.Sqrt`. -/
def Magnitude (sqrt : K → K) (v : Vector K) : K :=
  sqrt (v.X * v.X + v.Y * v.Y + v.Z * v.Z)

/-- Normalize divides X, Y, Z by the magnitude and keeps W. -/
def Normalize (sqrt : K → K) (v : Vector K) : Vector K :=
  let mag := Magnitude sqrt v
  ⟨v.X / mag, v.Y / mag, v.Z / mag, v.W⟩

/-- IdentityMatrix returns the identity matrix. -/
def IdentityMatrix : Matrix K :=
  ⟨⟨1, 0, 0, 0⟩, ⟨0, 1, 0, 0⟩, ⟨0, 0, 1, 0⟩, ⟨0, 0, 0, 1⟩⟩

/-- Multiply returns the product of: m * n. -/
def Multiply (m n : Matrix K) : Matrix K :=
  { X := ⟨m.X.X * n.X.X + m.Y.X * n.X.Y + m.Z.X * n.X.Z + m.W.X * n.X.W,
          m.X.Y * n.X.X + m.Y.Y * n.X.Y + m.Z.Y * n.X.Z + m.W.Y * n.X.W,
          m.X.Z * n.X.X + m.Y.Z * n.X.Y + m.Z.Z * n.X.Z + m.W.Z * n.X.W,
          m.X.W * n.X.X + m.Y.W * n.X.Y + m.Z.W * n.X.Z + m.W.W * n.X.W⟩
    Y := ⟨m.X.X * n.Y.X + m.Y.X * n.Y.Y + m.Z.X * n.Y.Z + m.W.X * n.Y.W,
          m.X.Y * n.Y.X + m.Y.Y * n.Y.Y + m.Z.Y * n.Y.Z + m.W.Y * n.Y.W,
          m.X.Z * n.Y.X + m.Y.Z * n.Y.Y + m.Z.Z * n.Y.Z + m.W.Z * n.Y.W,
          m.X.W * n.Y.X + m.Y.W * n.Y.Y + m.Z.W * n.Y.Z + m.W.W * n.Y.W⟩
    Z := ⟨m.X.X * n.Z.X + m.Y.X * n.Z.Y + m.Z.X * n.Z.Z + m.W.X * n.Z.W,
          m.X.Y * n.Z.X + m.Y.Y * n.Z.Y + m.Z.Y * n.Z.Z + m.W.Y * n.Z.W,
          m.X.Z * n.Z.X + m.Y.Z * n.Z.Y + m.Z.Z * n.Z.Z + m.W.Z * n.Z.W,
          m.X.W * n.Z.X + m.Y.W * n.Z.Y + m.Z.W * n.Z.Z + m.W.W * n.Z.W⟩
    W := ⟨m.X.X * n.W.X + m.Y.X * n.W.Y + m.Z.X * n.W.Z + m.W.X * n.W.W,
          m.X.Y * n.W.X + m.Y.Y * n.W.Y + m.Z.Y * n.W.Z + m.W.Y * n.W.W,
          m.X.Z * n.W.X + m.Y.Z * n.W.Y + m.Z.Z * n.W.Z + m.W.Z * n.W.W,
          m.X.W * n.W.X + m.Y.W * n.W.Y + m.Z.W * n.W.Z + m.W.W * n.W.W⟩ }

/-- Transform returns a transformed vector, which is m * v; for a normal vector the
W column of the matrix is left out and the result's W is 0. -/
def Transform (m : Matrix K) (v : Vector K) (isNormalVec : Bool) : Vector K :=
  if !isNormalVec then
    ⟨m.X.X * v.X + m.Y.X * v.Y + m.Z.X * v.Z + m.W.X * v.W,
     m.X.Y * v.X + m.Y.Y * v.Y + m.Z.Y * v.Z + m.W.Y * v.W,
     m.X.Z * v.X + m.Y.Z * v.Y + m.Z.Z * v.Z + m.W.Z * v.W,
     m.X.W * v.X + m.Y.W * v.Y + m.Z.W * v.Z + m.W.W * v.W⟩
  else
    ⟨m.X.X * v.X + m.Y.X * v.Y + m.Z.X * v.Z,
     m.X.Y * v.X + m.Y.Y * v.Y + m.Z.Y * v.Z,
     m.X.Z * v.X + m.Y.Z * v.Y + m.Z.Z * v.Z,
     0⟩

/-- Translate returns the matrix translated by x, y, z. -/
def Translate (m : Matrix K) (x y z : K) : Matrix K :=
  let translationMat : Matrix K := { (IdentityMatrix : Matrix K) with W := ⟨x, y, z, 1⟩ }
  Multiply m translationMat

/-- Scale returns the matrix scaled by x, y, z. -/
def Scale (m : Matrix K) (x y z : K) : Matrix K :=
  let i : Matrix K := IdentityMatrix
  let translationMat : Matrix K :=
    { X := { i.X with X := x }, Y := { i.Y with Y := y },
      Z := { i.Z with Z := z }, W := { i.W with W := 1 } }
  Multiply m translationMat

/-- ProjectionMatrix creates a projection matrix with the given arguments; `tan` stands
for `math.Tan` and `pi` for `math.Pi`.  The quotients are Go's when the divisors `r`,
`t` and `zFar - zNear` are not zero (a field gives `x / 0 = 0`, Go an infinity or a
NaN; `math3d.binary64.ProjectionMatrix` has Go's values). -/
def ProjectionMatrix (tan : K → K) (pi : K) (fov aspectRatio zNear zFar : K) : Matrix K :=
  let t := tan (fov * pi / 360) * zNear
  let r := t * aspectRatio
  { X := ⟨zNear / r, 0, 0, 0⟩
    Y := ⟨0, zNear / t, 0, 0⟩
    Z := ⟨0, 0, (-zFar - zNear) / (zFar - zNear), -1⟩
    W := ⟨0, 0, -2 * zNear * zFar / (zFar - zNear), 0⟩ }

/-- Viewport creates a viewport matrix for a window. -/
def Viewport (x y w h : K) : Matrix K :=
  let vp : Matrix K := IdentityMatrix
  let vp := Translate vp x y 0
  let vp := Scale vp (w / 2) (-h / 2) (1 / 2)
  let vp := Translate vp 1 (-1) 1
  vp

/-- Cross calculates the cross product of v and w; the result's W is the constant 1. -/
def Cross (v w : Vector K) : Vector K :=
  ⟨v.Y * w.Z - v.Z * w.Y, v.Z * w.X - v.X * w.Z, v.X * w.Y - v.Y * w.X, 1⟩

/-- Lerp linearly interpolates between v and w using t. -/
def Lerp (v w : Vector K) (t : K) : Vector K :=
  Add (Mul v (1 - t)) (Mul w t)

/-- Transpose, as a function from the matrix before the call to the matrix after it.
Each of the three statements is a Go parallel assignment: its right-hand sides are read
before any left-hand side is written.
```
m.X.Y, m.Y.X = m.Y.X, m.X.Y
m.X.Z, m.Y.Y, m.Z.X, m.Z.Y = m.Z.X, m.Z.Y, m.X.Z, m.Y.Y
m.X.W, m.Y.W, m.Z.W, m.W.X, m.W.Y, m.W.Z = m.W.X, m.W.Y, m.W.Z, m.X.W, m.Y.W, m.Z.W
``` -/
def Transpose (m : Matrix K) : Matrix K :=
  let m1 : Matrix K :=
    { m with X := { m.X with Y := m.Y.X }, Y := { m.Y with X := m.X.Y } }
  let m2 : Matrix K :=
    { m1 with X := { m1.X with Z := m1.Z.X }, Y := { m1.Y with Y := m1.Z.Y },
              Z := { m1.Z with X := m1.X.Z, Y := m1.Y.Y } }
  let m3 : Matrix K :=
    { X := { m2.X with W := m2.W.X }, Y := { m2.Y with W := m2.W.Y },
      Z := { m2.Z with W := m2.W.Z },
      W := { m2.W with X := m2.X.W, Y := m2.Y.W, Z := m2.Z.W } }
  m3

/-- Rotate rotates the matrix on one axis; `sin` and `cos` stand for `math.Sin` and
`math.Cos`. -/
def Rotate (sin cos : K → K) (m : Matrix K) (radians x y z : K) : Matrix K :=
  let s := sin radians
  let c := cos radians
  let rotationMat : Matrix K := IdentityMatrix
  let rotationMat : Matrix K :=
    { rotationMat with
      X := ⟨x * x * (1 - c) + c, y * x * (1 - c) - z * s, z * x * (1 - c) + y * s, 0⟩ }
  let rotationMat : Matrix K :=
    { rotationMat with
      Y := ⟨x * y * (1 - c) + z * s, y * y * (1 - c) + c, z * y * (1 - c) - x * s, 0⟩ }
  let rotationMat : Matrix K :=
    { rotationMat with
      Z := ⟨x * z * (1 - c) - y * s, y * z * (1 - c) + x * s, z * z * (1 - c) + c, 0⟩ }
  Multiply m rotationMat

/-- Rodrigues' rotation formula in the words of the specification,
`v*cos(theta) + (k x v)*sin(theta) + k*(k . v)*(1 - cos(theta))`, with the cross and dot
products as computed by `Cross` and `Dot`. -/
def rodrigues (sin cos : K → K) (theta : K) (k v : Vector K) : Vector K :=
  Add (Add (Mul v (cos theta)) (Mul (Cross k v) (sin theta)))
    (Mul k (Dot k v * (1 - cos theta)))

/-- One iteration of the loop of CalculateBoundingBox on the state
(min, max, firstIteration). -/
def boundingBoxStep (st : Vector K × Vector K × Bool) (v : Vector K) :
    Vector K × Vector K × Bool :=
  if st.2.2 then (v, v, false)
  else
    let mm : Vector K × Vector K :=
      if v.X < st.1.X then ({ st.1 with X := v.X }, st.2.1)
      else if v.X > st.2.1.X then (st.1, { st.2.1 with X := v.X })
      else (st.1, st.2.1)
    let mm : Vector K × Vector K :=
      if v.Y < mm.1.Y then ({ mm.1 with Y := v.Y }, mm.2)
      else if v.Y > mm.2.Y then (mm.1, { mm.2 with Y := v.Y })
      else (mm.1, mm.2)
    (mm.1, mm.2, false)

/-- CalculateBoundingBox calculates the bounding box for given vectors; `min` and `max`
start as Go zero values. -/
def CalculateBoundingBox (vectors : List (Vector K)) : Vector K × Vector K :=
  let st := vectors.foldl boundingBoxStep (Vector.zero, Vector.zero, true)
  (st.1, st.2.1)

end math3d

/-- A `float64` value over exact arithmetic: a finite number, or one of the
IEEE special values that a division by zero produces. -/
inductive Flt (K : Type) where
  | fin (q : K)
  | pinf
  | ninf
  | nan
  deriving DecidableEq, Repr

namespace Flt

variable {K : Type} [LinearOrderedField K]

/-- Unary minus. -/
def neg : Flt K → Flt K
  | fin a => fin (-a)
  | pinf => ninf
  | ninf => pinf
  | nan => nan

/-- Addition: `Inf + (-Inf)` and anything with `NaN` is `NaN`. -/
def add : Flt K → Flt K → Flt K
  | fin a, fin b => fin (a + b)
  | fin _, pinf => pinf
  | fin _, ninf => ninf
  | pinf, fin _ => pinf
  | pinf, pinf => pinf
  | ninf, fin _ => ninf
  | ninf, ninf => ninf
  | pinf, ninf => nan
  | ninf, pinf => nan
  | nan, _ => nan
  | _, nan => nan

/-- Subtraction, as addition of the negated operand. -/
def sub (x y : Flt K) : Flt K := add x (neg y)

/-- The infinity with the sign of `a`, and `NaN` for `a = 0` (the product `a * Inf`). -/
def signedInf (a : K) : Flt K :=
  if 0 < a then pinf else if a < 0 then ninf else nan

/-- Multiplication: `0 * Inf` and anything with `NaN` is `NaN`. -/
def mul : Flt K → Flt K → Flt K
  | fin a, fin b => fin (a * b)
  | fin a, pinf => signedInf a
  | fin a, ninf => signedInf (-a)
  | pinf, fin b => signedInf b
  | ninf, fin b => signedInf (-b)
  | pinf, pinf => pinf
  | ninf, ninf => pinf
  | pinf, ninf => ninf
  | ninf, pinf => ninf
  | nan, _ => nan
  | _, nan => nan

/-- Division of two finite numbers: `0/0` is `NaN`, `a/0` is the infinity with the
sign of `a`. -/
def div (a b : K) : Flt K :=
  if b = 0 then signedInf a else fin (a / b)

/-- The comparison `x <= y`, false whenever an operand is `NaN`. -/
def le : Flt K → Flt K → Bool
  | fin a, fin b => decide (a ≤ b)
  | fin _, pinf => true
  | fin _, ninf => false
  | pinf, pinf => true
  | pinf, fin _ => false
  | pinf, ninf => false
  | ninf, fin _ => true
  | ninf, pinf => true
  | ninf, ninf => true
  | nan, _ => false
  | _, nan => false

/-- The comparison `x >= y`. -/
def ge (x y : Flt K) : Bool := le y x

/-- The finite number held by a value (0 for a special value); it is read only
after a comparison has established that the value is finite. -/
def val : Flt K → K
  | fin a => a
  | _ => 0

/-- Whether the value is a finite number. -/
def isFin : Flt K → Bool
  | fin _ => true
  | _ => false

instance : Add (Flt K) := ⟨add⟩
instance : Sub (Flt K) := ⟨sub⟩
instance : Mul (Flt K) := ⟨mul⟩

end Flt

/-- The outcome of running a piece of Go code. -/
inductive Result (α : Type) where
  | ok (v : α)
  | fault
  | outOfFuel
  deriving DecidableEq, Repr

/-- Reading `l[i]`; an index outside the slice is a run-time fault. -/
def getAt {α : Type} (l : List α) (i : Int) : Option α :=
  if 0 ≤ i then l.get? i.toNat else none

/-- Writing `l[i] = v`; an index outside the slice is a run-time fault. -/
def setAt {α : Type} (l : List α) (i : Int) (v : α) : Option (List α) :=
  if 0 ≤ i ∧ i.toNat < l.length then some (l.set i.toNat v) else none

/-- The conversion `int(x)` of a float, truncating toward zero. -/
def toInt {K : Type} [LinearOrderedField K] [FloorRing K] (x : K) : Int :=
  if 0 ≤ x then Int.floor x else Int.ceil x

namespace rasterizer

open math3d

/-- The color and depth buffers of a scene (`type buffers`). -/
structure buffers (K : Type) where
  FrameBuffer : List (Vector K)
  DepthBuffer : List K
  deriving DecidableEq, Repr

/-- Scene contains all the matrices needed to transform a vertex into screen
coordinates, the buffers and the integer window size (`type Scene`). -/
structure Scene (K : Type) where
  ModelViewMatrix : Matrix K
  ProjectionMatrix : Matrix K
  ViewportMatrix : Matrix K
  Buffers : buffers K
  width : Int
  height : Int
  wh : Int
  deriving DecidableEq, Repr

/-- LightingCalcCb is the callback type `func(w, u, t float64, frameBufferIdx int)`.
A Go closure acts on the scene it captured and on whatever else it captured, here a
state of type `σ`; it may fault. -/
abbrev LightingCalcCb (K σ : Type) : Type :=
  K → K → K → Int → Scene K × σ → Result (Scene K × σ)

set_option linter.unusedVariables false in
/-- NewScene creates a new scene struct.  The slices `make` returns hold Go zero values;
`make` with a negative length is a run-time fault.  The arguments `fov`, `zNear` and
`zFar` do not occur in the body of the Go function.  The quotient `winWidth/winHeight`
is Go's when `winHeight` is not zero. -/
def NewScene {K : Type} [LinearOrderedField K] [FloorRing K] (tan : K → K) (pi : K)
    (winWidth winHeight fov zNear zFar : K) : Result (Scene K) :=
  if toInt (winWidth * winHeight) < 0 then Result.fault
  else
    Result.ok
      { ModelViewMatrix := IdentityMatrix
        ProjectionMatrix := ProjectionMatrix tan pi 90 (winWidth / winHeight) 1 1000
        ViewportMatrix := Viewport 0 0 winWidth winHeight
        Buffers :=
          { FrameBuffer := List.replicate (toInt (winWidth * winHeight)).toNat Vector.zero
            DepthBuffer := List.replicate (toInt (winWidth * winHeight)).toNat 0 }
        width := toInt winWidth
        height := toInt winHeight
        wh := toInt (winWidth * winHeight) }

section
variable {K : Type} [LinearOrderedField K]

/-- The inner loop `for x := 0; x < s.width; x++` of ClearBuffers, with the number of
remaining iterations as first argument; `i` is the running buffer index. -/
def clearRow (clearColor : Vector K) : Nat → Int → Scene K → Result (Int × Scene K)
  | 0, i, s => Result.ok (i, s)
  | k + 1, i, s =>
    match setAt s.Buffers.FrameBuffer i clearColor with
    | none => Result.fault
    | some fb =>
      match setAt s.Buffers.DepthBuffer i 1 with
      | none => Result.fault
      | some db => clearRow clearColor k (i + 1) { s with Buffers := ⟨fb, db⟩ }

/-- The outer loop `for y := 0; y < s.height; y++` of ClearBuffers, with the number of
remaining rows as first argument. -/
def clearRows (clearColor : Vector K) : Nat → Int → Scene K → Result (Scene K)
  | 0, _, s => Result.ok s
  | k + 1, i, s =>
    match clearRow clearColor s.width.toNat i s with
    | Result.ok (i1, s1) => clearRows clearColor k i1 s1
    | Result.fault => Result.fault
    | Result.outOfFuel => Result.outOfFuel

/-- ClearBuffers clears the buffers. -/
def ClearBuffers (s : Scene K) (clearColor : Vector K) : Result (Scene K) :=
  clearRows clearColor s.height.toNat 0 s

/-- VectorToScreencoords converts a vector to screen coordinates: model-view transform,
projection, perspective divide and viewport transform.  The divide `1./v.W` is Go's
when the clip-space `W` is not zero; the values are exact, those of `float64` are in
`rasterizer.binary64.VectorToScreencoords`. -/
def VectorToScreencoords (s : Scene K) (v : Vector K) : Vector K :=
  let v := Transform s.ModelViewMatrix v false
  let v := Transform s.ProjectionMatrix v false
  let v := Mul v (1 / v.W)
  let v := Transform s.ViewportMatrix v false
  v

/-- Barycentric blend of three colors (`lerpTriColor`). -/
def lerpTriColor (c1 c2 c3 : Vector K) (s t u : K) : Vector K :=
  Add (Add (Mul c1 s) (Mul c2 t)) (Mul c3 u)

/-- Barycentric weight of vertex b at pixel (x, y) (`sf`). -/
def sf (x y : Int) (a b c : Vector K) : Flt K :=
  Flt.div ((a.Y - c.Y) * (x : K) + (c.X - a.X) * (y : K) + a.X * c.Y - c.X * a.Y)
    ((a.Y - c.Y) * b.X + (c.X - a.X) * b.Y + a.X * c.Y - c.X * a.Y)

/-- Barycentric weight of vertex c at pixel (x, y) (`tf`). -/
def tf (x y : Int) (a b c : Vector K) : Flt K :=
  Flt.div ((a.Y - b.Y) * (x : K) + (b.X - a.X) * (y : K) + a.X * b.Y - b.X * a.Y)
    ((a.Y - b.Y) * c.X + (b.X - a.X) * c.Y + a.X * b.Y - b.X * a.Y)

/-- The body of the inner loop of RasterizeTriangle before the increments
(`rasterizer.go` lines 147-158): inside test, depth test, the two buffer writes and
the callback.  `a`, `b`, `c` are the screen-space vertices. -/
def trianglePixel {σ : Type} (a b c colorA colorB colorC : Vector K)
    (lightCalcCb : Option (LightingCalcCb K σ))
    (x y idxOffset : Int) (u t : Flt K) (st : Scene K × σ) : Result (Scene K × σ) :=
  let s := st.1
  let insideViewport :=
    decide (x ≥ 0) && decide (x < s.width) && decide (y ≥ 0) && decide (y < s.height)
  if Flt.ge t (Flt.fin 0) && Flt.ge u (Flt.fin 0) && Flt.le (t + u) (Flt.fin 1)
      && insideViewport then
    let w : K := 1 - u.val - t.val
    let depth : K := a.Z * w + b.Z * u.val + c.Z * t.val
    if depth ≥ 0 then
      match getAt s.Buffers.DepthBuffer idxOffset with
      | none => Result.fault
      | some stored =>
        if depth ≤ stored then
          match setAt s.Buffers.FrameBuffer idxOffset
              (lerpTriColor colorA colorB colorC w u.val t.val) with
          | none => Result.fault
          | some fb =>
            match setAt s.Buffers.DepthBuffer idxOffset depth with
            | none => Result.fault
            | some db =>
              let s1 : Scene K := { s with Buffers := ⟨fb, db⟩ }
              match lightCalcCb with
              | none => Result.ok (s1, st.2)
              | some cb => cb w u.val t.val idxOffset (s1, st.2)
        else Result.ok st
    else Result.ok st
  else Result.ok st

/-- The inner loop `for x := bbMinX; x <= bbMaxX; x++` of RasterizeTriangle, with the
number of remaining iterations as first argument; returns the final `u`, `t` and
state. -/
def triangleRow {σ : Type} (a b c colorA colorB colorC : Vector K)
    (lightCalcCb : Option (LightingCalcCb K σ)) (ux tx : Flt K) (y : Int) :
    Nat → Int → Int → Flt K → Flt K → Scene K × σ → Result (Flt K × Flt K × (Scene K × σ))
  | 0, _, _, u, t, st => Result.ok (u, t, st)
  | k + 1, x, idxOffset, u, t, st =>
    match trianglePixel a b c colorA colorB colorC lightCalcCb x y idxOffset u t st with
    | Result.ok st1 =>
      triangleRow a b c colorA colorB colorC lightCalcCb ux tx y k (x + 1) (idxOffset + 1)
        (u + ux) (t + tx) st1
    | Result.fault => Result.fault
    | Result.outOfFuel => Result.outOfFuel

/-- The outer loop `for y := bbMinY; y <= bbMaxY; y++` of RasterizeTriangle, with the
number of remaining rows as first argument; `cols` is the number of iterations of the
inner loop and `n` is `float64(bbMaxX - bbMinX + 1)`. -/
def triangleRows {σ : Type} (a b c colorA colorB colorC : Vector K)
    (lightCalcCb : Option (LightingCalcCb K σ)) (bbMinX : Int) (cols : Nat)
    (ux uy tx ty : Flt K) (n : K) :
    Nat → Int → Flt K → Flt K → Scene K × σ → Result (Scene K × σ)
  | 0, _, _, _, st => Result.ok st
  | k + 1, y, u, t, st =>
    let idxOffset := st.1.width * y + bbMinX
    match triangleRow a b c colorA colorB colorC lightCalcCb ux tx y cols bbMinX idxOffset
        u t st with
    | Result.ok (u1, t1, st1) =>
      triangleRows a b c colorA colorB colorC lightCalcCb bbMinX cols ux uy tx ty n k (y + 1)
        (u1 + (uy - Flt.fin n * ux)) (t1 + (ty - Flt.fin n * tx)) st1
    | Result.fault => Result.fault
    | Result.outOfFuel => Result.outOfFuel

variable [FloorRing K]

/-- RasterizeTriangle after the three calls of VectorToScreencoords (`rasterizer.go`
lines 129-165): `a`, `b`, `c` are the screen-space vertices. -/
def scanTriangle {σ : Type} (a b c colorA colorB colorC : Vector K)
    (lightCalcCb : Option (LightingCalcCb K σ)) (st : Scene K × σ) : Result (Scene K × σ) :=
  let bbMinX : Int := Int.ceil (min (min a.X b.X) c.X)
  let bbMinY : Int := Int.ceil (min (min a.Y b.Y) c.Y)
  let bbMaxX : Int := Int.ceil (max (max a.X b.X) c.X)
  let bbMaxY : Int := Int.ceil (max (max a.Y b.Y) c.Y)
  let u := sf bbMinX bbMinY a b c
  let ux := sf (bbMinX + 1) bbMinY a b c - u
  let uy := sf bbMinX (bbMinY + 1) a b c - u
  let t := tf bbMinX bbMinY a b c
  let tx := tf (bbMinX + 1) bbMinY a b c - t
  let ty := tf bbMinX (bbMinY + 1) a b c - t
  let n : K := ((bbMaxX - bbMinX + 1 : Int) : K)
  triangleRows a b c colorA colorB colorC lightCalcCb bbMinX (bbMaxX - bbMinX + 1).toNat
    ux uy tx ty n (bbMaxY - bbMinY + 1).toNat bbMinY u t st

/-- RasterizeTriangle draws a triangle with the three vectors a, b and c and the given
colors; `e` is the state captured by the callback. -/
def RasterizeTriangle {σ : Type} (s : Scene K) (a b c colorA colorB colorC : Vector K)
    (lightCalcCb : Option (LightingCalcCb K σ)) (e : σ) : Result (Scene K × σ) :=
  let a := VectorToScreencoords s a
  let b := VectorToScreencoords s b
  let c := VectorToScreencoords s c
  scanTriangle a b c colorA colorB colorC lightCalcCb (s, e)

/-- RasterizeTriangle called with `lightCalcCb = nil`, as DrawQuad does. -/
def RasterizeTriangleNil (s : Scene K) (a b c colorA colorB colorC : Vector K) :
    Result (Scene K) :=
  match RasterizeTriangle s a b c colorA colorB colorC
      (none : Option (LightingCalcCb K Unit)) () with
  | Result.ok st => Result.ok st.1
  | Result.fault => Result.fault
  | Result.outOfFuel => Result.outOfFuel

/-- The body of the loop of RasterizeLine up to the buffer writes (`rasterizer.go`
lines 86-97); `a`, `b` are the screen-space endpoints and (x0, y0) is the current
pixel. -/
def linePixel (a b colorA colorB : Vector K) (x0 y0 : Int) (s : Scene K) :
    Result (Scene K) :=
  let t : Flt K :=
    if b.X - a.X = 0 then Flt.div ((y0 : K) - a.Y) (b.Y - a.Y)
    else Flt.div ((x0 : K) - a.X) (b.X - a.X)
  let depth : Flt K := Flt.fin a.Z * (Flt.fin 1 - t) + Flt.fin b.Z * t
  if decide (y0 ≥ 0) && decide (y0 < s.height) && decide (x0 ≥ 0) && decide (x0 < s.width)
      && Flt.ge depth (Flt.fin 0) && Flt.le depth (Flt.fin 1) then
    let idx := s.width * y0 + x0
    match setAt s.Buffers.FrameBuffer idx
        (lerpTriColor colorA colorB Vector.zero (Flt.fin 1 - t).val t.val 0) with
    | none => Result.fault
    | some fb =>
      match setAt s.Buffers.DepthBuffer idx depth.val with
      | none => Result.fault
      | some db => Result.ok { s with Buffers := ⟨fb, db⟩ }
  else Result.ok s

/-- The loop `for true` of RasterizeLine (Bresenham), bounded by a number of
iterations: `outOfFuel` when the bound is reached before the `break`. -/
def lineLoop (a b colorA colorB : Vector K) (x1 y1 dx dy sx sy : Int) :
    Nat → Int → Int → Int → Scene K → Result (Scene K)
  | 0, _, _, _, _ => Result.outOfFuel
  | fuel + 1, x0, y0, err, s =>
    match linePixel a b colorA colorB x0 y0 s with
    | Result.ok s1 =>
      if x0 = x1 ∧ y0 = y1 then Result.ok s1
      else
        let e2 := 2 * err
        let err1 := if e2 ≥ dy then err + dy else err
        let x0n := if e2 ≥ dy then x0 + sx else x0
        let err2 := if e2 ≤ dx then err1 + dx else err1
        let y0n := if e2 ≤ dx then y0 + sy else y0
        lineLoop a b colorA colorB x1 y1 dx dy sx sy fuel x0n y0n err2 s1
    | Result.fault => Result.fault
    | Result.outOfFuel => Result.outOfFuel

/-- RasterizeLine after the two calls of VectorToScreencoords (`rasterizer.go` lines
71-110): `a`, `b` are the screen-space endpoints. -/
def scanLine (fuel : Nat) (a b colorA colorB : Vector K) (s : Scene K) : Result (Scene K) :=
  let x0 := toInt a.X
  let y0 := toInt a.Y
  let x1 := toInt b.X
  let y1 := toInt b.Y
  let dx : Int := |x1 - x0|
  let sx : Int := if x0 ≥ x1 then -1 else 1
  let dy : Int := -|y1 - y0|
  let sy : Int := if y0 ≥ y1 then -1 else 1
  let err := dx + dy
  lineLoop a b colorA colorB x1 y1 dx dy sx sy fuel x0 y0 err s

/-- RasterizeLine draws a line from a to b with the given colors, using Bresenham's
line algorithm; `fuel` bounds the number of loop iterations. -/
def RasterizeLine (fuel : Nat) (s : Scene K) (a b colorA colorB : Vector K) :
    Result (Scene K) :=
  let a := VectorToScreencoords s a
  let b := VectorToScreencoords s b
  scanLine fuel a b colorA colorB s

end

end rasterizer

namespace rl

/-- The raylib color `rl.Color`: four 8-bit channels. -/
structure Color where
  R : Nat
  G : Nat
  B : Nat
  A : Nat
  deriving DecidableEq, Repr

end rl

namespace obj

open math3d rasterizer

/-- A texture coordinate (`parser.go`, `type texCoord`). -/
structure texCoord (K : Type) where
  s : K
  t : K
  deriving DecidableEq, Repr

/-- A material of the model (`parser.go`, `type material`). -/
structure material (K : Type) where
  idx : Int
  name : String
  mapKd : String
  mapKs : String
  ambientColor : Vector K
  diffuseColor : Vector K
  specularColor : Vector K
  specularExponent : K
  mapKdData : List rl.Color
  mapKdWidth : Int
  mapKdHeight : Int
  mapKsData : List rl.Color
  mapKsWidth : Int
  mapKsHeight : Int
  deriving DecidableEq, Repr

section
variable {K : Type} [LinearOrderedField K] [FloorRing K]

/-- Pixel position of a texture coordinate in an image (`stToXy`). -/
def stToXy (st : texCoord K) (width height : Int) : Int × Int :=
  (toInt (st.s * ((width - 1 : Int) : K)), toInt (st.t * ((height - 1 : Int) : K)))

/-- An 8-bit color as a vector with channels in [0, 1] (`colorToVector`). -/
def colorToVector (c : rl.Color) : Vector K :=
  ⟨(c.R : K) / 255, (c.G : K) / 255, (c.B : K) / 255, (c.A : K) / 255⟩

/-- The specular color used by the lighting callback (`renderer.go` lines 75-84): the
material's, or the blend of three samples of the specular map; a sample outside the
map is a fault (`none`). -/
def specularColorAt (st0 st1 st2 : texCoord K) (mat : material K) (w u t : K) :
    Option (Vector K) :=
  if st0.s ≠ -1 ∧ mat.mapKsWidth > 0 then
    let p0 := stToXy st0 mat.mapKsWidth mat.mapKsHeight
    match getAt mat.mapKsData (mat.mapKsWidth * p0.2 + p0.1) with
    | none => none
    | some specCol1 =>
      let p1 := stToXy st1 mat.mapKsWidth mat.mapKsHeight
      match getAt mat.mapKsData (mat.mapKsWidth * p1.2 + p1.1) with
      | none => none
      | some specCol2 =>
        let p2 := stToXy st2 mat.mapKsWidth mat.mapKsHeight
        match getAt mat.mapKsData (mat.mapKsWidth * p2.2 + p2.1) with
        | none => none
        | some specCol3 =>
          some (Add (Add (Mul (colorToVector specCol1) w) (Mul (colorToVector specCol2) u))
            (Mul (colorToVector specCol3) t))
  else some mat.specularColor

/-- The callback built by `lightingCalculator` for one triangle.  `sqrt` and `pow`
stand for `math.Sqrt` and `math.Pow`; the scene the Go closure captured is the scene
of the state the callback runs on; `mat` is `none` for a nil material. -/
def lightingCalculator {σ : Type} (sqrt : K → K) (pow : K → K → K)
    (a b c normalA normalB normalC : Vector K) (st0 st1 st2 : texCoord K)
    (lightDir : Vector K) (mat : Option (material K)) : LightingCalcCb K σ :=
  let lightDir := Mul lightDir (-1)
  fun w u t frameBufferIdx st =>
    let s := st.1
    match getAt s.Buffers.FrameBuffer frameBufferIdx with
    | none => Result.fault
    | some color =>
      let normalAvg :=
        Normalize sqrt (Add (Add (Mul normalA w) (Mul normalB u)) (Mul normalC t))
      let posAvg := Add (Add (Mul a w) (Mul b u)) (Mul c t)
      let dot := Dot normalAvg lightDir
      if dot ≥ 0 then
        match mat with
        | none => Result.ok st
        | some mat =>
          let lightCol := mat.ambientColor
          let lightCol := Add lightCol (Mul mat.diffuseColor dot)
          let eye := Normalize sqrt (Mul posAvg (-1))
          let half := Normalize sqrt (Sub eye lightDir)
          let halfNormal := max 0 (Dot half eye)
          let shininess := pow halfNormal mat.specularExponent
          match specularColorAt st0 st1 st2 mat w u t with
          | none => Result.fault
          | some specularColor =>
            let lightCol := Add lightCol (Mul specularColor shininess)
            let fb := s.Buffers.FrameBuffer.set frameBufferIdx.toNat
              (MulComponentWise color (ClampValue lightCol 0 1))
            Result.ok ({ s with Buffers := { s.Buffers with FrameBuffer := fb } }, st.2)
      else
        let fb := s.Buffers.FrameBuffer.set frameBufferIdx.toNat
          { (VectorOf 0 : Vector K) with W := 1 }
        Result.ok ({ s with Buffers := { s.Buffers with FrameBuffer := fb } }, st.2)

end

/-- The indices of one face (`parser.go`, `type indices`). -/
structure indices where
  v0 : Int
  v1 : Int
  v2 : Int
  v3 : Int
  n0 : Int
  n1 : Int
  n2 : Int
  n3 : Int
  t0 : Int
  t1 : Int
  t2 : Int
  t3 : Int
  material : Int
  hasNormals : Bool
  hasTexture : Bool
  hasFour : Bool
  deriving DecidableEq, Repr

/-- Model holds the wavefront obj model data (`parser.go`, `type Model`); the field
`materialMap`, which only the parser reads, is left out. -/
structure Model (K : Type) where
  vertices : List (Vector K)
  normals : List (Vector K)
  texCoords : List (texCoord K)
  materials : List (material K)
  triangles : List indices
  deriving DecidableEq, Repr

section
variable {K : Type} [LinearOrderedField K]

/-- NormalizeVertices puts the model vertex data into a [-1, 1] interval.  The quotient
`scale / max` is Go's when `max` is not zero. -/
def NormalizeVertices (m : Model K) (scale : K) : Model K :=
  let bb := CalculateBoundingBox m.vertices
  let bbMin := bb.1
  let bbMax := bb.2
  let mx : K := |bbMin.X|
  let mx := max mx |bbMax.X|
  let mx := max mx |bbMin.Y|
  let mx := max mx |bbMax.Y|
  let mx := max mx |bbMin.Z|
  let mx := max mx |bbMax.Z|
  let mx := scale / mx
  { m with vertices := m.vertices.map (fun v => { Mul v mx with W := 1 }) }

end

/-- The arguments of one call of `lightingCalculator`, the scene apart. -/
structure lightingArgs (K : Type) where
  a : Vector K
  b : Vector K
  c : Vector K
  normalA : Vector K
  normalB : Vector K
  normalC : Vector K
  st0 : texCoord K
  st1 : texCoord K
  st2 : texCoord K
  lightDir : Vector K
  mat : Option (material K)
  deriving DecidableEq, Repr

/-- The arguments of one call of `RasterizeTriangle` made by Render; the callback is
given by the arguments of the `lightingCalculator` call that built it, `none` for nil. -/
structure triangleCall (K : Type) where
  a : Vector K
  b : Vector K
  c : Vector K
  colorA : Vector K
  colorB : Vector K
  colorC : Vector K
  lightCalcCb : Option (lightingArgs K)
  deriving DecidableEq, Repr

section
variable {K : Type} [LinearOrderedField K] [FloorRing K]

/-- The color of the diffuse map of a material at a texture coordinate
(`pixelFromMaterial`); a sample outside the map is a fault (`none`). -/
def pixelFromMaterial (mat : material K) (st : texCoord K) : Option (Vector K) :=
  if mat.mapKdWidth = 0 then some ⟨1, 1, 1, 1⟩
  else
    let p := stToXy st mat.mapKdWidth mat.mapKdHeight
    (getAt mat.mapKdData (mat.mapKdWidth * p.2 + p.1)).map colorToVector

/-- The texture coordinates st0..st3 and the colors col1..col4 of a face
(`renderer.go` lines 100-115). -/
def faceTexture (o : Model K) (t : indices) :
    Option (texCoord K × texCoord K × texCoord K × texCoord K
      × Vector K × Vector K × Vector K × Vector K) :=
  let col1 : Vector K := ⟨1, 1, 1, 1⟩
  let st0 : texCoord K := ⟨-1, -1⟩
  if t.hasTexture ∧ o.materials.length > 0 then
    (getAt o.texCoords t.t0).bind fun st0 =>
    (getAt o.texCoords t.t1).bind fun st1 =>
    (getAt o.texCoords t.t2).bind fun st2 =>
    (getAt o.materials t.material).bind fun m =>
    (pixelFromMaterial m st0).bind fun col1 =>
    (pixelFromMaterial m st1).bind fun col2 =>
    (pixelFromMaterial m st2).bind fun col3 =>
    if t.hasFour then
      (getAt o.texCoords t.t3).bind fun st3 =>
      (pixelFromMaterial m st3).bind fun col4 =>
      some (st0, st1, st2, st3, col1, col2, col3, col4)
    else some (st0, st1, st2, ⟨-1, -1⟩, col1, col2, col3, ⟨1, 1, 1, 1⟩)
  else some (st0, st0, st0, st0, col1, col1, col1, col1)

/-- The material pointer `mat` of a face (`renderer.go` lines 117-120): nil when the face
has no material. -/
def faceMaterial (o : Model K) (t : indices) : Option (Option (material K)) :=
  if t.material ≠ -1 then (getAt o.materials t.material).map some else some none

/-- The calls of `RasterizeTriangle` one iteration of the loop of Render makes for the
face `t` (`renderer.go` lines 100-155), in order; `none` when an index of the face is
outside its slice (a run-time fault).  `DrawQuad(a, b, c, d, ca, cb, cc, cd)` is its two
calls `RasterizeTriangle(a, b, c, ca, cb, cc, nil)` and
`RasterizeTriangle(a, c, d, ca, cc, cd, nil)`. -/
def faceCalls (o : Model K) (t : indices) (useLighting : Bool) (lightDirection : Vector K) :
    Option (List (triangleCall K)) :=
  (faceTexture o t).bind fun tex =>
  (faceMaterial o t).bind fun mat =>
  let st0 := tex.1
  let st1 := tex.2.1
  let st2 := tex.2.2.1
  let st3 := tex.2.2.2.1
  let col1 := tex.2.2.2.2.1
  let col2 := tex.2.2.2.2.2.1
  let col3 := tex.2.2.2.2.2.2.1
  let col4 := tex.2.2.2.2.2.2.2
  if t.hasFour then
    if t.hasNormals then
      (if useLighting then
        (getAt o.vertices t.v0).bind fun a1 =>
        (getAt o.vertices t.v1).bind fun b1 =>
        (getAt o.vertices t.v2).bind fun c1 =>
        (getAt o.normals t.n0).bind fun na1 =>
        (getAt o.normals t.n1).bind fun nb1 =>
        (getAt o.normals t.n2).bind fun nc1 =>
        (getAt o.vertices t.v0).bind fun a2 =>
        (getAt o.vertices t.v1).bind fun b2 =>
        (getAt o.vertices t.v2).bind fun c2 =>
        (getAt o.normals t.n0).bind fun na2 =>
        (getAt o.normals t.n2).bind fun nb2 =>
        (getAt o.normals t.n3).bind fun nc2 =>
        some (some (⟨a1, b1, c1, na1, nb1, nc1, st0, st1, st2, lightDirection, mat⟩ :
                lightingArgs K),
              some (⟨a2, b2, c2, na2, nb2, nc2, st0, st2, st3, lightDirection, mat⟩ :
                lightingArgs K))
       else some (none, none)).bind fun lightingCalc =>
      (getAt o.vertices t.v0).bind fun v0 =>
      (getAt o.vertices t.v1).bind fun v1 =>
      (getAt o.vertices t.v2).bind fun v2 =>
      (getAt o.vertices t.v3).bind fun v3 =>
      some [⟨v0, v1, v2, col1, col2, col3, lightingCalc.1⟩,
            ⟨v0, v2, v3, col1, col3, col4, lightingCalc.2⟩]
    else
      (getAt o.vertices t.v0).bind fun v0 =>
      (getAt o.vertices t.v1).bind fun v1 =>
      (getAt o.vertices t.v2).bind fun v2 =>
      (getAt o.vertices t.v3).bind fun v3 =>
      some [⟨v0, v1, v2, col1, col2, col3, none⟩, ⟨v0, v2, v3, col1, col3, col4, none⟩]
  else
    if t.hasNormals then
      (if useLighting then
        (getAt o.vertices t.v0).bind fun a1 =>
        (getAt o.vertices t.v1).bind fun b1 =>
        (getAt o.vertices t.v2).bind fun c1 =>
        (getAt o.normals t.n0).bind fun na1 =>
        (getAt o.normals t.n1).bind fun nb1 =>
        (getAt o.normals t.n2).bind fun nc1 =>
        some (some (⟨a1, b1, c1, na1, nb1, nc1, st0, st1, st2, lightDirection, mat⟩ :
                lightingArgs K))
       else some none).bind fun lightingCalc =>
      (getAt o.vertices t.v0).bind fun v0 =>
      (getAt o.vertices t.v1).bind fun v1 =>
      (getAt o.vertices t.v2).bind fun v2 =>
      some [⟨v0, v1, v2, col1, col2, col3, lightingCalc⟩]
    else
      (getAt o.vertices t.v0).bind fun v0 =>
      (getAt o.vertices t.v1).bind fun v1 =>
      (getAt o.vertices t.v2).bind fun v2 =>
      some [⟨v0, v1, v2, col1, col2, col3, none⟩]

/-- One call of `RasterizeTriangle` of Render run on a scene: the callback is the one
`lightingCalculator` builds from the recorded arguments. -/
def runCall (sqrt : K → K) (pow : K → K → K) (s : Scene K) (d : triangleCall K) :
    Result (Scene K) :=
  match RasterizeTriangle s d.a d.b d.c d.colorA d.colorB d.colorC
      (d.lightCalcCb.map fun l =>
        (lightingCalculator sqrt pow l.a l.b l.c l.normalA l.normalB l.normalC
          l.st0 l.st1 l.st2 l.lightDir l.mat : LightingCalcCb K Unit)) () with
  | Result.ok st => Result.ok st.1
  | Result.fault => Result.fault
  | Result.outOfFuel => Result.outOfFuel

/-- The calls of one face run in order. -/
def runCalls (sqrt : K → K) (pow : K → K → K) : List (triangleCall K) → Scene K → Result (Scene K)
  | [], s => Result.ok s
  | d :: ds, s =>
    match runCall sqrt pow s d with
    | Result.ok s1 => runCalls sqrt pow ds s1
    | Result.fault => Result.fault
    | Result.outOfFuel => Result.outOfFuel

/-- The loop `for _, t := range o.triangles` of Render over the faces that remain. -/
def renderFaces (sqrt : K → K) (pow : K → K → K) (o : Model K) (useLighting : Bool)
    (lightDirection : Vector K) : List indices → Scene K → Result (Scene K)
  | [], s => Result.ok s
  | t :: ts, s =>
    match faceCalls o t useLighting lightDirection with
    | none => Result.fault
    | some calls =>
      match runCalls sqrt pow calls s with
      | Result.ok s1 => renderFaces sqrt pow o useLighting lightDirection ts s1
      | Result.fault => Result.fault
      | Result.outOfFuel => Result.outOfFuel

/-- Render renders the obj model. -/
def Render (sqrt : K → K) (pow : K → K → K) (o : Model K) (scene : Scene K)
    (useLighting : Bool) (lightDirection : Vector K) : Result (Scene K) :=
  renderFaces sqrt pow o useLighting lightDirection o.triangles scene

end

end obj

/-! ## What the scan of a triangle holds at each pixel

The triangle loop keeps `u`, `t` and `idxOffset` in accumulators.  The functions
below name the value an accumulator has at a given step, the fragment the scan
produces for a buffer index, and a callback that records its invocations. -/

namespace rasterizer

open math3d

section
variable {K : Type} [LinearOrderedField K]

/-- The accumulator `u` after `k` executions of `u += d`. -/
def addN (d : Flt K) : Nat → Flt K → Flt K
  | 0, u => u
  | k + 1, u => addN d (k) (u + d)

/-- The accumulator `u` at the start of row `j` of the scan: every row adds `ux` once
per column and then `uy - n*ux`. -/
def rowStart (cols : Nat) (ux uy : Flt K) (n : K) : Nat → Flt K → Flt K
  | 0, u => u
  | j + 1, u => rowStart cols ux uy n j (addN ux cols u + (uy - Flt.fin n * ux))

/-- The inside test `t >= 0 && u >= 0 && t+u <= 1` of the triangle loop. -/
def insideTriangle (u t : Flt K) : Bool :=
  Flt.ge t (Flt.fin 0) && Flt.ge u (Flt.fin 0) && Flt.le (t + u) (Flt.fin 1)

/-- One cell of the two buffers: the color and the depth stored for a pixel. -/
abbrev Cell (K : Type) : Type := Vector K × K

/-- The cell of buffer index `i`, if `i` is inside both buffers. -/
def cellAt (s : Scene K) (i : Int) : Option (Cell K) :=
  match getAt s.Buffers.FrameBuffer i, getAt s.Buffers.DepthBuffer i with
  | some col, some d => some (col, d)
  | _, _ => none

/-- The candidate depth `a.Z*w + b.Z*u + c.Z*t` of a fragment with weights `u`, `t`. -/
def fragDepth (a b c : Vector K) (u t : K) : K :=
  a.Z * (1 - u - t) + b.Z * u + c.Z * t

/-- The color `lerpTriColor(colorA, colorB, colorC, w, u, t)` of a fragment. -/
def fragColor (colorA colorB colorC : Vector K) (u t : K) : Vector K :=
  lerpTriColor colorA colorB colorC (1 - u - t) u t

/-- The depth test and write of the triangle loop on one cell: a fragment with
weights `u`, `t` replaces the cell when its depth is at least 0 and at most the
stored depth. -/
def shade (a b c colorA colorB colorC : Vector K) (u t : K) (cell : Cell K) : Cell K :=
  if 0 ≤ fragDepth a b c u t ∧ fragDepth a b c u t ≤ cell.2 then
    (fragColor colorA colorB colorC u t, fragDepth a b c u t)
  else cell

variable [FloorRing K]

/-- The values of `u` and `t` the scan of the screen-space triangle `a`, `b`, `c`
holds when it tests the pixel in column `i` and row `j` of the bounding box. -/
def weightsAt (a b c : Vector K) (i j : Nat) : Flt K × Flt K :=
  let bbMinX : Int := Int.ceil (min (min a.X b.X) c.X)
  let bbMinY : Int := Int.ceil (min (min a.Y b.Y) c.Y)
  let bbMaxX : Int := Int.ceil (max (max a.X b.X) c.X)
  let u := sf bbMinX bbMinY a b c
  let ux := sf (bbMinX + 1) bbMinY a b c - u
  let uy := sf bbMinX (bbMinY + 1) a b c - u
  let t := tf bbMinX bbMinY a b c
  let tx := tf (bbMinX + 1) bbMinY a b c - t
  let ty := tf bbMinX (bbMinY + 1) a b c - t
  let n : K := ((bbMaxX - bbMinX + 1 : Int) : K)
  let cols := (bbMaxX - bbMinX + 1).toNat
  (addN ux i (rowStart cols ux uy n j u), addN tx i (rowStart cols tx ty n j t))

/-- The fragment the scan of the screen-space triangle `a`, `b`, `c` produces for
buffer index `idx` in a viewport of the given width and height: the weights (u, t)
of the pixel with that index, when the pixel lies in the viewport and in the
bounding box and passes the inside test. -/
def fragmentAt (width height : Int) (a b c : Vector K) (idx : Int) : Option (K × K) :=
  let bbMinX : Int := Int.ceil (min (min a.X b.X) c.X)
  let bbMinY : Int := Int.ceil (min (min a.Y b.Y) c.Y)
  let bbMaxX : Int := Int.ceil (max (max a.X b.X) c.X)
  let bbMaxY : Int := Int.ceil (max (max a.Y b.Y) c.Y)
  let x := idx % width
  let y := idx / width
  if 0 ≤ idx ∧ idx < width * height ∧ bbMinX ≤ x ∧ x ≤ bbMaxX ∧ bbMinY ≤ y ∧ y ≤ bbMaxY then
    let ut := weightsAt a b c (x - bbMinX).toNat (y - bbMinY).toNat
    if insideTriangle ut.1 ut.2 then some (ut.1.val, ut.2.val) else none
  else none

/-- The effect of scanning a triangle on the cell of buffer index `idx`. -/
def shadeAt (width height : Int) (a b c colorA colorB colorC : Vector K) (idx : Int)
    (cell : Cell K) : Cell K :=
  match fragmentAt width height a b c idx with
  | some ut => shade a b c colorA colorB colorC ut.1 ut.2 cell
  | none => cell

end

/-- One record of the recording callback: the arguments of the invocation and the
cell of the index it was given, as stored at the time of the invocation. -/
structure Call (K : Type) where
  w : K
  u : K
  t : K
  idx : Int
  cell : Option (Cell K)

/-- A callback that appends a record of each invocation to its state and leaves the
scene alone. -/
def recorder {K : Type} [LinearOrderedField K] : LightingCalcCb K (List (Call K)) :=
  fun w u t idx st => Result.ok (st.1, st.2 ++ [⟨w, u, t, idx, cellAt st.1 idx⟩])

/-- The test `insideViewport` of the triangle loop. -/
def inViewport {K : Type} (s : Scene K) (x y : Int) : Bool :=
  decide (x ≥ 0) && decide (x < s.width) && decide (y ≥ 0) && decide (y < s.height)

/-- The scene with the cell of index `idx` replaced. -/
def writeCell {K : Type} (s : Scene K) (idx : Int) (cell : Cell K) : Scene K :=
  { s with Buffers := ⟨s.Buffers.FrameBuffer.set idx.toNat cell.1,
                       s.Buffers.DepthBuffer.set idx.toNat cell.2⟩ }

section
variable {K : Type} [LinearOrderedField K]
variable (a b c colorA colorB colorC : Vector K)

/-- The scene after the loop body has run for pixel (x, y) with weights `u`, `t`. -/
def pixelScene (s : Scene K) (x y : Int) (u t : Flt K) : Scene K :=
  if inViewport s x y && insideTriangle u t then
    match cellAt s (s.width * y + x) with
    | some cell =>
      if 0 ≤ fragDepth a b c u.val t.val ∧ fragDepth a b c u.val t.val ≤ cell.2 then
        writeCell s (s.width * y + x)
          (fragColor colorA colorB colorC u.val t.val, fragDepth a b c u.val t.val)
      else s
    | none => s
  else s

/-- The record the recording callback makes for pixel (x, y), if the loop body
invokes the callback there. -/
def callOf (s : Scene K) (x y : Int) (u t : Flt K) : Option (Call K) :=
  if inViewport s x y && insideTriangle u t then
    match cellAt s (s.width * y + x) with
    | some cell =>
      if 0 ≤ fragDepth a b c u.val t.val ∧ fragDepth a b c u.val t.val ≤ cell.2 then
        some ⟨1 - u.val - t.val, u.val, t.val, s.width * y + x,
          some (fragColor colorA colorB colorC u.val t.val, fragDepth a b c u.val t.val)⟩
      else none
    | none => none
  else none

/-- The scene after `k` iterations of the inner loop starting at column `x`. -/
def rowScene (ux tx : Flt K) (y : Int) : Nat → Int → Flt K → Flt K → Scene K → Scene K
  | 0, _, _, _, s => s
  | k + 1, x, u, t, s =>
    rowScene ux tx y k (x + 1) (u + ux) (t + tx) (pixelScene a b c colorA colorB colorC s x y u t)

/-- The records made during `k` iterations of the inner loop starting at column `x`. -/
def rowCalls (ux tx : Flt K) (y : Int) : Nat → Int → Flt K → Flt K → Scene K → List (Call K)
  | 0, _, _, _, _ => []
  | k + 1, x, u, t, s =>
    (callOf a b c colorA colorB colorC s x y u t).toList ++
      rowCalls ux tx y k (x + 1) (u + ux) (t + tx) (pixelScene a b c colorA colorB colorC s x y u t)

/-- The scene after `k` iterations of the outer loop starting at row `y`. -/
def rowsScene (bbMinX : Int) (cols : Nat) (ux uy tx ty : Flt K) (n : K) :
    Nat → Int → Flt K → Flt K → Scene K → Scene K
  | 0, _, _, _, s => s
  | k + 1, y, u, t, s =>
    rowsScene bbMinX cols ux uy tx ty n k (y + 1)
      (addN ux cols u + (uy - Flt.fin n * ux)) (addN tx cols t + (ty - Flt.fin n * tx))
      (rowScene a b c colorA colorB colorC ux tx y cols bbMinX u t s)

/-- The records made during `k` iterations of the outer loop starting at row `y`. -/
def rowsCalls (bbMinX : Int) (cols : Nat) (ux uy tx ty : Flt K) (n : K) :
    Nat → Int → Flt K → Flt K → Scene K → List (Call K)
  | 0, _, _, _, _ => []
  | k + 1, y, u, t, s =>
    rowCalls a b c colorA colorB colorC ux tx y cols bbMinX u t s ++
      rowsCalls bbMinX cols ux uy tx ty n k (y + 1)
        (addN ux cols u + (uy - Flt.fin n * ux)) (addN tx cols t + (ty - Flt.fin n * tx))
        (rowScene a b c colorA colorB colorC ux tx y cols bbMinX u t s)

end

section
variable {K : Type} [LinearOrderedField K]

/-- The interpolation parameter `t` RasterizeLine computes at pixel (x0, y0); `a`, `b`
are the screen-space endpoints. -/
def lineParam (a b : Vector K) (x0 y0 : Int) : Flt K :=
  if b.X - a.X = 0 then Flt.div ((y0 : K) - a.Y) (b.Y - a.Y)
  else Flt.div ((x0 : K) - a.X) (b.X - a.X)

/-- The candidate depth `a.Z*(1-t) + b.Z*t` RasterizeLine computes at pixel (x0, y0). -/
def lineDepth (a b : Vector K) (x0 y0 : Int) : Flt K :=
  Flt.fin a.Z * (Flt.fin 1 - lineParam a b x0 y0) + Flt.fin b.Z * lineParam a b x0 y0

/-- The condition under which RasterizeLine writes pixel (x0, y0). -/
def lineWrites (s : Scene K) (a b : Vector K) (x0 y0 : Int) : Bool :=
  decide (y0 ≥ 0) && decide (y0 < s.height) && decide (x0 ≥ 0) && decide (x0 < s.width)
    && Flt.ge (lineDepth a b x0 y0) (Flt.fin 0) && Flt.le (lineDepth a b x0 y0) (Flt.fin 1)

/-- The color and depth RasterizeLine writes at pixel (x0, y0). -/
def lineCell (a b colorA colorB : Vector K) (x0 y0 : Int) : Cell K :=
  (lerpTriColor colorA colorB Vector.zero (Flt.fin 1 - lineParam a b x0 y0).val
     (lineParam a b x0 y0).val 0,
   (lineDepth a b x0 y0).val)

/-- The scene after the loop body of RasterizeLine has run for pixel (x0, y0). -/
def linePixelScene (a b colorA colorB : Vector K) (x0 y0 : Int) (s : Scene K) : Scene K :=
  if lineWrites s a b x0 y0 then writeCell s (s.width * y0 + x0) (lineCell a b colorA colorB x0 y0)
  else s

end

/-- A scene as NewScene builds it: both buffers have the same length and hold at least
`width * height` cells. -/
def Scene.WellFormed {K : Type} (s : Scene K) : Prop :=
  0 ≤ s.width ∧ 0 ≤ s.height ∧
    s.width * s.height ≤ s.Buffers.FrameBuffer.length ∧
    s.Buffers.DepthBuffer.length = s.Buffers.FrameBuffer.length

instance {K : Type} (s : Scene K) : Decidable s.WellFormed := by
  unfold Scene.WellFormed
  infer_instance

/-- The second scene differs from the first in the contents of the buffers only. -/
def Scene.SameFrame {K : Type} (s s1 : Scene K) : Prop :=
  s1.ModelViewMatrix = s.ModelViewMatrix ∧ s1.ProjectionMatrix = s.ProjectionMatrix ∧
    s1.ViewportMatrix = s.ViewportMatrix ∧ s1.width = s.width ∧ s1.height = s.height ∧
    s1.wh = s.wh ∧ s1.Buffers.FrameBuffer.length = s.Buffers.FrameBuffer.length ∧
    s1.Buffers.DepthBuffer.length = s.Buffers.DepthBuffer.length

end rasterizer

/-! ## Reference runs: the scan that recomputes the formula, the pixels of a line -/

namespace rasterizer

open math3d

section
variable {K : Type} [LinearOrderedField K]

/-- The inner loop of the scan that recomputes the barycentric formula at every pixel:
the loop body of RasterizeTriangle (`trianglePixel`) is run for the pixels
x, x+1, ... of row y with `u = sf(x, y, a, b, c)`, `t = tf(x, y, a, b, c)` and the buffer
index `width*y + x`, none of them carried over from the pixel before. -/
def directRow {σ : Type} (a b c colorA colorB colorC : Vector K)
    (lightCalcCb : Option (LightingCalcCb K σ)) (y : Int) :
    Nat → Int → Scene K × σ → Result (Scene K × σ)
  | 0, _, st => Result.ok st
  | k + 1, x, st =>
    match trianglePixel a b c colorA colorB colorC lightCalcCb x y (st.1.width * y + x)
        (sf x y a b c) (tf x y a b c) st with
    | Result.ok st1 => directRow a b c colorA colorB colorC lightCalcCb y k (x + 1) st1
    | Result.fault => Result.fault
    | Result.outOfFuel => Result.outOfFuel

/-- The outer loop of the scan that recomputes the barycentric formula at every pixel. -/
def directRows {σ : Type} (a b c colorA colorB colorC : Vector K)
    (lightCalcCb : Option (LightingCalcCb K σ)) (bbMinX : Int) (cols : Nat) :
    Nat → Int → Scene K × σ → Result (Scene K × σ)
  | 0, _, st => Result.ok st
  | k + 1, y, st =>
    match directRow a b c colorA colorB colorC lightCalcCb y cols bbMinX st with
    | Result.ok st1 => directRows a b c colorA colorB colorC lightCalcCb bbMinX cols k (y + 1) st1
    | Result.fault => Result.fault
    | Result.outOfFuel => Result.outOfFuel

variable [FloorRing K]

/-- The scan of the bounding box of the screen-space triangle `a`, `b`, `c` that
recomputes the barycentric formula at every pixel: the reference the incremental scan of
RasterizeTriangle (`scanTriangle`) is compared with. -/
def scanTriangleDirect {σ : Type} (a b c colorA colorB colorC : Vector K)
    (lightCalcCb : Option (LightingCalcCb K σ)) (st : Scene K × σ) : Result (Scene K × σ) :=
  let bbMinX : Int := Int.ceil (min (min a.X b.X) c.X)
  let bbMinY : Int := Int.ceil (min (min a.Y b.Y) c.Y)
  let bbMaxX : Int := Int.ceil (max (max a.X b.X) c.X)
  let bbMaxY : Int := Int.ceil (max (max a.Y b.Y) c.Y)
  directRows a b c colorA colorB colorC lightCalcCb bbMinX (bbMaxX - bbMinX + 1).toNat
    (bbMaxY - bbMinY + 1).toNat bbMinY st

/-- RasterizeTriangle with the barycentric formula recomputed at every pixel. -/
def RasterizeTriangleDirect {σ : Type} (s : Scene K) (a b c colorA colorB colorC : Vector K)
    (lightCalcCb : Option (LightingCalcCb K σ)) (e : σ) : Result (Scene K × σ) :=
  let a := VectorToScreencoords s a
  let b := VectorToScreencoords s b
  let c := VectorToScreencoords s c
  scanTriangleDirect a b c colorA colorB colorC lightCalcCb (s, e)

end

/-- The pixels at which the loop of RasterizeLine runs its body, in the order of the
iterations: the control flow of `lineLoop` (the `break` test and the Bresenham update of
`x0`, `y0`, `err`) without the buffer writes; `none` when the bound on the iterations is
reached before the `break`. -/
def lineVisits (x1 y1 dx dy sx sy : Int) : Nat → Int → Int → Int → Option (List (Int × Int))
  | 0, _, _, _ => none
  | fuel + 1, x0, y0, err =>
    if x0 = x1 ∧ y0 = y1 then some [(x0, y0)]
    else
      let e2 := 2 * err
      let err1 := if e2 ≥ dy then err + dy else err
      let x0n := if e2 ≥ dy then x0 + sx else x0
      let err2 := if e2 ≤ dx then err1 + dx else err1
      let y0n := if e2 ≤ dx then y0 + sy else y0
      (lineVisits x1 y1 dx dy sx sy fuel x0n y0n err2).map (fun l => (x0, y0) :: l)

/-- The pixels RasterizeLine visits for the screen-space endpoints `a`, `b`. -/
def scanLineVisits {K : Type} [LinearOrderedField K] [FloorRing K] (fuel : Nat)
    (a b : Vector K) : Option (List (Int × Int)) :=
  let x0 := toInt a.X
  let y0 := toInt a.Y
  let x1 := toInt b.X
  let y1 := toInt b.Y
  let dx : Int := |x1 - x0|
  let sx : Int := if x0 ≥ x1 then -1 else 1
  let dy : Int := -|y1 - y0|
  let sy : Int := if y0 ≥ y1 then -1 else 1
  let err := dx + dy
  lineVisits x1 y1 dx dy sx sy fuel x0 y0 err

end rasterizer

/-! ## Concrete inputs -/

namespace demo

open math3d rasterizer

/-- A scene over the rationals whose three matrices are the identity, with the given
size and buffers. -/
def scene (width height : Int) (fb : List (Vector ℚ)) (db : List ℚ) : Scene ℚ :=
  { ModelViewMatrix := IdentityMatrix
    ProjectionMatrix := IdentityMatrix
    ViewportMatrix := IdentityMatrix
    Buffers := ⟨fb, db⟩
    width := width
    height := height
    wh := width * height }

/-- The point (x, y, z, 1). -/
def pt (x y z : ℚ) : Vector ℚ := ⟨x, y, z, 1⟩

/-- The color black. -/
def black : Vector ℚ := ⟨0, 0, 0, 1⟩

/-- The color red. -/
def red : Vector ℚ := ⟨1, 0, 0, 1⟩

/-- The color green. -/
def green : Vector ℚ := ⟨0, 1, 0, 1⟩

/-- The color white. -/
def white : Vector ℚ := ⟨1, 1, 1, 1⟩

end demo

namespace demo

open math3d rasterizer obj

/-- A material without texture maps. -/
def grey : material ℚ :=
  { idx := 0, name := "grey", mapKd := "", mapKs := ""
    ambientColor := ⟨1 / 10, 1 / 10, 1 / 10, 1⟩
    diffuseColor := ⟨1 / 2, 1 / 2, 1 / 2, 1⟩
    specularColor := ⟨1, 1, 1, 1⟩
    specularExponent := 10
    mapKdData := [], mapKdWidth := 0, mapKdHeight := 0
    mapKsData := [], mapKsWidth := 0, mapKsHeight := 0 }

/-- A face with four vertices and four normals, no texture, material 0. -/
def quadFace : indices :=
  { v0 := 0, v1 := 1, v2 := 2, v3 := 3, n0 := 0, n1 := 1, n2 := 2, n3 := 3
    t0 := 0, t1 := 0, t2 := 0, t3 := 0, material := 0
    hasNormals := true, hasTexture := false, hasFour := true }

/-- A model that consists of one quad, the unit square in the plane z = -2, with a
normal of its own at every vertex. -/
def quad : Model ℚ :=
  { vertices := [pt 0 0 (-2), pt 1 0 (-2), pt 1 1 (-2), pt 0 1 (-2)]
    normals := [⟨0, 0, 1, 1⟩, ⟨1, 0, 0, 1⟩, ⟨0, 1, 0, 1⟩, ⟨0, 0, -1, 1⟩]
    texCoords := []
    materials := [grey]
    triangles := [quadFace] }

end demo

/-! ## The numbers of `float64`

The definitions above compute over an exact field.  The definitions of this part
compute what the Go program computes on its `float64` values: IEEE 754 binary64 with
round to nearest, ties to even, every operation rounded by itself (the Go compiler
for amd64 does not fuse a multiplication with an addition).  A finite value is held
as the rational number it stands for. -/

/-- A value of Go's `float64`: a finite number other than the negative zero (as the
rational it stands for), the negative zero, the two infinities, or a NaN. -/
inductive F64 where
  | fin (q : ℚ)
  | nzero
  | pinf
  | ninf
  | nan
  deriving DecidableEq, Repr

namespace F64

/-- The power `2^e` for an integer exponent. -/
def pow2 (e : Int) : ℚ :=
  if 0 ≤ e then ((2 ^ e.toNat : Nat) : ℚ) else 1 / ((2 ^ (-e).toNat : Nat) : ℚ)

/-- The halvings of `n` down to 1, at most `fuel` of them. -/
def log2Aux : Nat → Nat → Nat
  | 0, _ => 0
  | fuel + 1, n => if n < 2 then 0 else log2Aux fuel (n / 2) + 1

/-- The exponent of a positive natural number: the `e` with `2^e ≤ n < 2^(e+1)`. -/
def log2 (n : Nat) : Nat := log2Aux n n

/-- The exponent of a positive rational: the integer `e` with `2^e ≤ q < 2^(e+1)`. -/
def ilog2 (q : ℚ) : Int :=
  let e : Int := (log2 q.num.toNat : Int) - (log2 q.den : Int)
  if q < pow2 e then e - 1 else e

/-- The integer nearest to a rational that is not negative, a tie going to the even
one. -/
def roundHalfEven (q : ℚ) : Int :=
  let f : Int := q.num / q.den
  let r : ℚ := q - f
  if r < 1 / 2 then f else if 1 / 2 < r then f + 1 else if f % 2 = 0 then f else f + 1

/-- The `float64` nearest to a rational number (ties to even): 53 significant bits,
exponents from -1022 (below it the subnormal spacing `2^-1074`) to 1023; a result of
size `2^1024` or more is an infinity, a result that rounds to zero keeps the sign. -/
def round (q : ℚ) : F64 :=
  if q = 0 then fin 0
  else
    let a : ℚ := if q < 0 then -q else q
    let e : Int := max (ilog2 a) (-1022)
    let quantum : ℚ := pow2 (e - 52)
    let r : ℚ := (roundHalfEven (a / quantum) : ℚ) * quantum
    if pow2 1024 ≤ r then (if q < 0 then ninf else pinf)
    else if r = 0 then (if q < 0 then nzero else fin 0)
    else fin (if q < 0 then -r else r)

/-- The sign bit. -/
def sign : F64 → Bool
  | fin q => decide (q < 0)
  | nzero => true
  | pinf => false
  | ninf => true
  | nan => false

/-- Whether the value is one of the two zeros. -/
def isZero : F64 → Bool
  | fin q => decide (q = 0)
  | nzero => true
  | _ => false

/-- Whether the value is one of the two infinities. -/
def isInf : F64 → Bool
  | pinf => true
  | ninf => true
  | _ => false

/-- Whether the value is a NaN. -/
def isNaN : F64 → Bool
  | nan => true
  | _ => false

/-- The number a finite value stands for (0 for the others). -/
def val : F64 → ℚ
  | fin q => q
  | _ => 0

/-- The zero with the given sign bit. -/
def signedZero (s : Bool) : F64 := if s then nzero else fin 0

/-- The infinity with the given sign bit. -/
def signedInf (s : Bool) : F64 := if s then ninf else pinf

/-- Unary minus: flips the sign bit. -/
def neg : F64 → F64
  | fin q => if q = 0 then nzero else fin (-q)
  | nzero => fin 0
  | pinf => ninf
  | ninf => pinf
  | nan => nan

/-- The sum `x + y`. -/
def add (x y : F64) : F64 :=
  if x.isNaN || y.isNaN then nan
  else if x.isInf && y.isInf then (if x.sign == y.sign then x else nan)
  else if x.isInf then x
  else if y.isInf then y
  else if x.isZero && y.isZero then signedZero (x.sign && y.sign)
  else round (x.val + y.val)

/-- The difference `x - y`. -/
def sub (x y : F64) : F64 := add x (neg y)

/-- The product `x * y`. -/
def mul (x y : F64) : F64 :=
  if x.isNaN || y.isNaN then nan
  else if (x.isZero && y.isInf) || (x.isInf && y.isZero) then nan
  else if x.isInf || y.isInf then signedInf (x.sign != y.sign)
  else if x.isZero || y.isZero then signedZero (x.sign != y.sign)
  else round (x.val * y.val)

/-- The quotient `x / y`. -/
def div (x y : F64) : F64 :=
  if x.isNaN || y.isNaN then nan
  else if (x.isZero && y.isZero) || (x.isInf && y.isInf) then nan
  else if x.isInf || y.isZero then signedInf (x.sign != y.sign)
  else if y.isInf || x.isZero then signedZero (x.sign != y.sign)
  else round (x.val / y.val)

/-- The comparison `x <= y`; false when one side is a NaN. -/
def le (x y : F64) : Bool :=
  if x.isNaN || y.isNaN then false
  else
    match x, y with
    | ninf, _ => true
    | _, pinf => true
    | pinf, _ => false
    | _, ninf => false
    | _, _ => decide (x.val ≤ y.val)

/-- The comparison `x < y`; false when one side is a NaN. -/
def lt (x y : F64) : Bool :=
  if x.isNaN || y.isNaN then false else !(le y x)

/-- The comparison `x >= y`. -/
def ge (x y : F64) : Bool := le y x

/-- The comparison `x > y`. -/
def gt (x y : F64) : Bool := lt y x

/-- The comparison `x == y`: the two zeros are equal, a NaN equals nothing. -/
def eq (x y : F64) : Bool := le x y && le y x

/-- The conversion `float64(i)` of an integer. -/
def ofInt (i : Int) : F64 := round (i : ℚ)

/-- The conversion `int(x)`: truncation toward zero; for a value that does not fit
in 64 bits, an infinity or a NaN the amd64 instruction gives `-2^63`. -/
def toInt : F64 → Int
  | fin q =>
    let i : Int := if 0 ≤ q then q.num / q.den else -((-q.num) / q.den)
    if -(2 : Int) ^ 63 ≤ i ∧ i < (2 : Int) ^ 63 then i else -(2 : Int) ^ 63
  | nzero => 0
  | _ => -(2 : Int) ^ 63

/-- The library function `math.Ceil`: the least integer value not below `x`;
`Ceil(±0) = ±0`, `Ceil(±Inf) = ±Inf`, `Ceil(NaN) = NaN`, and a value in (-1, 0) goes
to the negative zero. -/
def Ceil : F64 → F64
  | fin q =>
    let c : Int := -((-q.num) / q.den)
    if c = 0 ∧ q < 0 then nzero else fin c
  | x => x

/-- The library function `math.Min`: `Min(x, -Inf) = Min(-Inf, x) = -Inf`,
`Min(x, NaN) = Min(NaN, x) = NaN`, `Min(-0, ±0) = Min(±0, -0) = -0`. -/
def Min (x y : F64) : F64 :=
  if x = ninf ∨ y = ninf then ninf
  else if x.isNaN || y.isNaN then nan
  else if x.isZero && y.isZero then (if x.sign then x else y)
  else if lt x y then x else y

/-- The library function `math.Max`: `Max(x, +Inf) = Max(+Inf, x) = +Inf`,
`Max(x, NaN) = Max(NaN, x) = NaN`, `Max(+0, ±0) = Max(±0, +0) = +0`. -/
def Max (x y : F64) : F64 :=
  if x = pinf ∨ y = pinf then pinf
  else if x.isNaN || y.isNaN then nan
  else if x.isZero && y.isZero then (if x.sign then y else x)
  else if gt x y then x else y

instance : Add F64 := ⟨add⟩
instance : Sub F64 := ⟨sub⟩
instance : Mul F64 := ⟨mul⟩
instance : Div F64 := ⟨div⟩
instance : Neg F64 := ⟨neg⟩
instance (n : Nat) : OfNat F64 n := ⟨round (n : ℚ)⟩

end F64

/-! ## The transform and the triangle scan on `float64`

The same Go functions as above, now with the arithmetic of `float64`: each product,
sum, difference and quotient is rounded, a division by zero gives an infinity or a
NaN, and the comparisons of the triangle loop are false on a NaN.  The operations
are taken in the order in which the Go expressions evaluate them (left to right,
products before sums). -/

namespace math3d

namespace binary64

/-- Add w to v (`vector.go`, `Add`). -/
def Add (v w : Vector F64) : Vector F64 := ⟨v.X + w.X, v.Y + w.Y, v.Z + w.Z, 1⟩

/-- Mul f to a vector v (`vector.go`, `Mul`). -/
def Mul (v : Vector F64) (f : F64) : Vector F64 := ⟨v.X * f, v.Y * f, v.Z * f, 1⟩

/-- IdentityMatrix returns the identity matrix. -/
def IdentityMatrix : Matrix F64 :=
  ⟨⟨1, 0, 0, 0⟩, ⟨0, 1, 0, 0⟩, ⟨0, 0, 1, 0⟩, ⟨0, 0, 0, 1⟩⟩

/-- Multiply returns the product of: m * n. -/
def Multiply (m n : Matrix F64) : Matrix F64 :=
  { X := ⟨m.X.X * n.X.X + m.Y.X * n.X.Y + m.Z.X * n.X.Z + m.W.X * n.X.W,
          m.X.Y * n.X.X + m.Y.Y * n.X.Y + m.Z.Y * n.X.Z + m.W.Y * n.X.W,
          m.X.Z * n.X.X + m.Y.Z * n.X.Y + m.Z.Z * n.X.Z + m.W.Z * n.X.W,
          m.X.W * n.X.X + m.Y.W * n.X.Y + m.Z.W * n.X.Z + m.W.W * n.X.W⟩
    Y := ⟨m.X.X * n.Y.X + m.Y.X * n.Y.Y + m.Z.X * n.Y.Z + m.W.X * n.Y.W,
          m.X.Y * n.Y.X + m.Y.Y * n.Y.Y + m.Z.Y * n.Y.Z + m.W.Y * n.Y.W,
          m.X.Z * n.Y.X + m.Y.Z * n.Y.Y + m.Z.Z * n.Y.Z + m.W.Z * n.Y.W,
          m.X.W * n.Y.X + m.Y.W * n.Y.Y + m.Z.W * n.Y.Z + m.W.W * n.Y.W⟩
    Z := ⟨m.X.X * n.Z.X + m.Y.X * n.Z.Y + m.Z.X * n.Z.Z + m.W.X * n.Z.W,
          m.X.Y * n.Z.X + m.Y.Y * n.Z.Y + m.Z.Y * n.Z.Z + m.W.Y * n.Z.W,
          m.X.Z * n.Z.X + m.Y.Z * n.Z.Y + m.Z.Z * n.Z.Z + m.W.Z * n.Z.W,
          m.X.W * n.Z.X + m.Y.W * n.Z.Y + m.Z.W * n.Z.Z + m.W.W * n.Z.W⟩
    W := ⟨m.X.X * n.W.X + m.Y.X * n.W.Y + m.Z.X * n.W.Z + m.W.X * n.W.W,
          m.X.Y * n.W.X + m.Y.Y * n.W.Y + m.Z.Y * n.W.Z + m.W.Y * n.W.W,
          m.X.Z * n.W.X + m.Y.Z * n.W.Y + m.Z.Z * n.W.Z + m.W.Z * n.W.W,
          m.X.W * n.W.X + m.Y.W * n.W.Y + m.Z.W * n.W.Z + m.W.W * n.W.W⟩ }

/-- Transform returns a transformed vector, which is m * v; for a normal vector the
W column of the matrix is left out and the result's W is 0. -/
def Transform (m : Matrix F64) (v : Vector F64) (isNormalVec : Bool) : Vector F64 :=
  if !isNormalVec then
    ⟨m.X.X * v.X + m.Y.X * v.Y + m.Z.X * v.Z + m.W.X * v.W,
     m.X.Y * v.X + m.Y.Y * v.Y + m.Z.Y * v.Z + m.W.Y * v.W,
     m.X.Z * v.X + m.Y.Z * v.Y + m.Z.Z * v.Z + m.W.Z * v.W,
     m.X.W * v.X + m.Y.W * v.Y + m.Z.W * v.Z + m.W.W * v.W⟩
  else
    ⟨m.X.X * v.X + m.Y.X * v.Y + m.Z.X * v.Z,
     m.X.Y * v.X + m.Y.Y * v.Y + m.Z.Y * v.Z,
     m.X.Z * v.X + m.Y.Z * v.Y + m.Z.Z * v.Z,
     0⟩

/-- Translate returns the matrix translated by x, y, z. -/
def Translate (m : Matrix F64) (x y z : F64) : Matrix F64 :=
  let translationMat : Matrix F64 := { IdentityMatrix with W := ⟨x, y, z, 1⟩ }
  Multiply m translationMat

/-- Scale returns the matrix scaled by x, y, z. -/
def Scale (m : Matrix F64) (x y z : F64) : Matrix F64 :=
  let i : Matrix F64 := IdentityMatrix
  let translationMat : Matrix F64 :=
    { X := { i.X with X := x }, Y := { i.Y with Y := y },
      Z := { i.Z with Z := z }, W := { i.W with W := 1 } }
  Multiply m translationMat

/-- ProjectionMatrix creates a projection matrix with the given arguments; `tan` stands
for `math.Tan` and `pi` for `math.Pi`. -/
def ProjectionMatrix (tan : F64 → F64) (pi : F64) (fov aspectRatio zNear zFar : F64) :
    Matrix F64 :=
  let t := tan (fov * pi / 360) * zNear
  let r := t * aspectRatio
  { X := ⟨zNear / r, 0, 0, 0⟩
    Y := ⟨0, zNear / t, 0, 0⟩
    Z := ⟨0, 0, (-zFar - zNear) / (zFar - zNear), -1⟩
    W := ⟨0, 0, -2 * zNear * zFar / (zFar - zNear), 0⟩ }

/-- Viewport creates a viewport matrix for a window. -/
def Viewport (x y w h : F64) : Matrix F64 :=
  let vp : Matrix F64 := IdentityMatrix
  let vp := Translate vp x y 0
  let vp := Scale vp (w / 2) (-h / 2) (1 / 2)
  let vp := Translate vp 1 (-1) 1
  vp

end binary64

end math3d

namespace rasterizer

namespace binary64

open math3d

/-- VectorToScreencoords converts a vector to screen coordinates: model-view transform,
projection, perspective divide and viewport transform. -/
def VectorToScreencoords (s : Scene F64) (v : Vector F64) : Vector F64 :=
  let v := math3d.binary64.Transform s.ModelViewMatrix v false
  let v := math3d.binary64.Transform s.ProjectionMatrix v false
  let v := math3d.binary64.Mul v (1 / v.W)
  let v := math3d.binary64.Transform s.ViewportMatrix v false
  v

/-- Barycentric blend of three colors (`lerpTriColor`). -/
def lerpTriColor (c1 c2 c3 : Vector F64) (s t u : F64) : Vector F64 :=
  math3d.binary64.Add (math3d.binary64.Add (math3d.binary64.Mul c1 s) (math3d.binary64.Mul c2 t))
    (math3d.binary64.Mul c3 u)

/-- Barycentric weight of vertex b at pixel (x, y) (`sf`). -/
def sf (x y : Int) (a b c : Vector F64) : F64 :=
  ((a.Y - c.Y) * F64.ofInt x + (c.X - a.X) * F64.ofInt y + a.X * c.Y - c.X * a.Y) /
    ((a.Y - c.Y) * b.X + (c.X - a.X) * b.Y + a.X * c.Y - c.X * a.Y)

/-- Barycentric weight of vertex c at pixel (x, y) (`tf`). -/
def tf (x y : Int) (a b c : Vector F64) : F64 :=
  ((a.Y - b.Y) * F64.ofInt x + (b.X - a.X) * F64.ofInt y + a.X * b.Y - b.X * a.Y) /
    ((a.Y - b.Y) * c.X + (b.X - a.X) * c.Y + a.X * b.Y - b.X * a.Y)

/-- The body of the inner loop of RasterizeTriangle before the increments
(`rasterizer.go` lines 147-158): inside test, depth test, the two buffer writes and
the callback.  `a`, `b`, `c` are the screen-space vertices. -/
def trianglePixel {σ : Type} (a b c colorA colorB colorC : Vector F64)
    (lightCalcCb : Option (LightingCalcCb F64 σ))
    (x y idxOffset : Int) (u t : F64) (st : Scene F64 × σ) : Result (Scene F64 × σ) :=
  let s := st.1
  let insideViewport :=
    decide (x ≥ 0) && decide (x < s.width) && decide (y ≥ 0) && decide (y < s.height)
  if F64.ge t 0 && F64.ge u 0 && F64.le (t + u) 1 && insideViewport then
    let w : F64 := 1 - u - t
    let depth : F64 := a.Z * w + b.Z * u + c.Z * t
    if F64.ge depth 0 then
      match getAt s.Buffers.DepthBuffer idxOffset with
      | none => Result.fault
      | some stored =>
        if F64.le depth stored then
          match setAt s.Buffers.FrameBuffer idxOffset
              (lerpTriColor colorA colorB colorC w u t) with
          | none => Result.fault
          | some fb =>
            match setAt s.Buffers.DepthBuffer idxOffset depth with
            | none => Result.fault
            | some db =>
              let s1 : Scene F64 := { s with Buffers := ⟨fb, db⟩ }
              match lightCalcCb with
              | none => Result.ok (s1, st.2)
              | some cb => cb w u t idxOffset (s1, st.2)
        else Result.ok st
    else Result.ok st
  else Result.ok st

/-- The inner loop `for x := bbMinX; x <= bbMaxX; x++` of RasterizeTriangle, with the
number of remaining iterations as first argument; returns the final `u`, `t` and
state. -/
def triangleRow {σ : Type} (a b c colorA colorB colorC : Vector F64)
    (lightCalcCb : Option (LightingCalcCb F64 σ)) (ux tx : F64) (y : Int) :
    Nat → Int → Int → F64 → F64 → Scene F64 × σ → Result (F64 × F64 × (Scene F64 × σ))
  | 0, _, _, u, t, st => Result.ok (u, t, st)
  | k + 1, x, idxOffset, u, t, st =>
    match trianglePixel a b c colorA colorB colorC lightCalcCb x y idxOffset u t st with
    | Result.ok st1 =>
      triangleRow a b c colorA colorB colorC lightCalcCb ux tx y k (x + 1) (idxOffset + 1)
        (u + ux) (t + tx) st1
    | Result.fault => Result.fault
    | Result.outOfFuel => Result.outOfFuel

/-- The outer loop `for y := bbMinY; y <= bbMaxY; y++` of RasterizeTriangle, with the
number of remaining rows as first argument; `cols` is the number of iterations of the
inner loop and `n` is `float64(bbMaxX - bbMinX + 1)`. -/
def triangleRows {σ : Type} (a b c colorA colorB colorC : Vector F64)
    (lightCalcCb : Option (LightingCalcCb F64 σ)) (bbMinX : Int) (cols : Nat)
    (ux uy tx ty : F64) (n : F64) :
    Nat → Int → F64 → F64 → Scene F64 × σ → Result (Scene F64 × σ)
  | 0, _, _, _, st => Result.ok st
  | k + 1, y, u, t, st =>
    let idxOffset := st.1.width * y + bbMinX
    match triangleRow a b c colorA colorB colorC lightCalcCb ux tx y cols bbMinX idxOffset
        u t st with
    | Result.ok (u1, t1, st1) =>
      triangleRows a b c colorA colorB colorC lightCalcCb bbMinX cols ux uy tx ty n k (y + 1)
        (u1 + (uy - n * ux)) (t1 + (ty - n * tx)) st1
    | Result.fault => Result.fault
    | Result.outOfFuel => Result.outOfFuel

/-- The value of an `int` expression whose value without overflow would be `i`: 64-bit
two's complement wrap-around. -/
def wrap64 (i : Int) : Int := (i + 2 ^ 63) % 2 ^ 64 - 2 ^ 63

/-- RasterizeTriangle after the three calls of VectorToScreencoords (`rasterizer.go`
lines 129-165): `a`, `b`, `c` are the screen-space vertices.  The bounds of the box are
64-bit values by `F64.toInt`; the loops run from the lower to the upper bound, so the
numbers of their iterations are the exact differences, while the `int` expression
`bbMaxX - bbMinX + 1` handed to `float64` wraps around (it can only for a coordinate
that is an infinity, a NaN or of a size near `2^63`). -/
def scanTriangle {σ : Type} (a b c colorA colorB colorC : Vector F64)
    (lightCalcCb : Option (LightingCalcCb F64 σ)) (st : Scene F64 × σ) :
    Result (Scene F64 × σ) :=
  let bbMinX : Int := F64.toInt (F64.Ceil (F64.Min (F64.Min a.X b.X) c.X))
  let bbMinY : Int := F64.toInt (F64.Ceil (F64.Min (F64.Min a.Y b.Y) c.Y))
  let bbMaxX : Int := F64.toInt (F64.Ceil (F64.Max (F64.Max a.X b.X) c.X))
  let bbMaxY : Int := F64.toInt (F64.Ceil (F64.Max (F64.Max a.Y b.Y) c.Y))
  let u := sf bbMinX bbMinY a b c
  let ux := sf (bbMinX + 1) bbMinY a b c - u
  let uy := sf bbMinX (bbMinY + 1) a b c - u
  let t := tf bbMinX bbMinY a b c
  let tx := tf (bbMinX + 1) bbMinY a b c - t
  let ty := tf bbMinX (bbMinY + 1) a b c - t
  let n : F64 := F64.ofInt (wrap64 (bbMaxX - bbMinX + 1))
  triangleRows a b c colorA colorB colorC lightCalcCb bbMinX (bbMaxX - bbMinX + 1).toNat
    ux uy tx ty n (bbMaxY - bbMinY + 1).toNat bbMinY u t st

/-- RasterizeTriangle draws a triangle with the three vectors a, b and c and the given
colors; `e` is the state captured by the callback. -/
def RasterizeTriangle {σ : Type} (s : Scene F64) (a b c colorA colorB colorC : Vector F64)
    (lightCalcCb : Option (LightingCalcCb F64 σ)) (e : σ) : Result (Scene F64 × σ) :=
  let a := VectorToScreencoords s a
  let b := VectorToScreencoords s b
  let c := VectorToScreencoords s c
  scanTriangle a b c colorA colorB colorC lightCalcCb (s, e)

/-- One record of the recording callback: the arguments of the invocation and the
cell of the index it was given, as stored at the time of the invocation. -/
structure Call where
  w : F64
  u : F64
  t : F64
  idx : Int
  cell : Option (Cell F64)
  deriving DecidableEq, Repr

/-- A callback that appends a record of each invocation to its state and leaves the
scene alone. -/
def recorder : LightingCalcCb F64 (List Call) :=
  fun w u t idx st => Result.ok (st.1, st.2 ++ [⟨w, u, t, idx, cellAt st.1 idx⟩])

/-- The arguments `(idx, w, u, t)` of the invocations a run recorded, when the run
returned. -/
def callsOf (r : Result (Scene F64 × List Call)) : Option (List (Int × F64 × F64 × F64)) :=
  match r with
  | Result.ok st => some (st.2.map (fun e => (e.idx, e.w, e.u, e.t)))
  | _ => none

/-- The color and the depth stored at a buffer index after a run, when the run
returned and the index is inside both buffers. -/
def cellOf {σ : Type} (r : Result (Scene F64 × σ)) (i : Int) : Option (Cell F64) :=
  match r with
  | Result.ok st => cellAt st.1 i
  | _ => none

/-- What a record of the recording callback says about the pixel it was made for,
between the scene `s` before a stretch of the scan and the scene `s1` after it: the
arguments passed the inside test `t >= 0 && u >= 0 && t+u <= 1`, `w` is the `float64`
value of `1 - u - t`, the index is that of a pixel (x, y) of the viewport with `P x y`,
the cell of the index held the interpolated color and depth when the callback ran and
holds them still, and this depth passed the depth test against the depth that `s`
stores. -/
def Recorded (a b c colorA colorB colorC : Vector F64) (P : Int → Int → Prop)
    (s s1 : Scene F64) (e : Call) : Prop :=
  F64.ge e.t 0 = true ∧ F64.ge e.u 0 = true ∧ F64.le (e.t + e.u) 1 = true ∧
    e.w = 1 - e.u - e.t ∧
    (∃ x y : Int, P x y ∧ 0 ≤ x ∧ x < s.width ∧ 0 ≤ y ∧ y < s.height ∧
      e.idx = s.width * y + x) ∧
    e.cell = some (lerpTriColor colorA colorB colorC e.w e.u e.t,
      a.Z * e.w + b.Z * e.u + c.Z * e.t) ∧
    cellAt s1 e.idx = e.cell ∧
    ∃ (col : Vector F64) (d : F64), cellAt s e.idx = some (col, d) ∧
      F64.ge (a.Z * e.w + b.Z * e.u + c.Z * e.t) 0 = true ∧
      F64.le (a.Z * e.w + b.Z * e.u + c.Z * e.t) d = true

/-- The effect of a stretch of the scan with the recording callback, from the scene
`s` to the scene `s1` with the records `new` appended: the frame is kept, the records
are in strictly increasing order of buffer index, each is the record of a pixel with
`P x y`, and a cell without a record is as it was. -/
def Stretch (a b c colorA colorB colorC : Vector F64) (P : Int → Int → Prop)
    (s s1 : Scene F64) (new : List Call) : Prop :=
  s.SameFrame s1 ∧
    List.Pairwise (fun e1 e2 : Call => e1.idx < e2.idx) new ∧
    (∀ e ∈ new, Recorded a b c colorA colorB colorC P s s1 e) ∧
    (∀ j : Int, (∀ e ∈ new, e.idx ≠ j) → cellAt s1 j = cellAt s j)

end binary64

end rasterizer

namespace demo

namespace binary64

open math3d rasterizer

/-- A `float64` scene whose three matrices are the identity, with the given size and
buffers. -/
def scene (width height : Int) (fb : List (Vector F64)) (db : List F64) : Scene F64 :=
  { ModelViewMatrix := math3d.binary64.IdentityMatrix
    ProjectionMatrix := math3d.binary64.IdentityMatrix
    ViewportMatrix := math3d.binary64.IdentityMatrix
    Buffers := ⟨fb, db⟩
    width := width
    height := height
    wh := width * height }

/-- A `float64` scene without buffers: identity model-view matrix,
`ProjectionMatrix(fov, w/h, zNear, zFar)` and `Viewport(0, 0, w, h)`; with 90, 1 and
1000 for `fov`, `zNear` and `zFar` these are the matrices NewScene builds. -/
def projected (tan : F64 → F64) (pi fov zNear zFar w h : F64) : Scene F64 :=
  { ModelViewMatrix := math3d.binary64.IdentityMatrix
    ProjectionMatrix := math3d.binary64.ProjectionMatrix tan pi fov (w / h) zNear zFar
    ViewportMatrix := math3d.binary64.Viewport 0 0 w h
    Buffers := ⟨[], []⟩
    width := F64.toInt w
    height := F64.toInt h
    wh := F64.toInt (w * h) }

/-- The `float64` nearest to π, the value of `math.Pi`. -/
def pi : F64 := F64.fin (884279719003555 / 281474976710656)

/-- The point (x, y, z, 1). -/
def pt (x y z : F64) : Vector F64 := ⟨x, y, z, 1⟩

/-- The color black. -/
def black : Vector F64 := ⟨0, 0, 0, 1⟩

/-- The color white. -/
def white : Vector F64 := ⟨1, 1, 1, 1⟩

end binary64

end demo

/-! ## Buffers and cells -/

namespace rasterizer

open math3d

theorem getAt_set {α : Type} (l : List α) (i j : Int) (v : α) (hi : 0 ≤ i)
    (hlt : i.toNat < l.length) :
    getAt (l.set i.toNat v) j = if j = i then some v else getAt l j := by
  unfold getAt
  by_cases hj : 0 ≤ j
  · simp only [hj, if_true, List.get?_eq_getElem?, List.getElem?_set]
    by_cases hij : j = i
    · subst hij; simp [hlt]
    · have : i.toNat ≠ j.toNat := by omega
      simp [this, hij]
  · have : j ≠ i := by omega
    simp [hj, this]

theorem getAt_eq_some_iff_lt {α : Type} (l : List α) (i : Int) :
    (∃ v, getAt l i = some v) ↔ 0 ≤ i ∧ i.toNat < l.length := by
  unfold getAt
  by_cases hi : 0 ≤ i
  · simp only [hi, if_true, List.get?_eq_getElem?, true_and]
    constructor
    · rintro ⟨v, hv⟩
      exact (List.getElem?_eq_some.1 hv).1
    · intro h
      exact ⟨l[i.toNat], List.getElem?_eq_getElem h⟩
  · simp [hi]

theorem index_bounds {W H x y : Int} (hx0 : 0 ≤ x) (hxW : x < W) (hy0 : 0 ≤ y) (hyH : y < H) :
    0 ≤ W * y + x ∧ W * y + x < W * H := by
  have hW : 0 ≤ W := by omega
  have h1 : W * y ≤ W * (H - 1) := Int.mul_le_mul_of_nonneg_left (by omega) hW
  have h2 : 0 ≤ W * y := Int.mul_nonneg hW hy0
  constructor
  · omega
  · have : W * (H - 1) = W * H - W := by ring
    omega

theorem index_inj {W x y x1 y1 : Int} (hx0 : 0 ≤ x) (hxW : x < W) (hx1 : 0 ≤ x1) (hx1W : x1 < W)
    (h : W * y + x = W * y1 + x1) : x = x1 ∧ y = y1 := by
  have hW : 0 < W := by omega
  have e1 : (W * y + x) % W = x := by
    rw [Int.add_comm, Int.add_mul_emod_self_left]; exact Int.emod_eq_of_lt hx0 hxW
  have e2 : (W * y1 + x1) % W = x1 := by
    rw [Int.add_comm, Int.add_mul_emod_self_left]; exact Int.emod_eq_of_lt hx1 hx1W
  have hx : x = x1 := by rw [← e1, ← e2, h]
  subst hx
  have : W * y = W * y1 := by omega
  exact ⟨rfl, Int.eq_of_mul_eq_mul_left (by omega) this⟩

theorem inViewport_iff {K : Type} (s : Scene K) (x y : Int) :
    inViewport s x y = true ↔ 0 ≤ x ∧ x < s.width ∧ 0 ≤ y ∧ y < s.height := by
  simp [inViewport, and_assoc]

theorem SameFrame.refl {K : Type} (s : Scene K) : s.SameFrame s := by
  simp [Scene.SameFrame]

theorem SameFrame.trans {K : Type} {s s1 s2 : Scene K} (h1 : s.SameFrame s1)
    (h2 : s1.SameFrame s2) : s.SameFrame s2 := by
  unfold Scene.SameFrame at *
  obtain ⟨a1, a2, a3, a4, a5, a6, a7, a8⟩ := h1
  obtain ⟨b1, b2, b3, b4, b5, b6, b7, b8⟩ := h2
  exact ⟨b1.trans a1, b2.trans a2, b3.trans a3, b4.trans a4, b5.trans a5, b6.trans a6,
    b7.trans a7, b8.trans a8⟩

theorem SameFrame.wellFormed {K : Type} {s s1 : Scene K} (h : s.SameFrame s1)
    (hwf : s.WellFormed) : s1.WellFormed := by
  unfold Scene.SameFrame at h
  unfold Scene.WellFormed at *
  obtain ⟨_, _, _, a4, a5, _, a7, a8⟩ := h
  rw [a4, a5, a7, a8]; exact hwf

theorem SameFrame.inViewport_eq {K : Type} {s s1 : Scene K} (h : s.SameFrame s1) (x y : Int) :
    inViewport s1 x y = inViewport s x y := by
  unfold Scene.SameFrame at h
  unfold inViewport
  rw [h.2.2.2.1, h.2.2.2.2.1]

theorem writeCell_sameFrame {K : Type} (s : Scene K) (idx : Int) (cell : Cell K) :
    s.SameFrame (writeCell s idx cell) := by
  simp [Scene.SameFrame, writeCell]

theorem cellAt_writeCell {K : Type} (s : Scene K) (idx j : Int) (cell : Cell K)
    (h0 : 0 ≤ idx) (hlt : idx.toNat < s.Buffers.FrameBuffer.length)
    (hlen : s.Buffers.DepthBuffer.length = s.Buffers.FrameBuffer.length) :
    cellAt (writeCell s idx cell) j = if j = idx then some cell else cellAt s j := by
  unfold cellAt writeCell
  rw [getAt_set _ _ _ _ h0 hlt, getAt_set _ _ _ _ h0 (hlen ▸ hlt)]
  by_cases hj : j = idx <;> simp [hj]

theorem WellFormed.cellAt_some {K : Type} {s : Scene K} (hwf : s.WellFormed) {i : Int}
    (h0 : 0 ≤ i) (hlt : i < s.width * s.height) :
    (∃ cell, cellAt s i = some cell) ∧ i.toNat < s.Buffers.FrameBuffer.length := by
  obtain ⟨_, _, hF, hD⟩ := hwf
  have hb : i.toNat < s.Buffers.FrameBuffer.length := by omega
  obtain ⟨v, hv⟩ := (getAt_eq_some_iff_lt s.Buffers.FrameBuffer i).2 ⟨h0, hb⟩
  obtain ⟨d, hd⟩ := (getAt_eq_some_iff_lt s.Buffers.DepthBuffer i).2 ⟨h0, hD ▸ hb⟩
  exact ⟨⟨(v, d), by simp [cellAt, hv, hd]⟩, hb⟩

theorem cellAt_eq_some_iff {K : Type} (s : Scene K) (j : Int) (col : Vector K) (d : K) :
    cellAt s j = some (col, d) ↔
      getAt s.Buffers.FrameBuffer j = some col ∧ getAt s.Buffers.DepthBuffer j = some d := by
  unfold cellAt
  cases getAt s.Buffers.FrameBuffer j <;> cases getAt s.Buffers.DepthBuffer j <;> simp

theorem mem_of_getAt {α : Type} {l : List α} {j : Int} {v : α} (h : getAt l j = some v) :
    v ∈ l := by
  unfold getAt at h
  split at h
  · exact List.get?_mem h
  · simp at h

theorem list_ext_getAt {α : Type} {l1 l2 : List α} (h : ∀ j : Int, getAt l1 j = getAt l2 j) :
    l1 = l2 := by
  apply List.ext_getElem?
  intro n
  have := h (n : Int)
  simpa [getAt] using this

theorem getAt_eq_none {α : Type} (l : List α) (i : Int) (h : ¬ (0 ≤ i ∧ i.toNat < l.length)) :
    getAt l i = none := by
  cases hg : getAt l i with
  | none => rfl
  | some v => exact absurd ((getAt_eq_some_iff_lt l i).1 ⟨v, hg⟩) h

end rasterizer

/-! ## The loop body of RasterizeTriangle -/

namespace rasterizer

open math3d

section
variable {K : Type} [LinearOrderedField K]
variable (a b c colorA colorB colorC : Vector K)

theorem inside_cond (s : Scene K) (x y : Int) (u t : Flt K) :
    (Flt.ge t (Flt.fin 0) && Flt.ge u (Flt.fin 0) && Flt.le (t + u) (Flt.fin 1)
      && (decide (x ≥ 0) && decide (x < s.width) && decide (y ≥ 0) && decide (y < s.height)))
    = (inViewport s x y && insideTriangle u t) := by
  unfold inViewport insideTriangle
  exact Bool.and_comm _ _

theorem fragDepth_eq (u t : K) :
    a.Z * (1 - u - t) + b.Z * u + c.Z * t = fragDepth a b c u t := rfl

theorem fragColor_eq (u t : K) :
    lerpTriColor colorA colorB colorC (1 - u - t) u t = fragColor colorA colorB colorC u t := rfl

omit [LinearOrderedField K] in
theorem WellFormed.inViewport_cell {s : Scene K} (hwf : s.WellFormed) {x y : Int}
    (hv : inViewport s x y = true) :
    ∃ col d, getAt s.Buffers.FrameBuffer (s.width * y + x) = some col ∧
      getAt s.Buffers.DepthBuffer (s.width * y + x) = some d ∧
      cellAt s (s.width * y + x) = some (col, d) ∧ 0 ≤ s.width * y + x ∧
      (s.width * y + x).toNat < s.Buffers.FrameBuffer.length ∧
      (s.width * y + x).toNat < s.Buffers.DepthBuffer.length := by
  obtain ⟨hx0, hxW, hy0, hyH⟩ := (inViewport_iff s x y).1 hv
  obtain ⟨h0, hlt⟩ := index_bounds hx0 hxW hy0 hyH
  have hF : (s.width * y + x).toNat < s.Buffers.FrameBuffer.length := by
    have := hwf.2.2.1; omega
  have hD : (s.width * y + x).toNat < s.Buffers.DepthBuffer.length := by
    rw [hwf.2.2.2]; exact hF
  obtain ⟨col, hcol⟩ := (getAt_eq_some_iff_lt s.Buffers.FrameBuffer _).2 ⟨h0, hF⟩
  obtain ⟨d, hd⟩ := (getAt_eq_some_iff_lt s.Buffers.DepthBuffer _).2 ⟨h0, hD⟩
  exact ⟨col, d, hcol, hd, by simp [cellAt, hcol, hd], h0, hF, hD⟩

theorem setAt_eq_some {α : Type} (l : List α) (i : Int) (v : α) (h0 : 0 ≤ i)
    (hlt : i.toNat < l.length) : setAt l i v = some (l.set i.toNat v) := by
  simp [setAt, h0, hlt]

/-- The loop body with the recording callback, as a function of the scene. -/
theorem trianglePixel_recorder {s : Scene K} (hwf : s.WellFormed) (x y : Int) (u t : Flt K)
    (log : List (Call K)) :
    trianglePixel a b c colorA colorB colorC (some recorder) x y (s.width * y + x) u t (s, log)
      = Result.ok (pixelScene a b c colorA colorB colorC s x y u t,
          log ++ (callOf a b c colorA colorB colorC s x y u t).toList) := by
  unfold trianglePixel pixelScene callOf
  simp only [inside_cond, fragDepth_eq, fragColor_eq]
  by_cases hcond : (inViewport s x y && insideTriangle u t) = true
  · have hv : inViewport s x y = true := by
      simp only [Bool.and_eq_true] at hcond; exact hcond.1
    obtain ⟨col, d, hcol, hd, hcell, h0, hF, hD⟩ := WellFormed.inViewport_cell hwf hv
    simp only [hcond, if_true, hcell, hd]
    by_cases h1 : 0 ≤ fragDepth a b c u.val t.val
    · by_cases h2 : fragDepth a b c u.val t.val ≤ d
      · simp only [ge_iff_le, h1, h2, if_true, and_self, setAt_eq_some _ _ _ h0 hF,
          setAt_eq_some _ _ _ h0 hD, recorder]
        have := cellAt_writeCell s (s.width * y + x) (s.width * y + x)
          (fragColor colorA colorB colorC u.val t.val, fragDepth a b c u.val t.val) h0 hF
          hwf.2.2.2
        simp only [if_true, writeCell] at this
        simp [writeCell, this]
      · simp [h1, h2]
    · simp [h1]
  · simp [hcond]

/-- The loop body without a callback, as a function of the scene. -/
theorem trianglePixel_nil {s : Scene K} (hwf : s.WellFormed) (x y : Int) (u t : Flt K) :
    trianglePixel a b c colorA colorB colorC (none : Option (LightingCalcCb K Unit)) x y
        (s.width * y + x) u t (s, ())
      = Result.ok (pixelScene a b c colorA colorB colorC s x y u t, ()) := by
  unfold trianglePixel pixelScene
  simp only [inside_cond, fragDepth_eq, fragColor_eq]
  by_cases hcond : (inViewport s x y && insideTriangle u t) = true
  · have hv : inViewport s x y = true := by
      simp only [Bool.and_eq_true] at hcond; exact hcond.1
    obtain ⟨col, d, hcol, hd, hcell, h0, hF, hD⟩ := WellFormed.inViewport_cell hwf hv
    simp only [hcond, if_true, hcell, hd]
    by_cases h1 : 0 ≤ fragDepth a b c u.val t.val
    · by_cases h2 : fragDepth a b c u.val t.val ≤ d
      · simp [h1, h2, setAt_eq_some _ _ _ h0 hF, setAt_eq_some _ _ _ h0 hD, writeCell]
      · simp [h1, h2]
    · simp [h1]
  · simp [hcond]

theorem pixelScene_sameFrame (s : Scene K) (x y : Int) (u t : Flt K) :
    s.SameFrame (pixelScene a b c colorA colorB colorC s x y u t) := by
  unfold pixelScene
  split
  · split
    · split
      · exact writeCell_sameFrame _ _ _
      · exact SameFrame.refl s
    · exact SameFrame.refl s
  · exact SameFrame.refl s

/-- The effect of the loop body on the cell of any buffer index. -/
theorem cellAt_pixelScene {s : Scene K} (hwf : s.WellFormed) (x y : Int) (u t : Flt K)
    (j : Int) :
    cellAt (pixelScene a b c colorA colorB colorC s x y u t) j =
      if j = s.width * y + x ∧ inViewport s x y = true ∧ insideTriangle u t = true then
        (cellAt s j).map (shade a b c colorA colorB colorC u.val t.val)
      else cellAt s j := by
  unfold pixelScene
  by_cases hcond : (inViewport s x y && insideTriangle u t) = true
  · have hvi := hcond
    simp only [Bool.and_eq_true] at hvi
    obtain ⟨col, d, hcol, hd, hcell, h0, hF, hD⟩ := WellFormed.inViewport_cell hwf hvi.1
    simp only [hcond, if_true, hcell, hvi.1, hvi.2, and_true]
    by_cases hdt : 0 ≤ fragDepth a b c u.val t.val ∧ fragDepth a b c u.val t.val ≤ d
    · by_cases hj : j = s.width * y + x
      · subst hj
        simp [hcell, shade, hdt, cellAt_writeCell _ _ _ _ h0 hF hwf.2.2.2]
      · simp [hj, hdt, cellAt_writeCell _ _ _ _ h0 hF hwf.2.2.2]
    · by_cases hj : j = s.width * y + x
      · subst hj
        simp [hcell, shade, hdt]
      · simp [hj, hdt]
  · have : ¬ (inViewport s x y = true ∧ insideTriangle u t = true) := by
      simpa [Bool.and_eq_true] using hcond
    simp [hcond, this]

end

end rasterizer

/-! ## The inner loop of RasterizeTriangle -/

namespace rasterizer

open math3d

theorem pixel_index_iff {W H x y j : Int} (hW : 0 ≤ W) :
    (j = W * y + x ∧ 0 ≤ x ∧ x < W ∧ 0 ≤ y ∧ y < H) ↔
      (0 ≤ j ∧ j < W * H ∧ j / W = y ∧ j % W = x) := by
  constructor
  · rintro ⟨rfl, hx0, hxW, hy0, hyH⟩
    obtain ⟨h0, hlt⟩ := index_bounds hx0 hxW hy0 hyH
    have hWpos : 0 < W := by omega
    refine ⟨h0, hlt, ?_, ?_⟩
    · rw [Int.add_comm, Int.add_mul_ediv_left _ _ (by omega), Int.ediv_eq_zero_of_lt hx0 hxW]
      simp
    · rw [Int.add_comm, Int.add_mul_emod_self_left]; exact Int.emod_eq_of_lt hx0 hxW
  · rintro ⟨h0, hlt, rfl, rfl⟩
    have hWpos : 0 < W := by
      rcases lt_or_eq_of_le hW with h | h
      · exact h
      · rw [← h] at hlt; simp at hlt; omega
    refine ⟨?_, Int.emod_nonneg _ (by omega), Int.emod_lt_of_pos _ hWpos,
      Int.ediv_nonneg h0 hW, ?_⟩
    · exact (Int.ediv_add_emod j W).symm
    · exact Int.ediv_lt_of_lt_mul hWpos (by rw [Int.mul_comm]; exact hlt)

section
variable {K : Type} [LinearOrderedField K]
variable (a b c colorA colorB colorC : Vector K)

theorem addN_succ (d : Flt K) (k : Nat) (u : Flt K) : addN d (k + 1) u = addN d k u + d := by
  induction k generalizing u with
  | zero => rfl
  | succ k ih =>
    show addN d (k + 1) (u + d) = addN d (k + 1) u + d
    rw [ih (u + d)]
    rfl

theorem rowScene_sameFrame (ux tx : Flt K) (y : Int) (k : Nat) (x : Int) (u t : Flt K)
    (s : Scene K) : s.SameFrame (rowScene a b c colorA colorB colorC ux tx y k x u t s) := by
  induction k generalizing x u t s with
  | zero => exact SameFrame.refl s
  | succ k ih =>
    exact SameFrame.trans (pixelScene_sameFrame a b c colorA colorB colorC s x y u t)
      (ih (x + 1) (u + ux) (t + tx) _)

/-- The inner loop with the recording callback never faults on a well-formed scene;
its result is given by `rowScene` and `rowCalls`. -/
theorem triangleRow_recorder (ux tx : Flt K) (y : Int) (k : Nat) (x : Int) (u t : Flt K)
    {s : Scene K} (hwf : s.WellFormed) (log : List (Call K)) :
    triangleRow a b c colorA colorB colorC (some recorder) ux tx y k x (s.width * y + x) u t
        (s, log)
      = Result.ok (addN ux k u, addN tx k t,
          (rowScene a b c colorA colorB colorC ux tx y k x u t s,
           log ++ rowCalls a b c colorA colorB colorC ux tx y k x u t s)) := by
  induction k generalizing x u t s log with
  | zero => simp [triangleRow, addN, rowScene, rowCalls]
  | succ k ih =>
    have hsf := pixelScene_sameFrame a b c colorA colorB colorC s x y u t
    have hwf1 := SameFrame.wellFormed hsf hwf
    have hidx : s.width * y + x + 1
        = (pixelScene a b c colorA colorB colorC s x y u t).width * y + (x + 1) := by
      rw [hsf.2.2.2.1]; ring
    simp only [triangleRow, trianglePixel_recorder a b c colorA colorB colorC hwf]
    rw [hidx, ih (x + 1) (u + ux) (t + tx) hwf1]
    simp [addN, rowScene, rowCalls, List.append_assoc]

/-- The inner loop without a callback never faults on a well-formed scene; its result
is given by `rowScene`. -/
theorem triangleRow_nil (ux tx : Flt K) (y : Int) (k : Nat) (x : Int) (u t : Flt K)
    {s : Scene K} (hwf : s.WellFormed) :
    triangleRow a b c colorA colorB colorC (none : Option (LightingCalcCb K Unit)) ux tx y k x
        (s.width * y + x) u t (s, ())
      = Result.ok (addN ux k u, addN tx k t,
          (rowScene a b c colorA colorB colorC ux tx y k x u t s, ())) := by
  induction k generalizing x u t s with
  | zero => simp [triangleRow, addN, rowScene]
  | succ k ih =>
    have hsf := pixelScene_sameFrame a b c colorA colorB colorC s x y u t
    have hwf1 := SameFrame.wellFormed hsf hwf
    have hidx : s.width * y + x + 1
        = (pixelScene a b c colorA colorB colorC s x y u t).width * y + (x + 1) := by
      rw [hsf.2.2.2.1]; ring
    simp only [triangleRow, trianglePixel_nil a b c colorA colorB colorC hwf]
    rw [hidx, ih (x + 1) (u + ux) (t + tx) hwf1]
    simp [addN, rowScene]

/-- The effect of the inner loop on the cell of any buffer index. -/
theorem cellAt_rowScene (ux tx : Flt K) (y : Int) (k : Nat) (x : Int) (u t : Flt K)
    {s : Scene K} (hwf : s.WellFormed) (j : Int) :
    cellAt (rowScene a b c colorA colorB colorC ux tx y k x u t s) j =
      if 0 ≤ j ∧ j < s.width * s.height ∧ j / s.width = y ∧ x ≤ j % s.width ∧
          j % s.width < x + k ∧
          insideTriangle (addN ux (j % s.width - x).toNat u) (addN tx (j % s.width - x).toNat t)
            = true then
        (cellAt s j).map (shade a b c colorA colorB colorC
          (addN ux (j % s.width - x).toNat u).val (addN tx (j % s.width - x).toNat t).val)
      else cellAt s j := by
  induction k generalizing x u t s with
  | zero =>
    have : ¬ (x ≤ j % s.width ∧ j % s.width < x + ((0 : Nat) : Int)) := by omega
    simp only [rowScene]
    rw [if_neg]
    tauto
  | succ k ih =>
    have hsf := pixelScene_sameFrame a b c colorA colorB colorC s x y u t
    have hwf1 := SameFrame.wellFormed hsf hwf
    have hW := hsf.2.2.2.1
    have hH := hsf.2.2.2.2.1
    simp only [rowScene]
    rw [ih (x + 1) (u + ux) (t + tx) hwf1, hW, hH,
      cellAt_pixelScene a b c colorA colorB colorC hwf]
    have hpix : (j = s.width * y + x ∧ inViewport s x y = true) ↔
        (0 ≤ j ∧ j < s.width * s.height ∧ j / s.width = y ∧ j % s.width = x) := by
      rw [inViewport_iff]
      have := @pixel_index_iff s.width s.height x y j hwf.1
      tauto
    by_cases hx : j % s.width = x
    · have h1 : ¬ (x + 1 ≤ j % s.width) := by omega
      have h2 : (j % s.width - x).toNat = 0 := by omega
      have h3 : x ≤ j % s.width ∧ j % s.width < x + ((k + 1 : Nat) : Int) := by
        constructor <;> omega
      rw [if_neg (by tauto), h2]
      simp only [addN]
      by_cases hc : 0 ≤ j ∧ j < s.width * s.height ∧ j / s.width = y
      · have hp := hpix.2 ⟨hc.1, hc.2.1, hc.2.2, hx⟩
        by_cases hin : insideTriangle u t = true
        · rw [if_pos ⟨hp.1, hp.2, hin⟩, if_pos ⟨hc.1, hc.2.1, hc.2.2, h3.1, h3.2, hin⟩]
        · rw [if_neg (by tauto), if_neg (by tauto)]
      · have hp : ¬ (j = s.width * y + x ∧ inViewport s x y = true) := by
          rw [hpix]; tauto
        rw [if_neg (by tauto), if_neg (by tauto)]
    · have hp : ¬ (j = s.width * y + x ∧ inViewport s x y = true) := by
        rw [hpix]; tauto
      have hrest : (if j = s.width * y + x ∧ inViewport s x y = true ∧
          insideTriangle u t = true then
          Option.map (shade a b c colorA colorB colorC u.val t.val) (cellAt s j)
          else cellAt s j) = cellAt s j := by
        rw [if_neg (by tauto)]
      rw [hrest]
      by_cases hr : x + 1 ≤ j % s.width
      · have h2 : (j % s.width - x).toNat = (j % s.width - (x + 1)).toNat + 1 := by omega
        have e1 : (x ≤ j % s.width) ↔ (x + 1 ≤ j % s.width) := by omega
        have e2 : (j % s.width < x + ((k + 1 : Nat) : Int)) ↔
            (j % s.width < x + 1 + (k : Int)) := by
          constructor <;> intro h <;> omega
        rw [h2]
        simp only [addN, e1, e2]
      · have h3 : ¬ (x ≤ j % s.width) := by omega
        rw [if_neg (by tauto), if_neg (by tauto)]

end

end rasterizer

/-! ## The outer loop of RasterizeTriangle -/

namespace rasterizer

open math3d

section
variable {K : Type} [LinearOrderedField K]
variable (a b c colorA colorB colorC : Vector K)

theorem rowsScene_sameFrame (bbMinX : Int) (cols : Nat) (ux uy tx ty : Flt K) (n : K)
    (k : Nat) (y : Int) (u t : Flt K) (s : Scene K) :
    s.SameFrame (rowsScene a b c colorA colorB colorC bbMinX cols ux uy tx ty n k y u t s) := by
  induction k generalizing y u t s with
  | zero => exact SameFrame.refl s
  | succ k ih =>
    exact SameFrame.trans (rowScene_sameFrame a b c colorA colorB colorC ux tx y cols bbMinX u t s)
      (ih (y + 1) _ _ _)

/-- The outer loop with the recording callback never faults on a well-formed scene;
its result is given by `rowsScene` and `rowsCalls`. -/
theorem triangleRows_recorder (bbMinX : Int) (cols : Nat) (ux uy tx ty : Flt K) (n : K)
    (k : Nat) (y : Int) (u t : Flt K) {s : Scene K} (hwf : s.WellFormed)
    (log : List (Call K)) :
    triangleRows a b c colorA colorB colorC (some recorder) bbMinX cols ux uy tx ty n k y u t
        (s, log)
      = Result.ok (rowsScene a b c colorA colorB colorC bbMinX cols ux uy tx ty n k y u t s,
          log ++ rowsCalls a b c colorA colorB colorC bbMinX cols ux uy tx ty n k y u t s) := by
  induction k generalizing y u t s log with
  | zero => simp [triangleRows, rowsScene, rowsCalls]
  | succ k ih =>
    have hsf := rowScene_sameFrame a b c colorA colorB colorC ux tx y cols bbMinX u t s
    have hwf1 := SameFrame.wellFormed hsf hwf
    simp only [triangleRows, triangleRow_recorder a b c colorA colorB colorC ux tx y cols
      bbMinX u t hwf]
    rw [ih (y + 1) _ _ hwf1]
    simp [rowsScene, rowsCalls, List.append_assoc]

/-- The outer loop without a callback never faults on a well-formed scene; its result
is given by `rowsScene`. -/
theorem triangleRows_nil (bbMinX : Int) (cols : Nat) (ux uy tx ty : Flt K) (n : K)
    (k : Nat) (y : Int) (u t : Flt K) {s : Scene K} (hwf : s.WellFormed) :
    triangleRows a b c colorA colorB colorC (none : Option (LightingCalcCb K Unit)) bbMinX cols
        ux uy tx ty n k y u t (s, ())
      = Result.ok (rowsScene a b c colorA colorB colorC bbMinX cols ux uy tx ty n k y u t s,
          ()) := by
  induction k generalizing y u t s with
  | zero => simp [triangleRows, rowsScene]
  | succ k ih =>
    have hsf := rowScene_sameFrame a b c colorA colorB colorC ux tx y cols bbMinX u t s
    have hwf1 := SameFrame.wellFormed hsf hwf
    simp only [triangleRows, triangleRow_nil a b c colorA colorB colorC ux tx y cols
      bbMinX u t hwf]
    rw [ih (y + 1) _ _ hwf1]
    simp [rowsScene]

/-- The effect of the outer loop on the cell of any buffer index. -/
theorem cellAt_rowsScene (bbMinX : Int) (cols : Nat) (ux uy tx ty : Flt K) (n : K)
    (k : Nat) (y : Int) (u t : Flt K) {s : Scene K} (hwf : s.WellFormed) (j : Int) :
    cellAt (rowsScene a b c colorA colorB colorC bbMinX cols ux uy tx ty n k y u t s) j =
      if 0 ≤ j ∧ j < s.width * s.height ∧ y ≤ j / s.width ∧ j / s.width < y + k ∧
          bbMinX ≤ j % s.width ∧ j % s.width < bbMinX + cols ∧
          insideTriangle
            (addN ux (j % s.width - bbMinX).toNat (rowStart cols ux uy n (j / s.width - y).toNat u))
            (addN tx (j % s.width - bbMinX).toNat (rowStart cols tx ty n (j / s.width - y).toNat t))
            = true then
        (cellAt s j).map (shade a b c colorA colorB colorC
          (addN ux (j % s.width - bbMinX).toNat
            (rowStart cols ux uy n (j / s.width - y).toNat u)).val
          (addN tx (j % s.width - bbMinX).toNat
            (rowStart cols tx ty n (j / s.width - y).toNat t)).val)
      else cellAt s j := by
  induction k generalizing y u t s with
  | zero =>
    have : ¬ (y ≤ j / s.width ∧ j / s.width < y + ((0 : Nat) : Int)) := by omega
    simp only [rowsScene]
    rw [if_neg]
    tauto
  | succ k ih =>
    have hsf := rowScene_sameFrame a b c colorA colorB colorC ux tx y cols bbMinX u t s
    have hwf1 := SameFrame.wellFormed hsf hwf
    have hW := hsf.2.2.2.1
    have hH := hsf.2.2.2.2.1
    simp only [rowsScene]
    rw [ih (y + 1) _ _ hwf1, hW, hH, cellAt_rowScene a b c colorA colorB colorC ux tx y cols
      bbMinX u t hwf]
    by_cases hy : j / s.width = y
    · have h1 : ¬ (y + 1 ≤ j / s.width) := by omega
      have h2 : (j / s.width - y).toNat = 0 := by omega
      have h3 : y ≤ j / s.width ∧ j / s.width < y + ((k + 1 : Nat) : Int) := by
        constructor <;> omega
      rw [if_neg (by tauto), h2]
      simp only [rowStart]
      by_cases hc : 0 ≤ j ∧ j < s.width * s.height ∧ bbMinX ≤ j % s.width ∧
          j % s.width < bbMinX + cols ∧
          insideTriangle (addN ux (j % s.width - bbMinX).toNat u)
            (addN tx (j % s.width - bbMinX).toNat t) = true
      · rw [if_pos ⟨hc.1, hc.2.1, hy, hc.2.2.1, hc.2.2.2.1, hc.2.2.2.2⟩,
          if_pos ⟨hc.1, hc.2.1, h3.1, h3.2, hc.2.2.1, hc.2.2.2.1, hc.2.2.2.2⟩]
      · rw [if_neg (by tauto), if_neg (by tauto)]
    · have hrow : (if 0 ≤ j ∧ j < s.width * s.height ∧ j / s.width = y ∧ bbMinX ≤ j % s.width ∧
          j % s.width < bbMinX + ↑cols ∧
          insideTriangle (addN ux (j % s.width - bbMinX).toNat u)
            (addN tx (j % s.width - bbMinX).toNat t) = true then
          Option.map (shade a b c colorA colorB colorC
            (addN ux (j % s.width - bbMinX).toNat u).val
            (addN tx (j % s.width - bbMinX).toNat t).val) (cellAt s j)
          else cellAt s j) = cellAt s j := by
        rw [if_neg (by tauto)]
      rw [hrow]
      by_cases hr : y + 1 ≤ j / s.width
      · have h2 : (j / s.width - y).toNat = (j / s.width - (y + 1)).toNat + 1 := by omega
        have e1 : (y ≤ j / s.width) ↔ (y + 1 ≤ j / s.width) := by omega
        have e2 : (j / s.width < y + ((k + 1 : Nat) : Int)) ↔
            (j / s.width < y + 1 + (k : Int)) := by
          constructor <;> intro h <;> omega
        rw [h2]
        simp only [rowStart, e1, e2]
      · have h3 : ¬ (y ≤ j / s.width) := by omega
        rw [if_neg (by tauto), if_neg (by tauto)]

variable [FloorRing K]

/-- The scan of a triangle without a callback never faults on a well-formed scene and
acts on every cell as `shadeAt` says. -/
theorem scanTriangle_nil {s : Scene K} (hwf : s.WellFormed) :
    ∃ s1 : Scene K,
      scanTriangle a b c colorA colorB colorC (none : Option (LightingCalcCb K Unit)) (s, ())
        = Result.ok (s1, ()) ∧ s.SameFrame s1 ∧
      ∀ j : Int, cellAt s1 j =
        (cellAt s j).map (shadeAt s.width s.height a b c colorA colorB colorC j) := by
  refine ⟨_, triangleRows_nil a b c colorA colorB colorC _ _ _ _ _ _ _ _ _ _ _ hwf,
    rowsScene_sameFrame a b c colorA colorB colorC _ _ _ _ _ _ _ _ _ _ _ _, ?_⟩
  intro j
  rw [cellAt_rowsScene a b c colorA colorB colorC _ _ _ _ _ _ _ _ _ _ _ hwf]
  unfold shadeAt fragmentAt weightsAt
  simp only
  set bbMinX : Int := Int.ceil (min (min a.X b.X) c.X)
  set bbMinY : Int := Int.ceil (min (min a.Y b.Y) c.Y)
  set bbMaxX : Int := Int.ceil (max (max a.X b.X) c.X)
  set bbMaxY : Int := Int.ceil (max (max a.Y b.Y) c.Y)
  have ex : (j % s.width < bbMinX + ((bbMaxX - bbMinX + 1).toNat : Int)) ↔
      (bbMinX ≤ j % s.width → j % s.width ≤ bbMaxX) := by
    constructor
    · intro h _; omega
    · intro h
      by_cases hb : bbMinX ≤ j % s.width
      · have := h hb; omega
      · omega
  have ey : (j / s.width < bbMinY + ((bbMaxY - bbMinY + 1).toNat : Int)) ↔
      (bbMinY ≤ j / s.width → j / s.width ≤ bbMaxY) := by
    constructor
    · intro h _; omega
    · intro h
      by_cases hb : bbMinY ≤ j / s.width
      · have := h hb; omega
      · omega
  by_cases hbox : 0 ≤ j ∧ j < s.width * s.height ∧ bbMinX ≤ j % s.width ∧ j % s.width ≤ bbMaxX ∧
      bbMinY ≤ j / s.width ∧ j / s.width ≤ bbMaxY
  · rw [if_pos hbox]
    by_cases hin : insideTriangle
        (addN (sf (bbMinX + 1) bbMinY a b c - sf bbMinX bbMinY a b c) (j % s.width - bbMinX).toNat
          (rowStart (bbMaxX - bbMinX + 1).toNat (sf (bbMinX + 1) bbMinY a b c - sf bbMinX bbMinY a b c)
            (sf bbMinX (bbMinY + 1) a b c - sf bbMinX bbMinY a b c) ((bbMaxX - bbMinX + 1 : Int) : K)
            (j / s.width - bbMinY).toNat (sf bbMinX bbMinY a b c)))
        (addN (tf (bbMinX + 1) bbMinY a b c - tf bbMinX bbMinY a b c) (j % s.width - bbMinX).toNat
          (rowStart (bbMaxX - bbMinX + 1).toNat (tf (bbMinX + 1) bbMinY a b c - tf bbMinX bbMinY a b c)
            (tf bbMinX (bbMinY + 1) a b c - tf bbMinX bbMinY a b c) ((bbMaxX - bbMinX + 1 : Int) : K)
            (j / s.width - bbMinY).toNat (tf bbMinX bbMinY a b c))) = true
    · rw [if_pos hin, if_pos]
      refine ⟨hbox.1, hbox.2.1, hbox.2.2.2.2.1, ?_, hbox.2.2.1, ?_, hin⟩
      · exact ey.2 (fun _ => hbox.2.2.2.2.2)
      · exact ex.2 (fun _ => hbox.2.2.2.1)
    · rw [if_neg hin, if_neg (by tauto)]
      cases cellAt s j <;> rfl
  · have hrows : ∀ P : Prop, ¬ (0 ≤ j ∧ j < s.width * s.height ∧ bbMinY ≤ j / s.width ∧
        j / s.width < bbMinY + ((bbMaxY - bbMinY + 1).toNat : Int) ∧ bbMinX ≤ j % s.width ∧
        j % s.width < bbMinX + ((bbMaxX - bbMinX + 1).toNat : Int) ∧ P) := by
      intro P h
      exact hbox ⟨h.1, h.2.1, h.2.2.2.2.1, ex.1 h.2.2.2.2.2.1 h.2.2.2.2.1, h.2.2.1,
        ey.1 h.2.2.2.1 h.2.2.1⟩
    rw [if_neg hbox, if_neg (hrows _)]
    cases cellAt s j <;> rfl

end

end rasterizer

/-! ## Special values and the inside test -/

namespace rasterizer

open math3d

section
variable {K : Type} [LinearOrderedField K]

theorem Flt_add_def (x y : Flt K) : x + y = Flt.add x y := rfl

theorem Flt_sub_def (x y : Flt K) : x - y = Flt.add x (Flt.neg y) := rfl

theorem Flt_mul_def (x y : Flt K) : x * y = Flt.mul x y := rfl

/-- A passed inside test means finite weights in the closed unit triangle. -/
theorem insideTriangle_iff (u t : Flt K) :
    insideTriangle u t = true ↔
      ∃ uq tq : K, u = Flt.fin uq ∧ t = Flt.fin tq ∧ 0 ≤ uq ∧ 0 ≤ tq ∧ tq + uq ≤ 1 := by
  unfold insideTriangle
  cases u <;> cases t <;>
    simp [Flt.ge, Flt.le, Flt_add_def, Flt.add, and_comm, and_left_comm, and_assoc]

theorem isFin_add_left {x : Flt K} (h : x.isFin = false) (y : Flt K) : (x + y).isFin = false := by
  cases x <;> cases y <;> simp_all [Flt.isFin, Flt_add_def, Flt.add]

theorem isFin_addN {u : Flt K} (h : u.isFin = false) (d : Flt K) (k : Nat) :
    (addN d k u).isFin = false := by
  induction k generalizing u with
  | zero => exact h
  | succ k ih => exact ih (isFin_add_left h d)

theorem insideTriangle_of_not_isFin {u : Flt K} (h : u.isFin = false) (t : Flt K) :
    insideTriangle u t = false := by
  cases hin : insideTriangle u t
  · rfl
  · obtain ⟨uq, tq, hu, _⟩ := (insideTriangle_iff u t).1 hin
    rw [hu] at h
    simp [Flt.isFin] at h

theorem signedInf_isFin (x : K) : (Flt.signedInf x).isFin = false := by
  unfold Flt.signedInf
  split
  · rfl
  · split <;> rfl

theorem div_zero_isFin (x : K) : (Flt.div x 0).isFin = false := by
  simp [Flt.div, signedInf_isFin]

theorem div_of_ne_zero (x : K) {y : K} (h : y ≠ 0) : Flt.div x y = Flt.fin (x / y) := by
  simp [Flt.div, h]

theorem addN_fin (d u : K) (k : Nat) :
    addN (Flt.fin d) k (Flt.fin u) = Flt.fin (u + (k : K) * d) := by
  induction k generalizing u with
  | zero => simp [addN]
  | succ k ih =>
    show addN (Flt.fin d) k (Flt.fin u + Flt.fin d) = _
    rw [show (Flt.fin u + Flt.fin d : Flt K) = Flt.fin (u + d) from rfl, ih]
    congr 1
    push_cast
    ring

theorem rowStart_fin (cols : Nat) (dx dy u : K) (j : Nat) :
    rowStart cols (Flt.fin dx) (Flt.fin dy) (cols : K) j (Flt.fin u)
      = Flt.fin (u + (j : K) * dy) := by
  induction j generalizing u with
  | zero => simp [rowStart]
  | succ j ih =>
    show rowStart cols (Flt.fin dx) (Flt.fin dy) (cols : K) j
      (addN (Flt.fin dx) cols (Flt.fin u) + (Flt.fin dy - Flt.fin (cols : K) * Flt.fin dx)) = _
    rw [addN_fin]
    rw [show (Flt.fin (u + (cols : K) * dx) + (Flt.fin dy - Flt.fin (cols : K) * Flt.fin dx) : Flt K)
      = Flt.fin (u + (cols : K) * dx + (dy + -((cols : K) * dx))) from rfl, ih]
    congr 1
    push_cast
    ring

end

/-- Two scenes with the same frame and the same cells are equal. -/
theorem scene_eq_of_cells {K : Type} {s s1 : Scene K} (hwf : s.WellFormed)
    (hsf : s.SameFrame s1) (h : ∀ j : Int, cellAt s1 j = cellAt s j) : s1 = s := by
  obtain ⟨h1, h2, h3, h4, h5, h6, h7, h8⟩ := hsf
  have hD := hwf.2.2.2
  have key : ∀ j : Int, getAt s1.Buffers.FrameBuffer j = getAt s.Buffers.FrameBuffer j ∧
      getAt s1.Buffers.DepthBuffer j = getAt s.Buffers.DepthBuffer j := by
    intro j
    by_cases hj : 0 ≤ j ∧ j.toNat < s.Buffers.FrameBuffer.length
    · obtain ⟨col, hcol⟩ := (getAt_eq_some_iff_lt s.Buffers.FrameBuffer j).2 hj
      obtain ⟨d, hd⟩ := (getAt_eq_some_iff_lt s.Buffers.DepthBuffer j).2
        ⟨hj.1, by rw [hD]; exact hj.2⟩
      have hc : cellAt s1 j = some (col, d) := by
        rw [h j]; exact (cellAt_eq_some_iff s j col d).2 ⟨hcol, hd⟩
      obtain ⟨e1, e2⟩ := (cellAt_eq_some_iff s1 j col d).1 hc
      rw [e1, e2, hcol, hd]
      exact ⟨rfl, rfl⟩
    · rw [getAt_eq_none s.Buffers.FrameBuffer _ hj,
        getAt_eq_none s1.Buffers.FrameBuffer _ (by rw [h7]; exact hj),
        getAt_eq_none s.Buffers.DepthBuffer _ (by rw [hD]; exact hj),
        getAt_eq_none s1.Buffers.DepthBuffer _ (by rw [h8, hD]; exact hj)]
      exact ⟨rfl, rfl⟩
  have hF : s1.Buffers.FrameBuffer = s.Buffers.FrameBuffer :=
    list_ext_getAt (fun j => (key j).1)
  have hDb : s1.Buffers.DepthBuffer = s.Buffers.DepthBuffer :=
    list_ext_getAt (fun j => (key j).2)
  cases s1 with
  | mk m1 p1 v1 b1 w1 hh1 wh1 =>
    cases s with
    | mk m p v b w hh wh =>
      cases b1; cases b
      simp only at h1 h2 h3 h4 h5 h6 hF hDb
      subst h1 h2 h3 h4 h5 h6 hF hDb
      rfl

end rasterizer

/-! ## RasterizeTriangle without a callback -/

namespace rasterizer

open math3d

section
variable {K : Type} [LinearOrderedField K] [FloorRing K]

/-- RasterizeTriangle without a callback never faults on a well-formed scene, changes
only the contents of the buffers and acts on every cell as `shadeAt` says. -/
theorem RasterizeTriangleNil_spec {s : Scene K} (hwf : s.WellFormed)
    (a b c colorA colorB colorC : Vector K) :
    ∃ s1 : Scene K, RasterizeTriangleNil s a b c colorA colorB colorC = Result.ok s1 ∧
      s.SameFrame s1 ∧
      ∀ j : Int, cellAt s1 j = (cellAt s j).map
        (shadeAt s.width s.height (VectorToScreencoords s a) (VectorToScreencoords s b)
          (VectorToScreencoords s c) colorA colorB colorC j) := by
  obtain ⟨s1, hrun, hsf, hcell⟩ := scanTriangle_nil (VectorToScreencoords s a)
    (VectorToScreencoords s b) (VectorToScreencoords s c) colorA colorB colorC hwf
  refine ⟨s1, ?_, hsf, hcell⟩
  unfold RasterizeTriangleNil RasterizeTriangle
  simp only [hrun]

/-- A fragment has weights in the closed unit triangle and belongs to a pixel of the
viewport that lies in the bounding box. -/
theorem fragmentAt_some {W H : Int} {a b c : Vector K} {j : Int} {u t : K}
    (h : fragmentAt W H a b c j = some (u, t)) :
    0 ≤ u ∧ 0 ≤ t ∧ u + t ≤ 1 ∧ 0 ≤ j ∧ j < W * H ∧
      Int.ceil (min (min a.X b.X) c.X) ≤ j % W ∧ j % W ≤ Int.ceil (max (max a.X b.X) c.X) ∧
      Int.ceil (min (min a.Y b.Y) c.Y) ≤ j / W ∧ j / W ≤ Int.ceil (max (max a.Y b.Y) c.Y) := by
  unfold fragmentAt at h
  simp only at h
  split at h
  · rename_i hbox
    split at h
    · rename_i hin
      obtain ⟨uq, tq, hu, ht, h1, h2, h3⟩ := (insideTriangle_iff _ _).1 hin
      simp only [hu, ht, Flt.val, Option.some.injEq, Prod.mk.injEq] at h
      obtain ⟨rfl, rfl⟩ := h
      exact ⟨h1, h2, by linarith, hbox.1, hbox.2.1, hbox.2.2.1, hbox.2.2.2.1, hbox.2.2.2.2.1,
        hbox.2.2.2.2.2⟩
    · simp at h
  · simp at h

end

end rasterizer

namespace rasterizer

open math3d

/-- Every entry of the depth buffer of a well-formed scene is the depth of a cell. -/
theorem WellFormed.cell_of_depth {K : Type} {s : Scene K} (hwf : s.WellFormed) {j : Int} {d : K}
    (h : getAt s.Buffers.DepthBuffer j = some d) : ∃ col, cellAt s j = some (col, d) := by
  obtain ⟨h0, hlt⟩ := (getAt_eq_some_iff_lt _ _).1 ⟨d, h⟩
  obtain ⟨col, hcol⟩ := (getAt_eq_some_iff_lt s.Buffers.FrameBuffer j).2
    ⟨h0, by rw [← hwf.2.2.2]; exact hlt⟩
  exact ⟨col, (cellAt_eq_some_iff s j col d).2 ⟨hcol, h⟩⟩

section
variable {K : Type} [LinearOrderedField K]
variable [FloorRing K]

/-- C2: on a well-formed scene whose depth-buffer entries are all at most 1,
RasterizeTriangle without a callback returns, and every cell either keeps its color
and its depth, or is written with the color and the depth
`d1 = a.Z*w + b.Z*u + c.Z*t` of barycentric weights `w = 1 - u - t`, `u`, `t`, all at
least 0, where `0 ≤ d1 ≤ 1` and `d1` is at most the depth stored before; hence no
depth increases, every depth stays at most 1, and a depth in [0, 1] stays in [0, 1]. -/
theorem RasterizeTriangle_depth_test {s : Scene K} (hwf : s.WellFormed)
    (hle : ∀ d ∈ s.Buffers.DepthBuffer, d ≤ 1)
    (a b c colorA colorB colorC : Vector K) :
    ∃ s1 : Scene K, RasterizeTriangleNil s a b c colorA colorB colorC = Result.ok s1 ∧
      s.SameFrame s1 ∧
      ∀ (j : Int) (col : Vector K) (d : K), cellAt s j = some (col, d) →
        ∃ (col1 : Vector K) (d1 : K), cellAt s1 j = some (col1, d1) ∧
          ((col1 = col ∧ d1 = d) ∨
            ∃ w u t : K, 0 ≤ w ∧ 0 ≤ u ∧ 0 ≤ t ∧ w = 1 - u - t ∧
              d1 = (VectorToScreencoords s a).Z * w + (VectorToScreencoords s b).Z * u
                + (VectorToScreencoords s c).Z * t ∧
              col1 = lerpTriColor colorA colorB colorC w u t ∧
              0 ≤ d1 ∧ d1 ≤ 1 ∧ d1 ≤ d) ∧
          d1 ≤ d ∧ d1 ≤ 1 ∧ (0 ≤ d → 0 ≤ d1) := by
  obtain ⟨s1, hrun, hsf, hcell⟩ := RasterizeTriangleNil_spec hwf a b c colorA colorB colorC
  refine ⟨s1, hrun, hsf, ?_⟩
  intro j col d hj
  have hd1 : d ≤ 1 := hle d (mem_of_getAt ((cellAt_eq_some_iff s j col d).1 hj).2)
  rw [hcell j, hj]
  simp only [Option.map_some', shadeAt]
  cases hf : fragmentAt s.width s.height (VectorToScreencoords s a) (VectorToScreencoords s b)
      (VectorToScreencoords s c) j with
  | none => exact ⟨col, d, rfl, Or.inl ⟨rfl, rfl⟩, le_refl d, hd1, fun h => h⟩
  | some ut =>
    obtain ⟨u, t⟩ := ut
    obtain ⟨hu, ht, hut, _⟩ := fragmentAt_some hf
    simp only [shade]
    by_cases htest : 0 ≤ fragDepth (VectorToScreencoords s a) (VectorToScreencoords s b)
        (VectorToScreencoords s c) u t ∧
        fragDepth (VectorToScreencoords s a) (VectorToScreencoords s b)
          (VectorToScreencoords s c) u t ≤ d
    · rw [if_pos htest]
      refine ⟨_, _, rfl, Or.inr ⟨1 - u - t, u, t, by linarith, hu, ht, rfl, rfl, rfl,
        htest.1, le_trans htest.2 hd1, htest.2⟩, htest.2, le_trans htest.2 hd1,
        fun _ => htest.1⟩
    · rw [if_neg htest]
      exact ⟨col, d, rfl, Or.inl ⟨rfl, rfl⟩, le_refl d, hd1, fun h => h⟩

/-- C4: on a well-formed scene (its buffers may hold exactly `width * height` cells)
RasterizeTriangle without a callback returns without an index fault; a cell it changes
has an index `width*y + x` of a pixel (x, y) of the viewport that lies in the integer
bounding box of the screen-space triangle; and when no pixel of the viewport lies in
the bounding box the scene is returned unchanged. -/
theorem RasterizeTriangle_touches_bounding_box {s : Scene K} (hwf : s.WellFormed)
    (a b c colorA colorB colorC : Vector K) :
    ∃ s1 : Scene K, RasterizeTriangleNil s a b c colorA colorB colorC = Result.ok s1 ∧
      s.SameFrame s1 ∧
      (∀ j : Int, cellAt s1 j ≠ cellAt s j →
        ∃ x y : Int, 0 ≤ x ∧ x < s.width ∧ 0 ≤ y ∧ y < s.height ∧ j = s.width * y + x ∧
          Int.ceil (min (min (VectorToScreencoords s a).X (VectorToScreencoords s b).X)
            (VectorToScreencoords s c).X) ≤ x ∧
          x ≤ Int.ceil (max (max (VectorToScreencoords s a).X (VectorToScreencoords s b).X)
            (VectorToScreencoords s c).X) ∧
          Int.ceil (min (min (VectorToScreencoords s a).Y (VectorToScreencoords s b).Y)
            (VectorToScreencoords s c).Y) ≤ y ∧
          y ≤ Int.ceil (max (max (VectorToScreencoords s a).Y (VectorToScreencoords s b).Y)
            (VectorToScreencoords s c).Y)) ∧
      ((∀ x y : Int, 0 ≤ x → x < s.width → 0 ≤ y → y < s.height →
          ¬ (Int.ceil (min (min (VectorToScreencoords s a).X (VectorToScreencoords s b).X)
              (VectorToScreencoords s c).X) ≤ x ∧
            x ≤ Int.ceil (max (max (VectorToScreencoords s a).X (VectorToScreencoords s b).X)
              (VectorToScreencoords s c).X) ∧
            Int.ceil (min (min (VectorToScreencoords s a).Y (VectorToScreencoords s b).Y)
              (VectorToScreencoords s c).Y) ≤ y ∧
            y ≤ Int.ceil (max (max (VectorToScreencoords s a).Y (VectorToScreencoords s b).Y)
              (VectorToScreencoords s c).Y))) →
        s1 = s) := by
  obtain ⟨s1, hrun, hsf, hcell⟩ := RasterizeTriangleNil_spec hwf a b c colorA colorB colorC
  have hpix : ∀ j : Int, cellAt s1 j ≠ cellAt s j →
      ∃ x y : Int, 0 ≤ x ∧ x < s.width ∧ 0 ≤ y ∧ y < s.height ∧ j = s.width * y + x ∧
        Int.ceil (min (min (VectorToScreencoords s a).X (VectorToScreencoords s b).X)
          (VectorToScreencoords s c).X) ≤ x ∧
        x ≤ Int.ceil (max (max (VectorToScreencoords s a).X (VectorToScreencoords s b).X)
          (VectorToScreencoords s c).X) ∧
        Int.ceil (min (min (VectorToScreencoords s a).Y (VectorToScreencoords s b).Y)
          (VectorToScreencoords s c).Y) ≤ y ∧
        y ≤ Int.ceil (max (max (VectorToScreencoords s a).Y (VectorToScreencoords s b).Y)
          (VectorToScreencoords s c).Y) := by
    intro j hne
    rw [hcell j] at hne
    cases hf : fragmentAt s.width s.height (VectorToScreencoords s a) (VectorToScreencoords s b)
        (VectorToScreencoords s c) j with
    | none =>
      exfalso
      apply hne
      cases cellAt s j with
      | none => rfl
      | some cell => simp [shadeAt, hf]
    | some ut =>
      obtain ⟨u, t⟩ := ut
      obtain ⟨_, _, _, h0, hlt, hx1, hx2, hy1, hy2⟩ := fragmentAt_some hf
      obtain ⟨hj, hx0, hxW, hy0, hyH⟩ :=
        (@pixel_index_iff s.width s.height (j % s.width) (j / s.width) j hwf.1).2
          ⟨h0, hlt, rfl, rfl⟩
      exact ⟨j % s.width, j / s.width, hx0, hxW, hy0, hyH, hj, hx1, hx2, hy1, hy2⟩
  refine ⟨s1, hrun, hsf, hpix, ?_⟩
  intro hout
  apply scene_eq_of_cells hwf hsf
  intro j
  by_contra hne
  obtain ⟨x, y, hx0, hxW, hy0, hyH, _, hbox⟩ := hpix j hne
  exact hout x y hx0 hxW hy0 hyH hbox

end

end rasterizer

namespace rasterizer

open math3d

section
variable {K : Type} [LinearOrderedField K]

/-- The loop body does nothing when the inside test fails. -/
theorem trianglePixel_outside {σ : Type} (a b c colorA colorB colorC : Vector K)
    (cb : Option (LightingCalcCb K σ)) (x y idxOffset : Int) {u t : Flt K}
    (h : insideTriangle u t = false) (st : Scene K × σ) :
    trianglePixel a b c colorA colorB colorC cb x y idxOffset u t st = Result.ok st := by
  unfold trianglePixel
  simp only [inside_cond, h, Bool.and_false]
  rfl

/-- With a weight `u` that is not finite the inner loop leaves the state alone. -/
theorem triangleRow_not_isFin {σ : Type} (a b c colorA colorB colorC : Vector K)
    (cb : Option (LightingCalcCb K σ)) (ux tx : Flt K) (y : Int) (k : Nat) (x idxOffset : Int)
    {u : Flt K} (hu : u.isFin = false) (t : Flt K) (st : Scene K × σ) :
    triangleRow a b c colorA colorB colorC cb ux tx y k x idxOffset u t st
      = Result.ok (addN ux k u, addN tx k t, st) := by
  induction k generalizing x idxOffset u t with
  | zero => rfl
  | succ k ih =>
    simp only [triangleRow,
      trianglePixel_outside a b c colorA colorB colorC cb x y idxOffset
        (insideTriangle_of_not_isFin hu t) st]
    rw [ih (x + 1) (idxOffset + 1) (isFin_add_left hu ux)]
    rfl

/-- With a weight `u` that is not finite the outer loop leaves the state alone. -/
theorem triangleRows_not_isFin {σ : Type} (a b c colorA colorB colorC : Vector K)
    (cb : Option (LightingCalcCb K σ)) (bbMinX : Int) (cols : Nat) (ux uy tx ty : Flt K)
    (n : K) (k : Nat) (y : Int) {u : Flt K} (hu : u.isFin = false) (t : Flt K)
    (st : Scene K × σ) :
    triangleRows a b c colorA colorB colorC cb bbMinX cols ux uy tx ty n k y u t st
      = Result.ok st := by
  induction k generalizing y u t with
  | zero => rfl
  | succ k ih =>
    simp only [triangleRows,
      triangleRow_not_isFin a b c colorA colorB colorC cb ux tx y cols bbMinX _ hu t st]
    exact ih (y + 1) (isFin_add_left (isFin_addN hu ux cols) _) _

variable [FloorRing K]

/-- C5: when the screen-space vertices of the triangle are collinear or coincident,
that is when the denominator of `sf` (the negative of the denominator of `tf`) is
zero, RasterizeTriangle returns the scene unchanged and, whatever callback is supplied,
the state of the callback unchanged: no pixel is written and the callback is never
invoked. -/
theorem RasterizeTriangle_degenerate {σ : Type} (s : Scene K)
    (a b c colorA colorB colorC : Vector K) (cb : Option (LightingCalcCb K σ)) (e : σ)
    (hdeg : ((VectorToScreencoords s a).Y - (VectorToScreencoords s c).Y)
          * (VectorToScreencoords s b).X
        + ((VectorToScreencoords s c).X - (VectorToScreencoords s a).X)
          * (VectorToScreencoords s b).Y
        + (VectorToScreencoords s a).X * (VectorToScreencoords s c).Y
        - (VectorToScreencoords s c).X * (VectorToScreencoords s a).Y = 0) :
    RasterizeTriangle s a b c colorA colorB colorC cb e = Result.ok (s, e) := by
  unfold RasterizeTriangle scanTriangle
  simp only
  apply triangleRows_not_isFin
  unfold sf
  rw [hdeg]
  exact div_zero_isFin _

end

end rasterizer

/-! ## Two triangles in either order -/

namespace rasterizer

open math3d

theorem WellFormed.map_fst_cellAt {K : Type} {s : Scene K} (hwf : s.WellFormed) (j : Int) :
    (cellAt s j).map Prod.fst = getAt s.Buffers.FrameBuffer j := by
  cases hF : getAt s.Buffers.FrameBuffer j with
  | none => simp [cellAt, hF]
  | some col =>
    obtain ⟨h0, hlt⟩ := (getAt_eq_some_iff_lt _ _).1 ⟨col, hF⟩
    obtain ⟨d, hd⟩ := (getAt_eq_some_iff_lt s.Buffers.DepthBuffer j).2
      ⟨h0, by rw [hwf.2.2.2]; exact hlt⟩
    simp [cellAt, hF, hd]

theorem WellFormed.map_snd_cellAt {K : Type} {s : Scene K} (hwf : s.WellFormed) (j : Int) :
    (cellAt s j).map Prod.snd = getAt s.Buffers.DepthBuffer j := by
  cases hD : getAt s.Buffers.DepthBuffer j with
  | none =>
    cases hF : getAt s.Buffers.FrameBuffer j <;> simp [cellAt, hF, hD]
  | some d =>
    obtain ⟨col, hc⟩ := WellFormed.cell_of_depth hwf hD
    simp [hc]

section
variable {K : Type} [LinearOrderedField K]

theorem SameFrame.screencoords {s s1 : Scene K} (h : s.SameFrame s1) (v : Vector K) :
    VectorToScreencoords s1 v = VectorToScreencoords s v := by
  unfold VectorToScreencoords
  rw [h.1, h.2.1, h.2.2.1]

theorem put_comm_depth (k1 k2 col : Vector K) (d1 d2 d : K) :
    (if 0 ≤ d2 ∧ d2 ≤ (if 0 ≤ d1 ∧ d1 ≤ d then (k1, d1) else (col, d)).2 then (k2, d2)
      else (if 0 ≤ d1 ∧ d1 ≤ d then (k1, d1) else (col, d))).2
    = (if 0 ≤ d1 ∧ d1 ≤ (if 0 ≤ d2 ∧ d2 ≤ d then (k2, d2) else (col, d)).2 then (k1, d1)
      else (if 0 ≤ d2 ∧ d2 ≤ d then (k2, d2) else (col, d))).2 := by
  by_cases h1 : 0 ≤ d1 ∧ d1 ≤ d <;> by_cases h2 : 0 ≤ d2 ∧ d2 ≤ d
  · rw [if_pos h1, if_pos h2]
    by_cases h3 : d2 ≤ d1 <;> by_cases h4 : d1 ≤ d2
    · rw [if_pos ⟨h2.1, h3⟩, if_pos ⟨h1.1, h4⟩]; exact le_antisymm h3 h4
    · rw [if_pos ⟨h2.1, h3⟩, if_neg (fun h => h4 h.2)]
    · rw [if_neg (fun h => h3 h.2), if_pos ⟨h1.1, h4⟩]
    · exact absurd (le_of_lt (lt_of_not_le h4)) h3
  · rw [if_pos h1, if_neg h2, if_pos h1, if_neg (fun h => h2 ⟨h.1, le_trans h.2 h1.2⟩)]
  · rw [if_neg h1, if_pos h2, if_neg (fun h => h1 ⟨h.1, le_trans h.2 h2.2⟩)]
  · simp [h1, h2]

theorem put_comm (k1 k2 col : Vector K) (d1 d2 d : K) (hne : d1 ≠ d2) :
    (if 0 ≤ d2 ∧ d2 ≤ (if 0 ≤ d1 ∧ d1 ≤ d then (k1, d1) else (col, d)).2 then (k2, d2)
      else (if 0 ≤ d1 ∧ d1 ≤ d then (k1, d1) else (col, d)))
    = (if 0 ≤ d1 ∧ d1 ≤ (if 0 ≤ d2 ∧ d2 ≤ d then (k2, d2) else (col, d)).2 then (k1, d1)
      else (if 0 ≤ d2 ∧ d2 ≤ d then (k2, d2) else (col, d))) := by
  by_cases h1 : 0 ≤ d1 ∧ d1 ≤ d <;> by_cases h2 : 0 ≤ d2 ∧ d2 ≤ d
  · rw [if_pos h1, if_pos h2]
    by_cases h3 : d2 ≤ d1 <;> by_cases h4 : d1 ≤ d2
    · exact absurd (le_antisymm h4 h3) hne
    · rw [if_pos ⟨h2.1, h3⟩, if_neg (fun h => h4 h.2)]
    · rw [if_neg (fun h => h3 h.2), if_pos ⟨h1.1, h4⟩]
    · exact absurd (le_of_lt (lt_of_not_le h4)) h3
  · rw [if_pos h1, if_neg h2, if_pos h1, if_neg (fun h => h2 ⟨h.1, le_trans h.2 h1.2⟩)]
  · rw [if_neg h1, if_pos h2, if_neg (fun h => h1 ⟨h.1, le_trans h.2 h2.2⟩)]
  · simp [h1, h2]

/-- The depth left by two depth-tested writes does not depend on their order. -/
theorem shade_comm_depth (a1 b1 c1 colA1 colB1 colC1 a2 b2 c2 colA2 colB2 colC2 : Vector K)
    (u1 t1 u2 t2 : K) (cell : Cell K) :
    (shade a2 b2 c2 colA2 colB2 colC2 u2 t2
        (shade a1 b1 c1 colA1 colB1 colC1 u1 t1 cell)).2
      = (shade a1 b1 c1 colA1 colB1 colC1 u1 t1
        (shade a2 b2 c2 colA2 colB2 colC2 u2 t2 cell)).2 := by
  obtain ⟨col, d⟩ := cell
  exact put_comm_depth _ _ _ _ _ _

/-- Two depth-tested writes with different depths commute. -/
theorem shade_comm (a1 b1 c1 colA1 colB1 colC1 a2 b2 c2 colA2 colB2 colC2 : Vector K)
    (u1 t1 u2 t2 : K) (cell : Cell K)
    (hne : fragDepth a1 b1 c1 u1 t1 ≠ fragDepth a2 b2 c2 u2 t2) :
    shade a2 b2 c2 colA2 colB2 colC2 u2 t2 (shade a1 b1 c1 colA1 colB1 colC1 u1 t1 cell)
      = shade a1 b1 c1 colA1 colB1 colC1 u1 t1
        (shade a2 b2 c2 colA2 colB2 colC2 u2 t2 cell) := by
  obtain ⟨col, d⟩ := cell
  exact put_comm _ _ _ _ _ _ hne

/-- A depth-tested write that passes the test is not undone by a later write with a
larger depth. -/
theorem shade_closer (a1 b1 c1 colA1 colB1 colC1 a2 b2 c2 colA2 colB2 colC2 : Vector K)
    (u1 t1 u2 t2 : K) (cell : Cell K)
    (hlt : fragDepth a1 b1 c1 u1 t1 < fragDepth a2 b2 c2 u2 t2)
    (h0 : 0 ≤ fragDepth a1 b1 c1 u1 t1) (hle : fragDepth a1 b1 c1 u1 t1 ≤ cell.2) :
    shade a2 b2 c2 colA2 colB2 colC2 u2 t2 (shade a1 b1 c1 colA1 colB1 colC1 u1 t1 cell)
      = (fragColor colA1 colB1 colC1 u1 t1, fragDepth a1 b1 c1 u1 t1) := by
  have e1 : shade a1 b1 c1 colA1 colB1 colC1 u1 t1 cell
      = (fragColor colA1 colB1 colC1 u1 t1, fragDepth a1 b1 c1 u1 t1) := by
    unfold shade; rw [if_pos ⟨h0, hle⟩]
  rw [e1]
  unfold shade
  rw [if_neg]
  intro h
  exact absurd h.2 (not_le.2 hlt)

variable [FloorRing K]

theorem shadeAt_comm_depth (W H : Int)
    (a1 b1 c1 colA1 colB1 colC1 a2 b2 c2 colA2 colB2 colC2 : Vector K) (j : Int)
    (cell : Cell K) :
    (shadeAt W H a2 b2 c2 colA2 colB2 colC2 j
        (shadeAt W H a1 b1 c1 colA1 colB1 colC1 j cell)).2
      = (shadeAt W H a1 b1 c1 colA1 colB1 colC1 j
        (shadeAt W H a2 b2 c2 colA2 colB2 colC2 j cell)).2 := by
  unfold shadeAt
  cases fragmentAt W H a1 b1 c1 j <;> cases fragmentAt W H a2 b2 c2 j <;>
    simp only [shade_comm_depth]

theorem shadeAt_comm (W H : Int)
    (a1 b1 c1 colA1 colB1 colC1 a2 b2 c2 colA2 colB2 colC2 : Vector K) (j : Int)
    (cell : Cell K)
    (hne : ∀ u1 t1 u2 t2 : K, fragmentAt W H a1 b1 c1 j = some (u1, t1) →
      fragmentAt W H a2 b2 c2 j = some (u2, t2) →
      fragDepth a1 b1 c1 u1 t1 ≠ fragDepth a2 b2 c2 u2 t2) :
    shadeAt W H a2 b2 c2 colA2 colB2 colC2 j (shadeAt W H a1 b1 c1 colA1 colB1 colC1 j cell)
      = shadeAt W H a1 b1 c1 colA1 colB1 colC1 j
        (shadeAt W H a2 b2 c2 colA2 colB2 colC2 j cell) := by
  unfold shadeAt
  cases h1 : fragmentAt W H a1 b1 c1 j with
  | none => cases fragmentAt W H a2 b2 c2 j <;> rfl
  | some ut1 =>
    cases h2 : fragmentAt W H a2 b2 c2 j with
    | none => rfl
    | some ut2 =>
      exact shade_comm _ _ _ _ _ _ _ _ _ _ _ _ _ _ _ _ _ (hne ut1.1 ut1.2 ut2.1 ut2.2 (by simp [h1]) (by simp [h2]))

/-- Drawing two triangles without a callback, one after the other, on a well-formed
scene: both runs return and every cell goes through both depth-tested writes. -/
theorem RasterizeTriangleNil_twice {s : Scene K} (hwf : s.WellFormed)
    (a1 b1 c1 colA1 colB1 colC1 a2 b2 c2 colA2 colB2 colC2 : Vector K) :
    ∃ s1 s12 : Scene K,
      RasterizeTriangleNil s a1 b1 c1 colA1 colB1 colC1 = Result.ok s1 ∧
      RasterizeTriangleNil s1 a2 b2 c2 colA2 colB2 colC2 = Result.ok s12 ∧
      s.SameFrame s12 ∧
      ∀ j : Int, cellAt s12 j = (cellAt s j).map (fun cell =>
        shadeAt s.width s.height (VectorToScreencoords s a2) (VectorToScreencoords s b2)
          (VectorToScreencoords s c2) colA2 colB2 colC2 j
          (shadeAt s.width s.height (VectorToScreencoords s a1) (VectorToScreencoords s b1)
            (VectorToScreencoords s c1) colA1 colB1 colC1 j cell)) := by
  obtain ⟨s1, hrun1, hsf1, hcell1⟩ := RasterizeTriangleNil_spec hwf a1 b1 c1 colA1 colB1 colC1
  obtain ⟨s12, hrun2, hsf2, hcell2⟩ :=
    RasterizeTriangleNil_spec (SameFrame.wellFormed hsf1 hwf) a2 b2 c2 colA2 colB2 colC2
  refine ⟨s1, s12, hrun1, hrun2, SameFrame.trans hsf1 hsf2, ?_⟩
  intro j
  rw [hcell2 j, hcell1 j, hsf1.2.2.2.1, hsf1.2.2.2.2.1, SameFrame.screencoords hsf1,
    SameFrame.screencoords hsf1, SameFrame.screencoords hsf1]
  cases cellAt s j <;> rfl

end

end rasterizer

namespace rasterizer

open math3d

section
variable {K : Type} [LinearOrderedField K] [FloorRing K]

/-- C1 (amended): two triangles drawn without a callback on a well-formed scene, in
either order.  Both orders return.  The resulting depth buffers are equal.  At every
buffer index where the two triangles do not both have a fragment of the same depth the
resulting colors are equal; and when both have a fragment there, the color is that of
the fragment with the smaller depth provided this depth is at least 0 and at most the
depth stored before the two draws.  `A1 .. C2` are the screen-space vertices. -/
theorem RasterizeTriangle_order_independent {s : Scene K} (hwf : s.WellFormed)
    (a1 b1 c1 colA1 colB1 colC1 a2 b2 c2 colA2 colB2 colC2 : Vector K)
    (A1 B1 C1 A2 B2 C2 : Vector K)
    (hA1 : VectorToScreencoords s a1 = A1) (hB1 : VectorToScreencoords s b1 = B1)
    (hC1 : VectorToScreencoords s c1 = C1) (hA2 : VectorToScreencoords s a2 = A2)
    (hB2 : VectorToScreencoords s b2 = B2) (hC2 : VectorToScreencoords s c2 = C2) :
    ∃ s1 s12 s2 s21 : Scene K,
      RasterizeTriangleNil s a1 b1 c1 colA1 colB1 colC1 = Result.ok s1 ∧
      RasterizeTriangleNil s1 a2 b2 c2 colA2 colB2 colC2 = Result.ok s12 ∧
      RasterizeTriangleNil s a2 b2 c2 colA2 colB2 colC2 = Result.ok s2 ∧
      RasterizeTriangleNil s2 a1 b1 c1 colA1 colB1 colC1 = Result.ok s21 ∧
      s12.Buffers.DepthBuffer = s21.Buffers.DepthBuffer ∧
      ∀ j : Int,
        ((∀ u1 t1 u2 t2 : K,
            fragmentAt s.width s.height A1 B1 C1 j = some (u1, t1) →
            fragmentAt s.width s.height A2 B2 C2 j = some (u2, t2) →
            fragDepth A1 B1 C1 u1 t1 ≠ fragDepth A2 B2 C2 u2 t2) →
          getAt s12.Buffers.FrameBuffer j = getAt s21.Buffers.FrameBuffer j) ∧
        (∀ (u1 t1 u2 t2 : K) (col : Vector K) (d : K),
            fragmentAt s.width s.height A1 B1 C1 j = some (u1, t1) →
            fragmentAt s.width s.height A2 B2 C2 j = some (u2, t2) →
            cellAt s j = some (col, d) →
            (fragDepth A1 B1 C1 u1 t1 < fragDepth A2 B2 C2 u2 t2 →
              0 ≤ fragDepth A1 B1 C1 u1 t1 → fragDepth A1 B1 C1 u1 t1 ≤ d →
              getAt s12.Buffers.FrameBuffer j = some (fragColor colA1 colB1 colC1 u1 t1) ∧
              getAt s21.Buffers.FrameBuffer j = some (fragColor colA1 colB1 colC1 u1 t1)) ∧
            (fragDepth A2 B2 C2 u2 t2 < fragDepth A1 B1 C1 u1 t1 →
              0 ≤ fragDepth A2 B2 C2 u2 t2 → fragDepth A2 B2 C2 u2 t2 ≤ d →
              getAt s12.Buffers.FrameBuffer j = some (fragColor colA2 colB2 colC2 u2 t2) ∧
              getAt s21.Buffers.FrameBuffer j = some (fragColor colA2 colB2 colC2 u2 t2))) := by
  subst hA1 hB1 hC1 hA2 hB2 hC2
  obtain ⟨s1, s12, hr1, hr12, hsf12, hc12⟩ :=
    RasterizeTriangleNil_twice hwf a1 b1 c1 colA1 colB1 colC1 a2 b2 c2 colA2 colB2 colC2
  obtain ⟨s2, s21, hr2, hr21, hsf21, hc21⟩ :=
    RasterizeTriangleNil_twice hwf a2 b2 c2 colA2 colB2 colC2 a1 b1 c1 colA1 colB1 colC1
  have hwf12 := SameFrame.wellFormed hsf12 hwf
  have hwf21 := SameFrame.wellFormed hsf21 hwf
  refine ⟨s1, s12, s2, s21, hr1, hr12, hr2, hr21, ?_, ?_⟩
  · apply list_ext_getAt
    intro j
    rw [← WellFormed.map_snd_cellAt hwf12, ← WellFormed.map_snd_cellAt hwf21, hc12 j, hc21 j]
    cases cellAt s j with
    | none => rfl
    | some cell =>
      simp only [Option.map_some']
      rw [shadeAt_comm_depth]
  · intro j
    constructor
    · intro hne
      rw [← WellFormed.map_fst_cellAt hwf12, ← WellFormed.map_fst_cellAt hwf21, hc12 j, hc21 j]
      cases cellAt s j with
      | none => rfl
      | some cell =>
        simp only [Option.map_some']
        rw [shadeAt_comm _ _ _ _ _ _ _ _ _ _ _ _ _ _ _ _ hne]
    · intro u1 t1 u2 t2 col d hf1 hf2 hcell
      rw [← WellFormed.map_fst_cellAt hwf12, ← WellFormed.map_fst_cellAt hwf21, hc12 j, hc21 j,
        hcell]
      simp only [Option.map_some', shadeAt, hf1, hf2]
      constructor
      · intro hlt h0 hle
        have hne : fragDepth (VectorToScreencoords s a1) (VectorToScreencoords s b1)
            (VectorToScreencoords s c1) u1 t1 ≠ fragDepth (VectorToScreencoords s a2)
            (VectorToScreencoords s b2) (VectorToScreencoords s c2) u2 t2 := ne_of_lt hlt
        rw [← shade_comm _ _ _ _ _ _ _ _ _ _ _ _ _ _ _ _ _ hne,
          shade_closer _ _ _ _ _ _ _ _ _ _ _ _ _ _ _ _ _ hlt h0 hle]
        exact ⟨rfl, rfl⟩
      · intro hlt h0 hle
        have hne : fragDepth (VectorToScreencoords s a2) (VectorToScreencoords s b2)
            (VectorToScreencoords s c2) u2 t2 ≠ fragDepth (VectorToScreencoords s a1)
            (VectorToScreencoords s b1) (VectorToScreencoords s c1) u1 t1 := ne_of_lt hlt
        rw [← shade_comm _ _ _ _ _ _ _ _ _ _ _ _ _ _ _ _ _ hne,
          shade_closer _ _ _ _ _ _ _ _ _ _ _ _ _ _ _ _ _ hlt h0 hle]
        exact ⟨rfl, rfl⟩

end

/-- C1, as stated, fails: in a one-pixel scene whose stored depth is 0, two triangles
with candidate depths 1/4 and 1/2 at the pixel are both rejected by the depth test, and
the pixel keeps its black color instead of taking the red of the triangle with the
smaller depth. -/
theorem RasterizeTriangle_smaller_depth_rejected :
    RasterizeTriangleNil (demo.scene 1 1 [demo.black] [0])
        (demo.pt 0 0 (1/4)) (demo.pt 1 0 (1/4)) (demo.pt 0 1 (1/4)) demo.red demo.red demo.red
      = Result.ok (demo.scene 1 1 [demo.black] [0]) ∧
    RasterizeTriangleNil (demo.scene 1 1 [demo.black] [0])
        (demo.pt 0 0 (1/2)) (demo.pt 1 0 (1/2)) (demo.pt 0 1 (1/2)) demo.green demo.green
        demo.green
      = Result.ok (demo.scene 1 1 [demo.black] [0]) ∧
    fragmentAt 1 1 (demo.pt 0 0 (1/4)) (demo.pt 1 0 (1/4)) (demo.pt 0 1 (1/4)) 0
      = some (0, 0) ∧
    fragmentAt 1 1 (demo.pt 0 0 (1/2)) (demo.pt 1 0 (1/2)) (demo.pt 0 1 (1/2)) 0
      = some (0, 0) ∧
    fragDepth (demo.pt 0 0 (1/4)) (demo.pt 1 0 (1/4)) (demo.pt 0 1 (1/4)) 0 0 = 1/4 ∧
    fragDepth (demo.pt 0 0 (1/2)) (demo.pt 1 0 (1/2)) (demo.pt 0 1 (1/2)) 0 0 = 1/2 ∧
    fragColor demo.red demo.red demo.red 0 0 = demo.red ∧
    getAt (demo.scene 1 1 [demo.black] [0]).Buffers.FrameBuffer 0 = some demo.black ∧
    demo.black ≠ demo.red := by
  decide!

/-- A concrete instance of C1 (amended): the two orders on a one-pixel scene. -/
theorem RasterizeTriangle_order_independent_witness :
    ∃ s1 s12 s2 s21 : Scene ℚ,
      RasterizeTriangleNil (demo.scene 1 1 [demo.black] [1])
        (demo.pt 0 0 (1/4)) (demo.pt 1 0 (1/4)) (demo.pt 0 1 (1/4))
        demo.red demo.red demo.red = Result.ok s1 ∧
      RasterizeTriangleNil s1 (demo.pt 0 0 (1/2)) (demo.pt 1 0 (1/2)) (demo.pt 0 1 (1/2))
        demo.green demo.green demo.green = Result.ok s12 ∧
      RasterizeTriangleNil (demo.scene 1 1 [demo.black] [1])
        (demo.pt 0 0 (1/2)) (demo.pt 1 0 (1/2)) (demo.pt 0 1 (1/2))
        demo.green demo.green demo.green = Result.ok s2 ∧
      RasterizeTriangleNil s2 (demo.pt 0 0 (1/4)) (demo.pt 1 0 (1/4)) (demo.pt 0 1 (1/4))
        demo.red demo.red demo.red = Result.ok s21 ∧
      s12.Buffers.DepthBuffer = s21.Buffers.DepthBuffer :=
  let ⟨s1, s12, s2, s21, h1, h12, h2, h21, hd, _⟩ :=
    RasterizeTriangle_order_independent (s := demo.scene 1 1 [demo.black] [1]) (by decide)
      (demo.pt 0 0 (1/4)) (demo.pt 1 0 (1/4)) (demo.pt 0 1 (1/4)) demo.red demo.red demo.red
      (demo.pt 0 0 (1/2)) (demo.pt 1 0 (1/2)) (demo.pt 0 1 (1/2)) demo.green demo.green
      demo.green _ _ _ _ _ _ rfl rfl rfl rfl rfl rfl
  ⟨s1, s12, s2, s21, h1, h12, h2, h21, hd⟩

end rasterizer

/-! ## The invocations of the callback -/

namespace rasterizer

open math3d

section
variable {K : Type} [LinearOrderedField K]
variable (a b c colorA colorB colorC : Vector K)

/-- What a record of the recording callback says about the pixel it was made for. -/
theorem callOf_some {s : Scene K} {x y : Int} {u t : Flt K} {e : Call K}
    (h : callOf a b c colorA colorB colorC s x y u t = some e) :
    inViewport s x y = true ∧ insideTriangle u t = true ∧
      e = ⟨1 - u.val - t.val, u.val, t.val, s.width * y + x,
        some (fragColor colorA colorB colorC u.val t.val, fragDepth a b c u.val t.val)⟩ ∧
      ∃ cell, cellAt s (s.width * y + x) = some cell ∧ 0 ≤ fragDepth a b c u.val t.val ∧
        fragDepth a b c u.val t.val ≤ cell.2 := by
  unfold callOf at h
  split at h
  · rename_i hcond
    simp only [Bool.and_eq_true] at hcond
    split at h
    · rename_i cell hcell
      split at h
      · rename_i htest
        simp only [Option.some.injEq] at h
        exact ⟨hcond.1, hcond.2, h.symm, cell, hcell, htest.1, htest.2⟩
      · simp at h
    · simp at h
  · simp at h

/-- The loop body makes a record exactly when the pixel is in the viewport, passes the
inside test and passes the depth test. -/
theorem callOf_eq_some {s : Scene K} {x y : Int} {u t : Flt K} {cell : Cell K}
    (hv : inViewport s x y = true) (hin : insideTriangle u t = true)
    (hcell : cellAt s (s.width * y + x) = some cell)
    (h0 : 0 ≤ fragDepth a b c u.val t.val) (hle : fragDepth a b c u.val t.val ≤ cell.2) :
    callOf a b c colorA colorB colorC s x y u t
      = some ⟨1 - u.val - t.val, u.val, t.val, s.width * y + x,
        some (fragColor colorA colorB colorC u.val t.val, fragDepth a b c u.val t.val)⟩ := by
  unfold callOf
  simp [hv, hin, hcell, h0, hle]

/-- A record depends on the scene only through its size and the cell of its pixel. -/
theorem callOf_congr {s s1 : Scene K} (hsf : s.SameFrame s1) (x y : Int) (u t : Flt K)
    (hcell : inViewport s x y = true → cellAt s1 (s.width * y + x) = cellAt s (s.width * y + x)) :
    callOf a b c colorA colorB colorC s1 x y u t = callOf a b c colorA colorB colorC s x y u t := by
  unfold callOf
  rw [SameFrame.inViewport_eq hsf, hsf.2.2.2.1]
  by_cases hv : inViewport s x y = true
  · rw [hcell hv]
  · simp [hv]

theorem callOf_pixelScene {s : Scene K} (hwf : s.WellFormed) (x y : Int) (u t : Flt K)
    (x1 y1 : Int) (u1 t1 : Flt K) (hne : ¬ (x1 = x ∧ y1 = y)) :
    callOf a b c colorA colorB colorC (pixelScene a b c colorA colorB colorC s x y u t)
        x1 y1 u1 t1
      = callOf a b c colorA colorB colorC s x1 y1 u1 t1 := by
  apply callOf_congr _ _ _ _ _ _ (pixelScene_sameFrame a b c colorA colorB colorC s x y u t)
  intro hv1
  rw [cellAt_pixelScene a b c colorA colorB colorC hwf, if_neg]
  rintro ⟨hj, hv, _⟩
  obtain ⟨hx0, hxW, _, _⟩ := (inViewport_iff s x y).1 hv
  obtain ⟨hx10, hx1W, _, _⟩ := (inViewport_iff s x1 y1).1 hv1
  exact hne (index_inj hx10 hx1W hx0 hxW hj)

theorem callOf_rowScene (ux tx : Flt K) (y : Int) (k : Nat) (x : Int) (u t : Flt K)
    {s : Scene K} (hwf : s.WellFormed) (x1 y1 : Int) (u1 t1 : Flt K) (hne : y1 ≠ y) :
    callOf a b c colorA colorB colorC (rowScene a b c colorA colorB colorC ux tx y k x u t s)
        x1 y1 u1 t1
      = callOf a b c colorA colorB colorC s x1 y1 u1 t1 := by
  apply callOf_congr _ _ _ _ _ _ (rowScene_sameFrame a b c colorA colorB colorC ux tx y k x u t s)
  intro hv1
  rw [cellAt_rowScene a b c colorA colorB colorC ux tx y k x u t hwf, if_neg]
  rintro ⟨_, _, hy, _⟩
  obtain ⟨hx10, hx1W, hy10, hy1H⟩ := (inViewport_iff s x1 y1).1 hv1
  have := (@pixel_index_iff s.width s.height x1 y1 (s.width * y1 + x1) hwf.1).1
    ⟨rfl, hx10, hx1W, hy10, hy1H⟩
  exact hne (this.2.2.1.symm.trans hy)

/-- The records of the inner loop, column by column, relative to the scene at the
start of the row. -/
theorem rowCalls_eq (ux tx : Flt K) (y : Int) (k : Nat) (x : Int) (u t : Flt K)
    {s : Scene K} (hwf : s.WellFormed) :
    rowCalls a b c colorA colorB colorC ux tx y k x u t s
      = (List.range k).filterMap (fun i : Nat =>
          callOf a b c colorA colorB colorC s (x + i) y (addN ux i u) (addN tx i t)) := by
  induction k generalizing x u t s with
  | zero => simp [rowCalls]
  | succ k ih =>
    have hsf := pixelScene_sameFrame a b c colorA colorB colorC s x y u t
    have hwf1 := SameFrame.wellFormed hsf hwf
    simp only [rowCalls]
    rw [ih (x + 1) (u + ux) (t + tx) hwf1, List.range_succ_eq_map, List.filterMap_cons,
      List.filterMap_map]
    have hfun : (fun i : Nat => callOf a b c colorA colorB colorC
          (pixelScene a b c colorA colorB colorC s x y u t) (x + 1 + (i : Int)) y
          (addN ux i (u + ux)) (addN tx i (t + tx)))
        = ((fun i : Nat => callOf a b c colorA colorB colorC s (x + (i : Int)) y
            (addN ux i u) (addN tx i t)) ∘ Nat.succ) := by
      funext i
      simp only [Function.comp, Nat.succ_eq_add_one]
      rw [callOf_pixelScene a b c colorA colorB colorC hwf x y u t _ _ _ _ (by omega)]
      have : x + 1 + (i : Int) = x + ((i + 1 : Nat) : Int) := by push_cast; ring
      rw [this]
      rfl
    rw [hfun]
    simp only [Nat.cast_zero, add_zero, addN]
    cases callOf a b c colorA colorB colorC s x y u t <;> rfl

/-- The records of the outer loop, row by row, relative to the scene at the start of
the scan. -/
theorem rowsCalls_eq (bbMinX : Int) (cols : Nat) (ux uy tx ty : Flt K) (n : K)
    (k : Nat) (y : Int) (u t : Flt K) {s : Scene K} (hwf : s.WellFormed) :
    rowsCalls a b c colorA colorB colorC bbMinX cols ux uy tx ty n k y u t s
      = (List.range k).flatMap (fun r : Nat =>
          (List.range cols).filterMap (fun i : Nat =>
            callOf a b c colorA colorB colorC s (bbMinX + i) (y + r)
              (addN ux i (rowStart cols ux uy n r u)) (addN tx i (rowStart cols tx ty n r t)))) := by
  induction k generalizing y u t s with
  | zero => simp [rowsCalls]
  | succ k ih =>
    have hsf := rowScene_sameFrame a b c colorA colorB colorC ux tx y cols bbMinX u t s
    have hwf1 := SameFrame.wellFormed hsf hwf
    simp only [rowsCalls]
    rw [ih (y + 1) _ _ hwf1, rowCalls_eq a b c colorA colorB colorC ux tx y cols bbMinX u t hwf,
      List.range_succ_eq_map, List.flatMap_cons, List.flatMap_map]
    congr 1
    · simp [rowStart]
    · congr 1
      funext r
      simp only [Function.comp, Nat.succ_eq_add_one]
      congr 1
      funext i
      rw [callOf_rowScene a b c colorA colorB colorC ux tx y cols bbMinX u t hwf _ _ _ _
        (by omega)]
      have : y + 1 + (r : Int) = y + ((r + 1 : Nat) : Int) := by push_cast; ring
      rw [this]
      rfl

end

end rasterizer

namespace rasterizer

open math3d

section
variable {K : Type} [LinearOrderedField K]
variable (a b c colorA colorB colorC : Vector K)

/-- The records of the outer loop are in strictly increasing order of buffer index. -/
theorem rowsCalls_pairwise (bbMinX : Int) (cols : Nat) (ux uy tx ty : Flt K) (n : K)
    (k : Nat) (y : Int) (u t : Flt K) {s : Scene K} (hwf : s.WellFormed) :
    List.Pairwise (fun e1 e2 : Call K => e1.idx < e2.idx)
      (rowsCalls a b c colorA colorB colorC bbMinX cols ux uy tx ty n k y u t s) := by
  rw [rowsCalls_eq a b c colorA colorB colorC bbMinX cols ux uy tx ty n k y u t hwf,
    List.pairwise_flatMap]
  constructor
  · intro r _
    apply List.Pairwise.filterMap _ _ (List.pairwise_lt_range cols)
    intro i i1 hlt e he e1 he1
    obtain ⟨_, _, rfl, _⟩ := callOf_some a b c colorA colorB colorC (Option.mem_def.1 he)
    obtain ⟨_, _, rfl, _⟩ := callOf_some a b c colorA colorB colorC (Option.mem_def.1 he1)
    simp only
    omega
  · apply List.Pairwise.imp _ (List.pairwise_lt_range k)
    intro r r1 hlt e he e1 he1
    obtain ⟨i, _, hi⟩ := List.mem_filterMap.1 he
    obtain ⟨i1, _, hi1⟩ := List.mem_filterMap.1 he1
    obtain ⟨hv, _, rfl, _⟩ := callOf_some a b c colorA colorB colorC hi
    obtain ⟨hv1, _, rfl, _⟩ := callOf_some a b c colorA colorB colorC hi1
    obtain ⟨hx0, hxW, _, _⟩ := (inViewport_iff _ _ _).1 hv
    obtain ⟨hx10, hx1W, _, _⟩ := (inViewport_iff _ _ _).1 hv1
    simp only
    have h1 : s.width * (y + (r : Int) + 1) ≤ s.width * (y + (r1 : Int)) :=
      Int.mul_le_mul_of_nonneg_left (by omega) hwf.1
    have h2 : s.width * (y + (r : Int) + 1) = s.width * (y + (r : Int)) + s.width := by ring
    omega

variable [FloorRing K]

/-- The scan of a triangle with the recording callback never faults on a well-formed
scene, leaves the scene it leaves without a callback, and records, in increasing order
of buffer index, exactly the pixels of the bounding box for which `callOf` gives a
record. -/
theorem scanTriangle_recorder {s : Scene K} (hwf : s.WellFormed) :
    ∃ (s1 : Scene K) (log : List (Call K)),
      scanTriangle a b c colorA colorB colorC (some recorder) (s, []) = Result.ok (s1, log) ∧
      scanTriangle a b c colorA colorB colorC (none : Option (LightingCalcCb K Unit)) (s, ())
        = Result.ok (s1, ()) ∧
      List.Pairwise (fun e1 e2 : Call K => e1.idx < e2.idx) log ∧
      ∀ e : Call K, e ∈ log ↔ ∃ i r : Nat,
        (i : Int) < Int.ceil (max (max a.X b.X) c.X) - Int.ceil (min (min a.X b.X) c.X) + 1 ∧
        (r : Int) < Int.ceil (max (max a.Y b.Y) c.Y) - Int.ceil (min (min a.Y b.Y) c.Y) + 1 ∧
        callOf a b c colorA colorB colorC s (Int.ceil (min (min a.X b.X) c.X) + i)
          (Int.ceil (min (min a.Y b.Y) c.Y) + r) (weightsAt a b c i r).1 (weightsAt a b c i r).2
          = some e := by
  refine ⟨_, _, triangleRows_recorder a b c colorA colorB colorC _ _ _ _ _ _ _ _ _ _ _ hwf [],
    triangleRows_nil a b c colorA colorB colorC _ _ _ _ _ _ _ _ _ _ _ hwf, ?_, ?_⟩
  · rw [List.nil_append]
    exact rowsCalls_pairwise a b c colorA colorB colorC _ _ _ _ _ _ _ _ _ _ _ hwf
  · intro e
    rw [List.nil_append, rowsCalls_eq a b c colorA colorB colorC _ _ _ _ _ _ _ _ _ _ _ hwf]
    simp only [List.mem_flatMap, List.mem_filterMap, List.mem_range]
    constructor
    · rintro ⟨r, hr, i, hi, he⟩
      exact ⟨i, r, by omega, by omega, he⟩
    · rintro ⟨i, r, hi, hr, he⟩
      exact ⟨r, by omega, i, by omega, he⟩

end

end rasterizer

namespace rasterizer

open math3d

section
variable {K : Type} [LinearOrderedField K] [FloorRing K]

/-- The fragment of the pixel in column `i` and row `r` of the bounding box, when the
pixel is in the viewport and passes the inside test. -/
theorem fragmentAt_of_weights {W H : Int} (hW : 0 ≤ W) (a b c : Vector K) (i r : Nat)
    (hi : (i : Int) < Int.ceil (max (max a.X b.X) c.X) - Int.ceil (min (min a.X b.X) c.X) + 1)
    (hr : (r : Int) < Int.ceil (max (max a.Y b.Y) c.Y) - Int.ceil (min (min a.Y b.Y) c.Y) + 1)
    (hx0 : 0 ≤ Int.ceil (min (min a.X b.X) c.X) + (i : Int))
    (hxW : Int.ceil (min (min a.X b.X) c.X) + (i : Int) < W)
    (hy0 : 0 ≤ Int.ceil (min (min a.Y b.Y) c.Y) + (r : Int))
    (hyH : Int.ceil (min (min a.Y b.Y) c.Y) + (r : Int) < H)
    (hin : insideTriangle (weightsAt a b c i r).1 (weightsAt a b c i r).2 = true) :
    fragmentAt W H a b c
        (W * (Int.ceil (min (min a.Y b.Y) c.Y) + r) + (Int.ceil (min (min a.X b.X) c.X) + i))
      = some ((weightsAt a b c i r).1.val, (weightsAt a b c i r).2.val) := by
  obtain ⟨h0, hlt, hdiv, hmod⟩ := (@pixel_index_iff W H _ _ _ hW).1 ⟨rfl, hx0, hxW, hy0, hyH⟩
  unfold fragmentAt
  simp only [hdiv, hmod]
  have e1 : (Int.ceil (min (min a.X b.X) c.X) + (i : Int) - Int.ceil (min (min a.X b.X) c.X)).toNat
      = i := by omega
  have e2 : (Int.ceil (min (min a.Y b.Y) c.Y) + (r : Int) - Int.ceil (min (min a.Y b.Y) c.Y)).toNat
      = r := by omega
  rw [e1, e2, if_pos ⟨h0, hlt, by omega, by omega, by omega, by omega⟩, if_pos hin]

/-- A fragment is the pair of weights of a pixel of the viewport, in a column and a
row of the bounding box, that passes the inside test. -/
theorem fragmentAt_weights {W H : Int} (hW : 0 ≤ W) {a b c : Vector K} {j : Int} {u t : K}
    (h : fragmentAt W H a b c j = some (u, t)) :
    ∃ i r : Nat,
      (i : Int) < Int.ceil (max (max a.X b.X) c.X) - Int.ceil (min (min a.X b.X) c.X) + 1 ∧
      (r : Int) < Int.ceil (max (max a.Y b.Y) c.Y) - Int.ceil (min (min a.Y b.Y) c.Y) + 1 ∧
      0 ≤ Int.ceil (min (min a.X b.X) c.X) + (i : Int) ∧
      Int.ceil (min (min a.X b.X) c.X) + (i : Int) < W ∧
      0 ≤ Int.ceil (min (min a.Y b.Y) c.Y) + (r : Int) ∧
      Int.ceil (min (min a.Y b.Y) c.Y) + (r : Int) < H ∧
      j = W * (Int.ceil (min (min a.Y b.Y) c.Y) + r) + (Int.ceil (min (min a.X b.X) c.X) + i) ∧
      insideTriangle (weightsAt a b c i r).1 (weightsAt a b c i r).2 = true ∧
      u = (weightsAt a b c i r).1.val ∧ t = (weightsAt a b c i r).2.val := by
  unfold fragmentAt at h
  simp only at h
  split at h
  · rename_i hbox
    split at h
    · rename_i hin
      simp only [Option.some.injEq, Prod.mk.injEq] at h
      obtain ⟨hj, hx0, hxW, hy0, hyH⟩ :=
        (@pixel_index_iff W H (j % W) (j / W) j hW).2 ⟨hbox.1, hbox.2.1, rfl, rfl⟩
      refine ⟨(j % W - Int.ceil (min (min a.X b.X) c.X)).toNat,
        (j / W - Int.ceil (min (min a.Y b.Y) c.Y)).toNat, by omega, by omega, by omega, by omega,
        by omega, by omega, ?_, hin, h.1.symm, h.2.symm⟩
      have e1 : Int.ceil (min (min a.X b.X) c.X)
          + ((j % W - Int.ceil (min (min a.X b.X) c.X)).toNat : Int) = j % W := by omega
      have e2 : Int.ceil (min (min a.Y b.Y) c.Y)
          + ((j / W - Int.ceil (min (min a.Y b.Y) c.Y)).toNat : Int) = j / W := by omega
      rw [e1, e2]
      exact hj
    · simp at h
  · simp at h

/-- Over exact arithmetic: RasterizeTriangle with a callback that records its
invocations, on a well-formed scene.  The run returns the scene it returns without a callback.  The
records are in strictly increasing order of buffer index, so no pixel is recorded
twice.  Every record has arguments `u ≥ 0`, `t ≥ 0`, `w = 1 - u - t ≥ 0` that are the
weights of the pixel with index `idx = width*y + x`, a pixel of the viewport whose
fragment passed the depth test against the depth stored before the call; at the time
of the invocation, and at the end, the cell of `idx` holds the color
`lerpTriColor(colorA, colorB, colorC, w, u, t)` and the depth `a.Z*w + b.Z*u + c.Z*t`
just written.  Conversely every pixel whose fragment passes the depth test, that is
every pixel written, is recorded.  `A`, `B`, `C` are the screen-space vertices. -/
theorem RasterizeTriangle_callback {s : Scene K} (hwf : s.WellFormed)
    (a b c colorA colorB colorC : Vector K) (A B C : Vector K)
    (hA : VectorToScreencoords s a = A) (hB : VectorToScreencoords s b = B)
    (hC : VectorToScreencoords s c = C) :
    ∃ (s1 : Scene K) (log : List (Call K)),
      RasterizeTriangle s a b c colorA colorB colorC (some recorder) [] = Result.ok (s1, log) ∧
      RasterizeTriangleNil s a b c colorA colorB colorC = Result.ok s1 ∧
      List.Pairwise (fun e1 e2 : Call K => e1.idx < e2.idx) log ∧
      (∀ e ∈ log, 0 ≤ e.u ∧ 0 ≤ e.t ∧ e.w = 1 - e.u - e.t ∧ 0 ≤ e.w ∧
        (∃ x y : Int, 0 ≤ x ∧ x < s.width ∧ 0 ≤ y ∧ y < s.height ∧ e.idx = s.width * y + x) ∧
        fragmentAt s.width s.height A B C e.idx = some (e.u, e.t) ∧
        e.cell = some (lerpTriColor colorA colorB colorC e.w e.u e.t,
          A.Z * e.w + B.Z * e.u + C.Z * e.t) ∧
        cellAt s1 e.idx = e.cell ∧
        ∃ (col : Vector K) (d : K), cellAt s e.idx = some (col, d) ∧
          0 ≤ A.Z * e.w + B.Z * e.u + C.Z * e.t ∧ A.Z * e.w + B.Z * e.u + C.Z * e.t ≤ d) ∧
      (∀ (j : Int) (u t : K) (col : Vector K) (d : K),
        fragmentAt s.width s.height A B C j = some (u, t) → cellAt s j = some (col, d) →
        0 ≤ fragDepth A B C u t → fragDepth A B C u t ≤ d → ∃ e ∈ log, e.idx = j) := by
  subst hA hB hC
  obtain ⟨s1, log, hrec, hnil, hpw, hmem⟩ := scanTriangle_recorder (VectorToScreencoords s a)
    (VectorToScreencoords s b) (VectorToScreencoords s c) colorA colorB colorC hwf
  obtain ⟨s1', hnil', _, hcell⟩ := scanTriangle_nil (VectorToScreencoords s a)
    (VectorToScreencoords s b) (VectorToScreencoords s c) colorA colorB colorC hwf
  have hs : s1' = s1 := by
    rw [hnil] at hnil'
    simp only [Result.ok.injEq, Prod.mk.injEq, and_true] at hnil'
    exact hnil'.symm
  subst hs
  refine ⟨s1', log, hrec, ?_, hpw, ?_, ?_⟩
  · unfold RasterizeTriangleNil RasterizeTriangle
    simp only [hnil]
  · intro e he
    obtain ⟨i, r, hi, hr, hcall⟩ := (hmem e).1 he
    obtain ⟨hv, hin, rfl, cell, hcellj, h0, hle⟩ := callOf_some _ _ _ _ _ _ hcall
    obtain ⟨hx0, hxW, hy0, hyH⟩ := (inViewport_iff _ _ _).1 hv
    obtain ⟨uq, tq, hu, ht, hu0, ht0, hsum⟩ := (insideTriangle_iff _ _).1 hin
    have hfrag := fragmentAt_of_weights hwf.1 (VectorToScreencoords s a)
      (VectorToScreencoords s b) (VectorToScreencoords s c) i r hi hr hx0 hxW hy0 hyH hin
    simp only
    refine ⟨by rw [hu]; exact hu0, by rw [ht]; exact ht0, trivial, ?_,
      ⟨_, _, hx0, hxW, hy0, hyH, rfl⟩, hfrag, rfl, ?_, cell.1, cell.2, hcellj, h0, hle⟩
    · rw [hu, ht]; simp only [Flt.val]; linarith
    · rw [hcell, hcellj]
      simp only [Option.map_some', shadeAt, hfrag, shade]
      rw [if_pos ⟨h0, hle⟩]
  · intro j u t col d hf hcj h0 hle
    obtain ⟨i, r, hi, hr, hx0, hxW, hy0, hyH, rfl, hin, rfl, rfl⟩ := fragmentAt_weights hwf.1 hf
    have hv : inViewport s (Int.ceil (min (min (VectorToScreencoords s a).X
        (VectorToScreencoords s b).X) (VectorToScreencoords s c).X) + (i : Int))
        (Int.ceil (min (min (VectorToScreencoords s a).Y (VectorToScreencoords s b).Y)
          (VectorToScreencoords s c).Y) + (r : Int)) = true :=
      (inViewport_iff _ _ _).2 ⟨hx0, hxW, hy0, hyH⟩
    have hcall := callOf_eq_some (VectorToScreencoords s a) (VectorToScreencoords s b)
      (VectorToScreencoords s c) colorA colorB colorC hv hin hcj h0 hle
    exact ⟨_, (hmem _).2 ⟨i, r, hi, hr, hcall⟩, rfl⟩

end

end rasterizer

/-! ## The incremental weights of a triangle with non-collinear vertices -/

namespace rasterizer

open math3d

section
variable {K : Type} [LinearOrderedField K]

theorem sf_fin (x y : Int) (a b c : Vector K)
    (hden : (a.Y - c.Y) * b.X + (c.X - a.X) * b.Y + a.X * c.Y - c.X * a.Y ≠ 0) :
    sf x y a b c = Flt.fin (((a.Y - c.Y) * (x : K) + (c.X - a.X) * (y : K) + a.X * c.Y - c.X * a.Y)
      / ((a.Y - c.Y) * b.X + (c.X - a.X) * b.Y + a.X * c.Y - c.X * a.Y)) := by
  unfold sf
  exact div_of_ne_zero _ hden

theorem tf_fin (x y : Int) (a b c : Vector K)
    (hden : (a.Y - b.Y) * c.X + (b.X - a.X) * c.Y + a.X * b.Y - b.X * a.Y ≠ 0) :
    tf x y a b c = Flt.fin (((a.Y - b.Y) * (x : K) + (b.X - a.X) * (y : K) + a.X * b.Y - b.X * a.Y)
      / ((a.Y - b.Y) * c.X + (b.X - a.X) * c.Y + a.X * b.Y - b.X * a.Y)) := by
  unfold tf
  exact div_of_ne_zero _ hden

theorem fin_sub_fin (p q : K) : (Flt.fin p - Flt.fin q : Flt K) = Flt.fin (p + -q) := rfl

/-- An accumulator that starts at `(p*x0 + q*y0 + r1 - r2)/den` and is advanced as in the
scan holds `(p*(x0+i) + q*(y0+j) + r1 - r2)/den` at column `i` of row `j`. -/
theorem affine_scan (p q r1 r2 den : K) (x0 y0 : Int) (cols i j : Nat) :
    addN (Flt.fin ((p * ((x0 + 1 : Int) : K) + q * (y0 : K) + r1 - r2) / den)
          - Flt.fin ((p * (x0 : K) + q * (y0 : K) + r1 - r2) / den)) i
        (rowStart cols
          (Flt.fin ((p * ((x0 + 1 : Int) : K) + q * (y0 : K) + r1 - r2) / den)
            - Flt.fin ((p * (x0 : K) + q * (y0 : K) + r1 - r2) / den))
          (Flt.fin ((p * (x0 : K) + q * ((y0 + 1 : Int) : K) + r1 - r2) / den)
            - Flt.fin ((p * (x0 : K) + q * (y0 : K) + r1 - r2) / den))
          (cols : K) j (Flt.fin ((p * (x0 : K) + q * (y0 : K) + r1 - r2) / den)))
      = Flt.fin ((p * ((x0 + (i : Int) : Int) : K) + q * ((y0 + (j : Int) : Int) : K) + r1 - r2)
          / den) := by
  rw [fin_sub_fin, fin_sub_fin, rowStart_fin, addN_fin]
  congr 1
  push_cast
  ring

variable [FloorRing K]

theorem bbox_cols_cast (a b c : Vector K) :
    ((Int.ceil (max (max a.X b.X) c.X) - Int.ceil (min (min a.X b.X) c.X) + 1 : Int) : K)
      = (((Int.ceil (max (max a.X b.X) c.X) - Int.ceil (min (min a.X b.X) c.X) + 1).toNat : Nat) : K) := by
  have h : Int.ceil (min (min a.X b.X) c.X) ≤ Int.ceil (max (max a.X b.X) c.X) :=
    Int.ceil_le_ceil (le_trans (min_le_right _ _) (le_max_right _ _))
  have h2 : (((Int.ceil (max (max a.X b.X) c.X) - Int.ceil (min (min a.X b.X) c.X) + 1).toNat : Nat) : Int)
      = Int.ceil (max (max a.X b.X) c.X) - Int.ceil (min (min a.X b.X) c.X) + 1 := by omega
  rw [← Int.cast_natCast, h2]

/-- For a triangle whose screen-space vertices are not collinear, the weights the scan
holds at a pixel are the values of `sf` and `tf` at that pixel. -/
theorem weightsAt_eq (a b c : Vector K)
    (hs : (a.Y - c.Y) * b.X + (c.X - a.X) * b.Y + a.X * c.Y - c.X * a.Y ≠ 0)
    (ht : (a.Y - b.Y) * c.X + (b.X - a.X) * c.Y + a.X * b.Y - b.X * a.Y ≠ 0) (i j : Nat) :
    weightsAt a b c i j
      = (sf (Int.ceil (min (min a.X b.X) c.X) + i) (Int.ceil (min (min a.Y b.Y) c.Y) + j) a b c,
         tf (Int.ceil (min (min a.X b.X) c.X) + i) (Int.ceil (min (min a.Y b.Y) c.Y) + j) a b c) := by
  unfold weightsAt
  simp only [sf_fin _ _ a b c hs, tf_fin _ _ a b c ht, bbox_cols_cast]
  rw [affine_scan, affine_scan]

end

end rasterizer

/-! ## ClearBuffers -/

namespace rasterizer

open math3d

section
variable {K : Type} [LinearOrderedField K]

/-- The inner loop of ClearBuffers sets `k` consecutive cells and never faults when they
lie inside the buffers. -/
theorem clearRow_spec (clearColor : Vector K) (k : Nat) (i : Int) (s : Scene K) (h0 : 0 ≤ i)
    (hlen : i + k ≤ s.Buffers.FrameBuffer.length)
    (hD : s.Buffers.DepthBuffer.length = s.Buffers.FrameBuffer.length) :
    ∃ s1 : Scene K, clearRow clearColor k i s = Result.ok (i + k, s1) ∧ s.SameFrame s1 ∧
      ∀ j : Int, cellAt s1 j = if i ≤ j ∧ j < i + k then some (clearColor, 1) else cellAt s j := by
  induction k generalizing i s with
  | zero =>
    refine ⟨s, by simp [clearRow], SameFrame.refl s, ?_⟩
    intro j
    rw [if_neg]
    intro h
    have := h.1
    have := h.2
    omega
  | succ k ih =>
    have hF : i.toNat < s.Buffers.FrameBuffer.length := by omega
    have hDl : i.toNat < s.Buffers.DepthBuffer.length := by omega
    have hsf := writeCell_sameFrame s i (clearColor, (1 : K))
    obtain ⟨s1, hrun, hsf1, hcell⟩ := ih (i + 1) (writeCell s i (clearColor, 1)) (by omega)
      (by rw [hsf.2.2.2.2.2.2.1]; push_cast at hlen; omega)
      (by rw [hsf.2.2.2.2.2.2.1, hsf.2.2.2.2.2.2.2]; exact hD)
    refine ⟨s1, ?_, SameFrame.trans hsf hsf1, ?_⟩
    · simp only [clearRow, setAt_eq_some _ _ _ h0 hF, setAt_eq_some _ _ _ h0 hDl]
      have : i + ((k + 1 : Nat) : Int) = i + 1 + (k : Int) := by push_cast; ring
      rw [this, ← hrun]
      rfl
    · intro j
      rw [hcell j, cellAt_writeCell s i j _ h0 hF hD]
      by_cases hj : j = i
      · subst hj
        have h1 : ¬ (j + 1 ≤ j ∧ j < j + 1 + (k : Int)) := by omega
        have h2 : j ≤ j ∧ j < j + ((k + 1 : Nat) : Int) := by
          constructor
          · omega
          · push_cast; omega
        rw [if_neg h1, if_pos rfl, if_pos h2]
      · rw [if_neg hj]
        by_cases hr : i + 1 ≤ j ∧ j < i + 1 + (k : Int)
        · have h2 : i ≤ j ∧ j < i + ((k + 1 : Nat) : Int) := by
            constructor
            · omega
            · push_cast; omega
          rw [if_pos hr, if_pos h2]
        · have h2 : ¬ (i ≤ j ∧ j < i + ((k + 1 : Nat) : Int)) := by
            intro h
            apply hr
            have := h.2
            push_cast at this
            constructor <;> omega
          rw [if_neg hr, if_neg h2]

/-- The outer loop of ClearBuffers sets `m` rows of consecutive cells. -/
theorem clearRows_spec (clearColor : Vector K) (m : Nat) (i : Int) (s : Scene K) (h0 : 0 ≤ i)
    (hW : 0 ≤ s.width) (hlen : i + m * s.width ≤ s.Buffers.FrameBuffer.length)
    (hD : s.Buffers.DepthBuffer.length = s.Buffers.FrameBuffer.length) :
    ∃ s1 : Scene K, clearRows clearColor m i s = Result.ok s1 ∧ s.SameFrame s1 ∧
      ∀ j : Int, cellAt s1 j =
        if i ≤ j ∧ j < i + m * s.width then some (clearColor, 1) else cellAt s j := by
  induction m generalizing i s with
  | zero =>
    refine ⟨s, by simp [clearRows], SameFrame.refl s, ?_⟩
    intro j
    rw [if_neg]
    intro h
    have := h.1
    have := h.2
    simp at this
    omega
  | succ m ih =>
    have hmW : 0 ≤ (m : Int) * s.width := Int.mul_nonneg (by omega) hW
    have hexp : ((m + 1 : Nat) : Int) * s.width = (m : Int) * s.width + s.width := by
      push_cast; ring
    have hwn : ((s.width.toNat : Nat) : Int) = s.width := by omega
    obtain ⟨s1, hrun1, hsf1, hcell1⟩ := clearRow_spec clearColor s.width.toNat i s h0
      (by rw [hwn]; rw [hexp] at hlen; omega) hD
    obtain ⟨s2, hrun2, hsf2, hcell2⟩ := ih (i + s.width) s1 (by omega)
      (by rw [hsf1.2.2.2.1]; exact hW)
      (by rw [hsf1.2.2.2.1, hsf1.2.2.2.2.2.2.1]; rw [hexp] at hlen; omega)
      (by rw [hsf1.2.2.2.2.2.2.1, hsf1.2.2.2.2.2.2.2]; exact hD)
    refine ⟨s2, ?_, SameFrame.trans hsf1 hsf2, ?_⟩
    · simp only [clearRows, hrun1, hwn]
      exact hrun2
    · intro j
      rw [hcell2 j, hcell1 j, hsf1.2.2.2.1, hwn, hexp]
      by_cases ha : i ≤ j ∧ j < i + s.width
      · have h1 : ¬ (i + s.width ≤ j ∧ j < i + s.width + (m : Int) * s.width) := by omega
        have h2 : i ≤ j ∧ j < i + ((m : Int) * s.width + s.width) := by
          constructor <;> omega
        rw [if_neg h1, if_pos ha, if_pos h2]
      · rw [if_neg ha]
        by_cases hb : i + s.width ≤ j ∧ j < i + s.width + (m : Int) * s.width
        · have h2 : i ≤ j ∧ j < i + ((m : Int) * s.width + s.width) := by
            constructor <;> omega
          rw [if_pos hb, if_pos h2]
        · have h2 : ¬ (i ≤ j ∧ j < i + ((m : Int) * s.width + s.width)) := by
            intro h
            by_cases hc : j < i + s.width
            · exact ha ⟨h.1, hc⟩
            · exact hb ⟨by omega, by omega⟩
          rw [if_neg hb, if_neg h2]

/-- ClearBuffers on a well-formed scene returns, and sets every cell of the viewport to
the clear color and the depth 1. -/
theorem ClearBuffers_spec {s : Scene K} (hwf : s.WellFormed) (clearColor : Vector K) :
    ∃ s1 : Scene K, ClearBuffers s clearColor = Result.ok s1 ∧ s.SameFrame s1 ∧
      ∀ j : Int, cellAt s1 j =
        if 0 ≤ j ∧ j < s.width * s.height then some (clearColor, 1) else cellAt s j := by
  have hh : ((s.height.toNat : Nat) : Int) = s.height := by have := hwf.2.1; omega
  obtain ⟨s1, hrun, hsf, hcell⟩ := clearRows_spec clearColor s.height.toNat 0 s (le_refl 0)
    hwf.1 (by rw [hh, zero_add, Int.mul_comm]; exact hwf.2.2.1) hwf.2.2.2
  refine ⟨s1, hrun, hsf, ?_⟩
  intro j
  rw [hcell j, hh, zero_add, Int.mul_comm]

end

end rasterizer

/-! ## The triangle with screen points (0,0), (10,0), (0,10) -/

namespace rasterizer

open math3d

section
variable {K : Type} [LinearOrderedField K] [FloorRing K]

/-- The fragments of the triangle with screen points (0,0), (10,0), (0,10): the pixel
(x, y) has one exactly when `x + y ≤ 10`, with weights `u = x/10` and `t = y/10`. -/
theorem fragmentAt_right_triangle {W H : Int} (zA zB zC wA wB wC : K) {x y : Int}
    (hx0 : 0 ≤ x) (hxW : x < W) (hy0 : 0 ≤ y) (hyH : y < H) :
    fragmentAt W H (⟨0, 0, zA, wA⟩ : Vector K) ⟨10, 0, zB, wB⟩ ⟨0, 10, zC, wC⟩ (W * y + x)
      = if x + y ≤ 10 then some ((x : K) / 10, (y : K) / 10) else none := by
  obtain ⟨h0, hlt, hdiv, hmod⟩ := (@pixel_index_iff W H x y _ (by omega)).1
    ⟨rfl, hx0, hxW, hy0, hyH⟩
  have hminX : Int.ceil (min (min (0 : K) 10) 0) = 0 := by
    rw [min_eq_left (by norm_num : (0 : K) ≤ 10), min_self, Int.ceil_zero]
  have hmaxX : Int.ceil (max (max (0 : K) 10) 0) = 10 := by
    rw [max_eq_right (by norm_num : (0 : K) ≤ 10), max_eq_left (by norm_num : (0 : K) ≤ 10)]
    exact_mod_cast Int.ceil_natCast (10 : ℕ)
  have hminY : Int.ceil (min (min (0 : K) 0) 10) = 0 := by
    rw [min_self, min_eq_left (by norm_num : (0 : K) ≤ 10), Int.ceil_zero]
  have hmaxY : Int.ceil (max (max (0 : K) 0) 10) = 10 := by
    rw [max_self, max_eq_right (by norm_num : (0 : K) ≤ 10)]
    exact_mod_cast Int.ceil_natCast (10 : ℕ)
  unfold fragmentAt
  simp only [hdiv, hmod, hminX, hmaxX, hminY, hmaxY]
  by_cases hbox : x ≤ 10 ∧ y ≤ 10
  · rw [if_pos ⟨h0, hlt, hx0, hbox.1, hy0, hbox.2⟩]
    have hw := weightsAt_eq (⟨0, 0, zA, wA⟩ : Vector K) ⟨10, 0, zB, wB⟩ ⟨0, 10, zC, wC⟩
      (by norm_num) (by norm_num) (x - 0).toNat (y - 0).toNat
    simp only [hminX, hminY] at hw
    have ex : (0 : Int) + (((x - 0).toNat : Nat) : Int) = x := by omega
    have ey : (0 : Int) + (((y - 0).toNat : Nat) : Int) = y := by omega
    rw [ex, ey, sf_fin _ _ _ _ _ (by norm_num), tf_fin _ _ _ _ _ (by norm_num)] at hw
    rw [hw]
    have eu : ((0 - 10) * (x : K) + (0 - 0) * (y : K) + 0 * 10 - 0 * 0)
        / ((0 - 10) * 10 + (0 - 0) * 0 + 0 * 10 - 0 * 0) = (x : K) / 10 := by
      field_simp; ring
    have et : ((0 - 0) * (x : K) + (10 - 0) * (y : K) + 0 * 0 - 10 * 0)
        / ((0 - 0) * 0 + (10 - 0) * 10 + 0 * 0 - 10 * 0) = (y : K) / 10 := by
      field_simp; ring
    simp only [eu, et, Flt.val]
    have hxK : (0 : K) ≤ (x : K) / 10 := div_nonneg (by exact_mod_cast hx0) (by norm_num)
    have hyK : (0 : K) ≤ (y : K) / 10 := div_nonneg (by exact_mod_cast hy0) (by norm_num)
    by_cases hsum : x + y ≤ 10
    · have hin : insideTriangle (Flt.fin ((x : K) / 10)) (Flt.fin ((y : K) / 10)) = true := by
        rw [insideTriangle_iff]
        refine ⟨_, _, rfl, rfl, hxK, hyK, ?_⟩
        have : ((x + y : Int) : K) ≤ 10 := by exact_mod_cast hsum
        push_cast at this
        rw [← add_div, div_le_one (by norm_num)]
        linarith
      rw [if_pos hin, if_pos hsum]
    · have hin : ¬ insideTriangle (Flt.fin ((x : K) / 10)) (Flt.fin ((y : K) / 10)) = true := by
        rw [insideTriangle_iff]
        rintro ⟨uq, tq, hu, ht, _, _, hle⟩
        simp only [Flt.fin.injEq] at hu ht
        rw [← hu, ← ht, ← add_div, div_le_one (by norm_num)] at hle
        have : ((y + x : Int) : K) ≤ ((10 : Int) : K) := by push_cast; exact hle
        have := Int.cast_le.1 this
        omega
      rw [if_neg hin, if_neg hsum]
  · have hsum : ¬ x + y ≤ 10 := by omega
    rw [if_neg (fun h => hbox ⟨h.2.2.2.1, h.2.2.2.2.2⟩), if_neg hsum]

end

end rasterizer

namespace rasterizer

open math3d

section
variable {K : Type} [LinearOrderedField K] [FloorRing K]

/-- C8 (amended): over exact arithmetic, with the rounding of `float64` set aside.  A
scene at least 11 pixels wide and high is cleared with ClearBuffers and the
triangle whose vertices map to the screen points (0,0), (10,0), (0,10) with depths
`zA`, `zB`, `zC` in [0, 1] is drawn in white without a callback.  Both calls return.
Afterwards a pixel (x, y) of the viewport with `x + y ≤ 10` holds white (1,1,1,1) and
the depth `(1 - x/10 - y/10)*zA + (x/10)*zB + (y/10)*zC`; every other pixel of the
viewport holds the clear color and the depth 1, and the cells beyond the viewport are
as they were. -/
theorem RasterizeTriangle_right_triangle (s0 : Scene K) (hwf : s0.WellFormed)
    (hW : 11 ≤ s0.width) (hH : 11 ≤ s0.height) (clearColor a b c : Vector K)
    (zA zB zC wA wB wC : K)
    (hA : VectorToScreencoords s0 a = ⟨0, 0, zA, wA⟩)
    (hB : VectorToScreencoords s0 b = ⟨10, 0, zB, wB⟩)
    (hC : VectorToScreencoords s0 c = ⟨0, 10, zC, wC⟩)
    (hzA : 0 ≤ zA ∧ zA ≤ 1) (hzB : 0 ≤ zB ∧ zB ≤ 1) (hzC : 0 ≤ zC ∧ zC ≤ 1) :
    ∃ s s1 : Scene K, ClearBuffers s0 clearColor = Result.ok s ∧
      RasterizeTriangleNil s a b c ⟨1, 1, 1, 1⟩ ⟨1, 1, 1, 1⟩ ⟨1, 1, 1, 1⟩ = Result.ok s1 ∧
      (∀ x y : Int, 0 ≤ x → 0 ≤ y → x + y ≤ 10 →
        cellAt s1 (s0.width * y + x) =
          some (⟨1, 1, 1, 1⟩,
            (1 - (x : K) / 10 - (y : K) / 10) * zA + (x : K) / 10 * zB + (y : K) / 10 * zC)) ∧
      (∀ x y : Int, 0 ≤ x → x < s0.width → 0 ≤ y → y < s0.height → ¬ x + y ≤ 10 →
        cellAt s1 (s0.width * y + x) = some (clearColor, 1)) ∧
      (∀ j : Int, ¬ (0 ≤ j ∧ j < s0.width * s0.height) → cellAt s1 j = cellAt s0 j) := by
  obtain ⟨s, hclear, hsf, hcell⟩ := ClearBuffers_spec hwf clearColor
  have hwfs := SameFrame.wellFormed hsf hwf
  obtain ⟨s1, hrun, hsf1, hcell1⟩ := RasterizeTriangleNil_spec hwfs a b c
    (⟨1, 1, 1, 1⟩ : Vector K) ⟨1, 1, 1, 1⟩ ⟨1, 1, 1, 1⟩
  rw [SameFrame.screencoords hsf, SameFrame.screencoords hsf, SameFrame.screencoords hsf,
    hA, hB, hC, hsf.2.2.2.1, hsf.2.2.2.2.1] at hcell1
  refine ⟨s, s1, hclear, hrun, ?_, ?_, ?_⟩
  · intro x y hx0 hy0 hsum
    have hxW : x < s0.width := by omega
    have hyH : y < s0.height := by omega
    obtain ⟨h0, hlt⟩ := index_bounds hx0 hxW hy0 hyH
    rw [hcell1, hcell, if_pos ⟨h0, hlt⟩]
    simp only [Option.map_some', shadeAt,
      fragmentAt_right_triangle zA zB zC wA wB wC hx0 hxW hy0 hyH]
    rw [if_pos hsum]
    have hxK : (0 : K) ≤ (x : K) / 10 := div_nonneg (by exact_mod_cast hx0) (by norm_num)
    have hyK : (0 : K) ≤ (y : K) / 10 := div_nonneg (by exact_mod_cast hy0) (by norm_num)
    have hle : (x : K) / 10 + (y : K) / 10 ≤ 1 := by
      have : ((x + y : Int) : K) ≤ 10 := by exact_mod_cast hsum
      push_cast at this
      rw [← add_div, div_le_one (by norm_num)]
      exact this
    have hw : (0 : K) ≤ 1 - (x : K) / 10 - (y : K) / 10 := by linarith
    have hd0 : 0 ≤ fragDepth (⟨0, 0, zA, wA⟩ : Vector K) ⟨10, 0, zB, wB⟩ ⟨0, 10, zC, wC⟩
        ((x : K) / 10) ((y : K) / 10) := by
      unfold fragDepth
      have := mul_nonneg hzA.1 hw
      have := mul_nonneg hzB.1 hxK
      have := mul_nonneg hzC.1 hyK
      simp only
      linarith
    have hd1 : fragDepth (⟨0, 0, zA, wA⟩ : Vector K) ⟨10, 0, zB, wB⟩ ⟨0, 10, zC, wC⟩
        ((x : K) / 10) ((y : K) / 10) ≤ 1 := by
      unfold fragDepth
      have := mul_le_mul_of_nonneg_right hzA.2 hw
      have := mul_le_mul_of_nonneg_right hzB.2 hxK
      have := mul_le_mul_of_nonneg_right hzC.2 hyK
      simp only
      linarith
    simp only [shade]
    rw [if_pos ⟨hd0, hd1⟩]
    congr 1
    refine Prod.ext ?_ ?_
    · simp only [fragColor, lerpTriColor, math3d.Add, math3d.Mul, one_mul, Vector.mk.injEq,
        and_true]
      refine ⟨?_, ?_, ?_⟩ <;> ring
    · simp only [fragDepth]
      ring
  · intro x y hx0 hxW hy0 hyH hsum
    obtain ⟨h0, hlt⟩ := index_bounds hx0 hxW hy0 hyH
    rw [hcell1, hcell, if_pos ⟨h0, hlt⟩]
    simp only [Option.map_some', shadeAt,
      fragmentAt_right_triangle zA zB zC wA wB wC hx0 hxW hy0 hyH]
    rw [if_neg hsum]
  · intro j hj
    rw [hcell1, hcell, if_neg hj]
    have hnone : fragmentAt s0.width s0.height (⟨0, 0, zA, wA⟩ : Vector K) ⟨10, 0, zB, wB⟩
        ⟨0, 10, zC, wC⟩ j = none := by
      cases hf : fragmentAt s0.width s0.height (⟨0, 0, zA, wA⟩ : Vector K) ⟨10, 0, zB, wB⟩
        ⟨0, 10, zC, wC⟩ j with
      | none => rfl
      | some ut =>
        obtain ⟨_, _, _, h0, hlt, _⟩ := fragmentAt_some (u := ut.1) (t := ut.2) hf
        exact absurd ⟨h0, hlt⟩ hj
    cases cellAt s0 j with
    | none => rfl
    | some cell => simp [shadeAt, hnone]

end

end rasterizer

/-! ## RasterizeLine -/

namespace rasterizer

open math3d

section
variable {K : Type} [LinearOrderedField K]
variable (a b colorA colorB : Vector K)

/-- A depth that passes the range test of RasterizeLine is a finite number in [0, 1]. -/
theorem range_test_iff (d : Flt K) :
    (Flt.ge d (Flt.fin 0) && Flt.le d (Flt.fin 1)) = true ↔
      ∃ q : K, d = Flt.fin q ∧ 0 ≤ q ∧ q ≤ 1 := by
  cases d <;> simp [Flt.ge, Flt.le]

theorem lineWrites_iff (s : Scene K) (x0 y0 : Int) :
    lineWrites s a b x0 y0 = true ↔
      inViewport s x0 y0 = true ∧ ∃ q : K, lineDepth a b x0 y0 = Flt.fin q ∧ 0 ≤ q ∧ q ≤ 1 := by
  rw [← range_test_iff, inViewport_iff]
  unfold lineWrites
  simp only [Bool.and_eq_true, decide_eq_true_eq, ge_iff_le]
  tauto

/-- The loop body of RasterizeLine never faults on a well-formed scene. -/
theorem linePixel_eq {s : Scene K} (hwf : s.WellFormed) (x0 y0 : Int) :
    linePixel a b colorA colorB x0 y0 s
      = Result.ok (linePixelScene a b colorA colorB x0 y0 s) := by
  unfold linePixel linePixelScene
  by_cases hw : lineWrites s a b x0 y0 = true
  · obtain ⟨hv, _⟩ := (lineWrites_iff a b s x0 y0).1 hw
    obtain ⟨col, d, _, _, _, h0, hF, hD⟩ := WellFormed.inViewport_cell hwf hv
    have hw1 := hw
    unfold lineWrites lineDepth lineParam at hw1
    simp only [hw1, if_true, hw, setAt_eq_some _ _ _ h0 hF, setAt_eq_some _ _ _ h0 hD]
    rfl
  · have hw1 := hw
    unfold lineWrites lineDepth lineParam at hw1
    simp only [hw1, hw]
    rfl

theorem linePixelScene_sameFrame (s : Scene K) (x0 y0 : Int) :
    s.SameFrame (linePixelScene a b colorA colorB x0 y0 s) := by
  unfold linePixelScene
  split
  · exact writeCell_sameFrame _ _ _
  · exact SameFrame.refl s

/-- The effect of the loop body of RasterizeLine on the cell of any buffer index. -/
theorem cellAt_linePixelScene {s : Scene K} (hwf : s.WellFormed) (x0 y0 : Int) (j : Int) :
    cellAt (linePixelScene a b colorA colorB x0 y0 s) j =
      if j = s.width * y0 + x0 ∧ lineWrites s a b x0 y0 = true then
        some (lineCell a b colorA colorB x0 y0)
      else cellAt s j := by
  unfold linePixelScene
  by_cases hw : lineWrites s a b x0 y0 = true
  · obtain ⟨hv, _⟩ := (lineWrites_iff a b s x0 y0).1 hw
    obtain ⟨col, d, _, _, _, h0, hF, hD⟩ := WellFormed.inViewport_cell hwf hv
    simp only [hw, if_true, and_true]
    exact cellAt_writeCell s _ j _ h0 hF hwf.2.2.2
  · simp [hw]

/-- The loop of RasterizeLine with an invariant: when the loop body keeps `P` at every
pixel, the loop, started after `i` steps in x and `j` steps in y, returns as soon as
the fuel exceeds the number of steps that remain, and `P` holds at the end.  `dx` and
`ady` are the absolute differences of the end points. -/
theorem lineLoop_core (P : Scene K → Prop)
    (hstep : ∀ (s : Scene K) (x y : Int), P s →
      ∃ s1, linePixel a b colorA colorB x y s = Result.ok s1 ∧ P s1)
    (x0 y0 x1 y1 dx ady sx sy : Int) (hdx : 0 ≤ dx) (hady : 0 ≤ ady)
    (hxend : ∀ i, 0 ≤ i → i ≤ dx → (x0 + sx * i = x1 ↔ i = dx))
    (hyend : ∀ j, 0 ≤ j → j ≤ ady → (y0 + sy * j = y1 ↔ j = ady)) (fuel : Nat) :
    ∀ (i j : Int) (s : Scene K), P s → 0 ≤ i → i ≤ dx → 0 ≤ j → j ≤ ady →
      (dx - i) + (ady - j) < fuel →
      ∃ s1, lineLoop a b colorA colorB x1 y1 dx (-ady) sx sy fuel
          (x0 + sx * i) (y0 + sy * j) (dx + -ady + i * (-ady) + j * dx) s = Result.ok s1 ∧
        P s1 := by
  induction fuel with
  | zero =>
    intro i j s _ _ hi _ hj hm
    exfalso
    have : (0 : Int) ≤ dx - i + (ady - j) := by omega
    simp at hm
    omega
  | succ k ih =>
    intro i j s hP hi0 hi hj0 hj hm
    obtain ⟨s1, hpix, hP1⟩ := hstep s (x0 + sx * i) (y0 + sy * j) hP
    simp only [lineLoop, hpix]
    by_cases hdone : x0 + sx * i = x1 ∧ y0 + sy * j = y1
    · rw [if_pos hdone]
      exact ⟨s1, rfl, hP1⟩
    · rw [if_neg hdone]
      have hnd : ¬ (i = dx ∧ j = ady) := fun h =>
        hdone ⟨(hxend i hi0 hi).2 h.1, (hyend j hj0 hj).2 h.2⟩
      -- no step in x once x has arrived
      have hA : i = dx → 2 * (dx + -ady + i * (-ady) + j * dx) < -ady := by
        intro h
        subst h
        have hj1 : j < ady := by
          rcases lt_or_eq_of_le hj with h | h
          · exact h
          · exact absurd ⟨rfl, h⟩ hnd
        have : i * (j + 1 - ady) ≤ 0 := mul_nonpos_of_nonneg_of_nonpos hi0 (by omega)
        nlinarith
      -- no step in y once y has arrived
      have hB : j = ady → dx < 2 * (dx + -ady + i * (-ady) + j * dx) := by
        intro h
        subst h
        have hi1 : i < dx := by
          rcases lt_or_eq_of_le hi with h | h
          · exact h
          · exact absurd ⟨h, rfl⟩ hnd
        have : 0 ≤ j * (dx - 1 - i) := mul_nonneg hj0 (by omega)
        nlinarith
      by_cases hx : 2 * (dx + -ady + i * (-ady) + j * dx) ≥ -ady
      · have hi1 : i + 1 ≤ dx := by
          by_contra hc
          have := hA (by omega)
          omega
        by_cases hy : 2 * (dx + -ady + i * (-ady) + j * dx) ≤ dx
        · have hj1 : j + 1 ≤ ady := by
            by_contra hc
            have := hB (by omega)
            omega
          obtain ⟨s2, hrun, hP2⟩ := ih (i + 1) (j + 1) s1 hP1 (by omega) hi1 (by omega) hj1
            (by push_cast at hm; omega)
          refine ⟨s2, ?_, hP2⟩
          rw [if_pos hx, if_pos hx, if_pos hy, if_pos hy, ← hrun]
          congr 1 <;> ring
        · obtain ⟨s2, hrun, hP2⟩ := ih (i + 1) j s1 hP1 (by omega) hi1 hj0 hj
            (by push_cast at hm; omega)
          refine ⟨s2, ?_, hP2⟩
          rw [if_pos hx, if_pos hx, if_neg hy, if_neg hy, ← hrun]
          congr 1 <;> ring
      · have hy : 2 * (dx + -ady + i * (-ady) + j * dx) ≤ dx := by omega
        have hj1 : j + 1 ≤ ady := by
          by_contra hc
          have := hB (by omega)
          omega
        obtain ⟨s2, hrun, hP2⟩ := ih i (j + 1) s1 hP1 hi0 hi (by omega) hj1
          (by push_cast at hm; omega)
        refine ⟨s2, ?_, hP2⟩
        rw [if_neg hx, if_neg hx, if_pos hy, if_pos hy, ← hrun]
        congr 1 <;> ring

end

end rasterizer

namespace rasterizer

open math3d

theorem step_reaches (x0 x1 i : Int) :
    x0 + (if x0 ≥ x1 then -1 else 1) * i = x1 ↔ i = |x1 - x0| := by
  by_cases h : x0 ≥ x1
  · rw [if_pos h, abs_of_nonpos (by omega)]
    constructor <;> intro <;> omega
  · rw [if_neg h, abs_of_nonneg (by omega)]
    constructor <;> intro <;> omega

section
variable {K : Type} [LinearOrderedField K] [FloorRing K]

/-- RasterizeLine after the screen transform, with an invariant: when the loop body
keeps `P` at every pixel, the scan returns as soon as the fuel exceeds
`|x1 - x0| + |y1 - y0|`, and `P` holds at the end. -/
theorem scanLine_invariant (a b colorA colorB : Vector K) (P : Scene K → Prop)
    (hstep : ∀ (s : Scene K) (x y : Int), P s →
      ∃ s1, linePixel a b colorA colorB x y s = Result.ok s1 ∧ P s1)
    (fuel : Nat) (s : Scene K) (hP : P s)
    (hfuel : |toInt b.X - toInt a.X| + |toInt b.Y - toInt a.Y| < fuel) :
    ∃ s1, scanLine fuel a b colorA colorB s = Result.ok s1 ∧ P s1 := by
  obtain ⟨s1, hrun, hP1⟩ := lineLoop_core a b colorA colorB P hstep (toInt a.X) (toInt a.Y)
    (toInt b.X) (toInt b.Y) |toInt b.X - toInt a.X| |toInt b.Y - toInt a.Y|
    (if toInt a.X ≥ toInt b.X then -1 else 1) (if toInt a.Y ≥ toInt b.Y then -1 else 1)
    (abs_nonneg _) (abs_nonneg _) (fun i _ _ => step_reaches _ _ i)
    (fun j _ _ => step_reaches _ _ j) fuel 0 0 s hP
    (le_refl 0) (abs_nonneg _) (le_refl 0) (abs_nonneg _) (by simpa using hfuel)
  refine ⟨s1, ?_, hP1⟩
  unfold scanLine
  simp only
  rw [← hrun]
  congr 1 <;> ring

/-- The guard of the line loop: RasterizeLine on a well-formed scene returns as soon as
the fuel exceeds `|x1 - x0| + |y1 - y0|`.  It writes a pixel only if the pixel is in the
viewport and the interpolated candidate depth lies in [0, 1]; it does not compare the
candidate with the stored depth.  So every cell is either unchanged or holds the
candidate depth of a pixel of the viewport, a number in [0, 1].  `A`, `B` are the
screen-space endpoints. -/
theorem RasterizeLine_range_test {s : Scene K} (hwf : s.WellFormed)
    (a b colorA colorB : Vector K) (A B : Vector K)
    (hA : VectorToScreencoords s a = A) (hB : VectorToScreencoords s b = B) (fuel : Nat)
    (hfuel : |toInt B.X - toInt A.X| + |toInt B.Y - toInt A.Y| < fuel) :
    ∃ s1 : Scene K, RasterizeLine fuel s a b colorA colorB = Result.ok s1 ∧ s.SameFrame s1 ∧
      ∀ j : Int, cellAt s1 j = cellAt s j ∨
        ∃ (x y : Int) (col : Vector K) (d : K), cellAt s1 j = some (col, d) ∧
          0 ≤ x ∧ x < s.width ∧ 0 ≤ y ∧ y < s.height ∧ j = s.width * y + x ∧
          lineDepth A B x y = Flt.fin d ∧ 0 ≤ d ∧ d ≤ 1 := by
  subst hA hB
  obtain ⟨s1, hrun, _, hsf, hcells⟩ := scanLine_invariant (VectorToScreencoords s a)
    (VectorToScreencoords s b) colorA colorB
    (fun s1 => s1.WellFormed ∧ s.SameFrame s1 ∧
      ∀ j : Int, cellAt s1 j = cellAt s j ∨
        ∃ (x y : Int) (col : Vector K) (d : K), cellAt s1 j = some (col, d) ∧
          0 ≤ x ∧ x < s.width ∧ 0 ≤ y ∧ y < s.height ∧ j = s.width * y + x ∧
          lineDepth (VectorToScreencoords s a) (VectorToScreencoords s b) x y = Flt.fin d ∧
          0 ≤ d ∧ d ≤ 1)
    (by
      rintro s1 x y ⟨hwf1, hsf1, hc1⟩
      have hsf2 := linePixelScene_sameFrame (VectorToScreencoords s a)
        (VectorToScreencoords s b) colorA colorB s1 x y
      refine ⟨_, linePixel_eq _ _ _ _ hwf1 x y, SameFrame.wellFormed hsf2 hwf1,
        SameFrame.trans hsf1 hsf2, ?_⟩
      intro j
      rw [cellAt_linePixelScene _ _ _ _ hwf1]
      by_cases hw : j = s1.width * y + x ∧
          lineWrites s1 (VectorToScreencoords s a) (VectorToScreencoords s b) x y = true
      · rw [if_pos hw]
        obtain ⟨hv, q, hq, hq0, hq1⟩ := (lineWrites_iff _ _ _ _ _).1 hw.2
        obtain ⟨hx0, hxW, hy0, hyH⟩ := (inViewport_iff _ _ _).1 hv
        rw [hsf1.2.2.2.1] at hxW
        rw [hsf1.2.2.2.2.1] at hyH
        refine Or.inr ⟨x, y, (lineCell (VectorToScreencoords s a) (VectorToScreencoords s b)
          colorA colorB x y).1, q, ?_, hx0, hxW, hy0, hyH, ?_, hq, hq0, hq1⟩
        · congr 1
          exact Prod.ext rfl (by simp [lineCell, hq, Flt.val])
        · rw [hw.1, hsf1.2.2.2.1]
      · rw [if_neg hw]
        exact hc1 j)
    fuel s ⟨hwf, SameFrame.refl s, fun j => Or.inl rfl⟩ hfuel
  exact ⟨s1, hrun, hsf, hcells⟩

end

/-- C3: RasterizeLine does not perform the depth test of the triangle rasterizer; its
guard `depth >= 0 && depth <= 1.0` does not compare the candidate depth with the stored
depth.  On a scene of two pixels whose stored depths are 1/4, a line of depth 1/2
overwrites both pixels, so both depth-buffer entries are larger after the call, while
RasterizeTriangle with a triangle of depth 1/2 over the same two pixels leaves the
scene as it is. -/
theorem RasterizeLine_overwrites_closer_depth :
    RasterizeLine 2 (demo.scene 2 1 [demo.black, demo.black] [1/4, 1/4])
        (demo.pt 0 0 (1/2)) (demo.pt 1 0 (1/2)) demo.red demo.red
      = Result.ok (demo.scene 2 1 [demo.red, demo.red] [1/2, 1/2]) ∧ (1/4 : ℚ) < 1/2 ∧
    RasterizeTriangleNil (demo.scene 2 1 [demo.black, demo.black] [1/4, 1/4])
        (demo.pt 0 0 (1/2)) (demo.pt 2 0 (1/2)) (demo.pt 0 2 (1/2)) demo.red demo.red demo.red
      = Result.ok (demo.scene 2 1 [demo.black, demo.black] [1/4, 1/4]) := by
  decide!

/-- A concrete instance of the guard of the line loop: a line of depth 1/2 over two
pixels. -/
theorem RasterizeLine_range_test_witness :
    (demo.scene 2 1 [demo.black, demo.black] [1/4, 1/4]).WellFormed ∧
    ∃ s1 : Scene ℚ, RasterizeLine 2 (demo.scene 2 1 [demo.black, demo.black] [1/4, 1/4])
        (demo.pt 0 0 (1/2)) (demo.pt 1 0 (1/2)) demo.red demo.red = Result.ok s1 :=
  ⟨by decide,
    (RasterizeLine_range_test (s := demo.scene 2 1 [demo.black, demo.black] [1/4, 1/4])
      (by decide) (demo.pt 0 0 (1/2)) (demo.pt 1 0 (1/2)) demo.red demo.red _ _ rfl rfl 2
      (by decide!)).imp (fun _ h => h.1)⟩

end rasterizer

/-! ## A line along a pixel row -/

namespace rasterizer

open math3d

section
variable {K : Type} [LinearOrderedField K]
variable (a b colorA colorB : Vector K)

theorem lineWrites_congr {s s1 : Scene K} (hsf : s.SameFrame s1) (x y : Int) :
    lineWrites s1 a b x y = lineWrites s a b x y := by
  unfold lineWrites
  rw [hsf.2.2.2.1, hsf.2.2.2.2.1]

/-- The loop of RasterizeLine along a row: `n` steps before the end point, with every
pixel on the way passing the test of the loop body, it writes exactly these `n + 1`
pixels. -/
theorem lineLoop_horizontal (x1 y dx sx : Int) (hdx : 0 < dx) (hsx : sx = 1 ∨ sx = -1)
    (n : Nat) :
    ∀ (fuel : Nat) (x : Int) (s : Scene K), s.WellFormed → x + sx * n = x1 → n < fuel →
      (∀ k : Nat, k ≤ n → lineWrites s a b (x + sx * k) y = true) →
      ∃ s1 : Scene K,
        lineLoop a b colorA colorB x1 y dx 0 sx (-1) fuel x y dx s = Result.ok s1 ∧
        s.SameFrame s1 ∧
        (∀ k : Nat, k ≤ n → cellAt s1 (s.width * y + (x + sx * k))
          = some (lineCell a b colorA colorB (x + sx * k) y)) ∧
        (∀ j : Int, (∀ k : Nat, k ≤ n → j ≠ s.width * y + (x + sx * k)) →
          cellAt s1 j = cellAt s j) := by
  induction n with
  | zero =>
    intro fuel x s hwf hx hfuel hw
    obtain ⟨f, rfl⟩ : ∃ f, fuel = f + 1 := ⟨fuel - 1, by omega⟩
    have hx1 : x = x1 := by simpa using hx
    have hw0 : lineWrites s a b x y = true := by simpa using hw 0 (le_refl 0)
    refine ⟨linePixelScene a b colorA colorB x y s, ?_,
      linePixelScene_sameFrame a b colorA colorB s x y, ?_, ?_⟩
    · simp only [lineLoop, linePixel_eq a b colorA colorB hwf, hx1, and_self, if_true]
    · intro k hk
      have hk0 : k = 0 := by omega
      subst hk0
      simp only [Nat.cast_zero, mul_zero, add_zero]
      rw [cellAt_linePixelScene a b colorA colorB hwf, if_pos ⟨rfl, hw0⟩]
    · intro j hj
      have := hj 0 (le_refl 0)
      simp only [Nat.cast_zero, mul_zero, add_zero] at this
      rw [cellAt_linePixelScene a b colorA colorB hwf, if_neg (fun h => this h.1)]
  | succ n ih =>
    intro fuel x s hwf hx hfuel hw
    obtain ⟨f, rfl⟩ : ∃ f, fuel = f + 1 := ⟨fuel - 1, by omega⟩
    have hsf := linePixelScene_sameFrame a b colorA colorB s x y
    have hwf1 := SameFrame.wellFormed hsf hwf
    have hw0 : lineWrites s a b x y = true := by simpa using hw 0 (Nat.zero_le _)
    have hne : ¬ (x = x1 ∧ y = y) := by
      rintro ⟨h, _⟩
      push_cast at hx
      rcases hsx with h1 | h1 <;> subst h1 <;> omega
    have hshift : ∀ k : Nat, x + sx + sx * (k : Int) = x + sx * ((k + 1 : Nat) : Int) := by
      intro k; push_cast; ring
    obtain ⟨s1, hrun, hsf1, hin, hout⟩ := ih f (x + sx)
      (linePixelScene a b colorA colorB x y s) hwf1
      (by rw [← hx]; push_cast; ring) (by omega)
      (by
        intro k hk
        rw [lineWrites_congr a b hsf, hshift]
        exact hw (k + 1) (by omega))
    refine ⟨s1, ?_, SameFrame.trans hsf hsf1, ?_, ?_⟩
    · have hxne : ¬ x = x1 := fun h => hne ⟨h, rfl⟩
      have h1 : 2 * dx ≥ 0 := by omega
      have h2 : ¬ 2 * dx ≤ dx := by omega
      simp only [lineLoop, linePixel_eq a b colorA colorB hwf, hxne, false_and, if_false, h1, h2,
        if_true, add_zero]
      exact hrun
    · intro k hk
      rcases Nat.eq_zero_or_pos k with hk0 | hkpos
      · subst hk0
        simp only [Nat.cast_zero, mul_zero, add_zero]
        rw [hout, cellAt_linePixelScene a b colorA colorB hwf, if_pos ⟨rfl, hw0⟩]
        intro k1 _
        rw [hsf.2.2.2.1]
        rcases hsx with h1 | h1 <;> subst h1 <;> omega
      · obtain ⟨k1, rfl⟩ : ∃ k1, k = k1 + 1 := ⟨k - 1, by omega⟩
        have := hin k1 (by omega)
        rw [hsf.2.2.2.1, hshift] at this
        exact this
    · intro j hj
      rw [hout, cellAt_linePixelScene a b colorA colorB hwf, if_neg]
      · intro h
        have := hj 0 (Nat.zero_le _)
        simp only [Nat.cast_zero, mul_zero, add_zero] at this
        exact this h.1
      · intro k1 hk1
        rw [hsf.2.2.2.1, hshift]
        exact hj (k1 + 1) (by omega)

end

end rasterizer

namespace rasterizer

open math3d

section
variable {K : Type} [LinearOrderedField K] [FloorRing K]

theorem toInt_intCast (n : Int) : toInt ((n : Int) : K) = n := by
  unfold toInt
  split
  · exact Int.floor_intCast n
  · exact Int.ceil_intCast n

omit [FloorRing K] in
/-- The interpolation parameter of a line along a pixel row with integer end points. -/
theorem lineParam_row (x0 x1 y : Int) (zA zB wA wB : K) (hne : x0 ≠ x1) (x : Int) :
    lineParam (⟨(x0 : K), (y : K), zA, wA⟩ : Vector K) ⟨(x1 : K), (y : K), zB, wB⟩ x y
      = Flt.fin (((x : K) - x0) / ((x1 : K) - x0)) := by
  have hden : (x1 : K) - x0 ≠ 0 := by
    intro h
    apply hne
    have : (x1 : K) = x0 := by linarith
    exact (Int.cast_injective this).symm
  unfold lineParam
  simp only [hden, if_false]
  exact div_of_ne_zero _ hden

omit [FloorRing K] in
theorem param_unit (x0 x1 x : Int) (hne : x0 ≠ x1) (hlo : min x0 x1 ≤ x) (hhi : x ≤ max x0 x1) :
    (0 : K) ≤ ((x : K) - x0) / ((x1 : K) - x0) ∧ ((x : K) - x0) / ((x1 : K) - x0) ≤ 1 := by
  rcases lt_or_gt_of_ne hne with h | h
  · rw [min_eq_left h.le] at hlo
    rw [max_eq_right h.le] at hhi
    have hd : (0 : K) < (x1 : K) - x0 := by
      have : (x0 : K) < x1 := by exact_mod_cast h
      linarith
    have h1 : (x0 : K) ≤ x := by exact_mod_cast hlo
    have h2 : (x : K) ≤ x1 := by exact_mod_cast hhi
    exact ⟨div_nonneg (by linarith) hd.le, (div_le_one hd).2 (by linarith)⟩
  · rw [min_eq_right h.le] at hlo
    rw [max_eq_left h.le] at hhi
    have hd : (0 : K) < (x0 : K) - x1 := by
      have : (x1 : K) < x0 := by exact_mod_cast h
      linarith
    have h1 : (x1 : K) ≤ x := by exact_mod_cast hlo
    have h2 : (x : K) ≤ x0 := by exact_mod_cast hhi
    have e : ((x : K) - x0) / ((x1 : K) - x0) = ((x0 : K) - x) / ((x0 : K) - x1) := by
      rw [← neg_div_neg_eq]; congr 1 <;> ring
    rw [e]
    exact ⟨div_nonneg (by linarith) hd.le, (div_le_one hd).2 (by linarith)⟩

/-- C9: a line whose endpoints map to the integer screen points (x0, y) and (x1, y) of
one pixel row, `x0 ≠ x1`, both inside the viewport, with endpoint depths in [0, 1], on
a well-formed scene.  RasterizeLine returns as soon as the fuel exceeds `|x1 - x0|`.
Every pixel (x, y) with x between x0 and x1 inclusive (these are `|x1 - x0| + 1`
pixels) is written, with the color and the depth interpolated at
`t = (x - x0)/(x1 - x0)`; every other cell, in particular every pixel of another row,
is unchanged. -/
theorem RasterizeLine_horizontal {s : Scene K} (hwf : s.WellFormed)
    (a b colorA colorB : Vector K) (x0 x1 y : Int) (zA zB wA wB : K)
    (hA : VectorToScreencoords s a = ⟨(x0 : K), (y : K), zA, wA⟩)
    (hB : VectorToScreencoords s b = ⟨(x1 : K), (y : K), zB, wB⟩)
    (hne : x0 ≠ x1) (hzA : 0 ≤ zA ∧ zA ≤ 1) (hzB : 0 ≤ zB ∧ zB ≤ 1)
    (hx0 : 0 ≤ x0 ∧ x0 < s.width) (hx1 : 0 ≤ x1 ∧ x1 < s.width) (hy : 0 ≤ y ∧ y < s.height)
    (fuel : Nat) (hfuel : |x1 - x0| < fuel) :
    ∃ s1 : Scene K, RasterizeLine fuel s a b colorA colorB = Result.ok s1 ∧ s.SameFrame s1 ∧
      (∀ x : Int, min x0 x1 ≤ x → x ≤ max x0 x1 →
        cellAt s1 (s.width * y + x) =
          some (lerpTriColor colorA colorB Vector.zero
              (1 - ((x : K) - x0) / ((x1 : K) - x0)) (((x : K) - x0) / ((x1 : K) - x0)) 0,
            zA * (1 - ((x : K) - x0) / ((x1 : K) - x0))
              + zB * (((x : K) - x0) / ((x1 : K) - x0)))) ∧
      (∀ j : Int, (∀ x : Int, min x0 x1 ≤ x → x ≤ max x0 x1 → j ≠ s.width * y + x) →
        cellAt s1 j = cellAt s j) := by
  have hdx : 0 < |x1 - x0| := abs_pos.2 (by omega)
  have hsx : (if x0 ≥ x1 then (-1 : Int) else 1) = 1 ∨ (if x0 ≥ x1 then (-1 : Int) else 1) = -1 := by
    split
    · exact Or.inr rfl
    · exact Or.inl rfl
  have hnat : ((|x1 - x0|.toNat : Nat) : Int) = |x1 - x0| := by omega
  -- the pixels on the way are the pixels between the end points
  have hbetween : ∀ k : Nat, k ≤ |x1 - x0|.toNat →
      min x0 x1 ≤ x0 + (if x0 ≥ x1 then (-1 : Int) else 1) * k ∧
      x0 + (if x0 ≥ x1 then (-1 : Int) else 1) * k ≤ max x0 x1 := by
    intro k hk
    have hk' : (k : Int) ≤ |x1 - x0| := by omega
    rcases lt_or_gt_of_ne hne with h | h
    · rw [if_neg (by omega), min_eq_left h.le, max_eq_right h.le]
      rw [abs_of_nonneg (by omega)] at hk'
      constructor <;> omega
    · rw [if_pos (by omega), min_eq_right h.le, max_eq_left h.le]
      rw [abs_of_nonpos (by omega)] at hk'
      constructor <;> omega
  have hcover : ∀ x : Int, min x0 x1 ≤ x → x ≤ max x0 x1 →
      ∃ k : Nat, k ≤ |x1 - x0|.toNat ∧ x0 + (if x0 ≥ x1 then (-1 : Int) else 1) * k = x := by
    intro x hlo hhi
    rcases lt_or_gt_of_ne hne with h | h
    · rw [min_eq_left h.le] at hlo
      rw [max_eq_right h.le] at hhi
      refine ⟨(x - x0).toNat, ?_, ?_⟩
      · rw [abs_of_nonneg (by omega)]; omega
      · rw [if_neg (by omega)]; omega
    · rw [min_eq_right h.le] at hlo
      rw [max_eq_left h.le] at hhi
      refine ⟨(x0 - x).toNat, ?_, ?_⟩
      · rw [abs_of_nonpos (by omega)]; omega
      · rw [if_pos (by omega)]; omega
  have hdepth : ∀ x : Int, lineDepth (⟨(x0 : K), (y : K), zA, wA⟩ : Vector K)
      ⟨(x1 : K), (y : K), zB, wB⟩ x y
      = Flt.fin (zA * (1 + -(((x : K) - x0) / ((x1 : K) - x0)))
          + zB * (((x : K) - x0) / ((x1 : K) - x0))) := by
    intro x
    unfold lineDepth
    rw [lineParam_row x0 x1 y zA zB wA wB hne x]
    rfl
  have hwrites : ∀ x : Int, min x0 x1 ≤ x → x ≤ max x0 x1 →
      lineWrites s (⟨(x0 : K), (y : K), zA, wA⟩ : Vector K) ⟨(x1 : K), (y : K), zB, wB⟩ x y
        = true := by
    intro x hlo hhi
    obtain ⟨ht0, ht1⟩ := param_unit (K := K) x0 x1 x hne hlo hhi
    rw [lineWrites_iff]
    refine ⟨(inViewport_iff _ _ _).2 ⟨?_, ?_, hy.1, hy.2⟩, _, hdepth x, ?_, ?_⟩
    · have := le_min hx0.1 hx1.1; omega
    · have := max_lt hx0.2 hx1.2; omega
    · have := mul_nonneg hzA.1 (by linarith : (0 : K) ≤ 1 + -(((x : K) - x0) / ((x1 : K) - x0)))
      have := mul_nonneg hzB.1 ht0
      linarith
    · have := mul_le_mul_of_nonneg_right hzA.2
        (by linarith : (0 : K) ≤ 1 + -(((x : K) - x0) / ((x1 : K) - x0)))
      have := mul_le_mul_of_nonneg_right hzB.2 ht0
      linarith
  have hcellv : ∀ x : Int, lineCell (⟨(x0 : K), (y : K), zA, wA⟩ : Vector K)
      ⟨(x1 : K), (y : K), zB, wB⟩ colorA colorB x y
      = (lerpTriColor colorA colorB Vector.zero
            (1 - ((x : K) - x0) / ((x1 : K) - x0)) (((x : K) - x0) / ((x1 : K) - x0)) 0,
          zA * (1 - ((x : K) - x0) / ((x1 : K) - x0))
            + zB * (((x : K) - x0) / ((x1 : K) - x0))) := by
    intro x
    unfold lineCell
    rw [hdepth x, lineParam_row x0 x1 y zA zB wA wB hne x]
    simp only [Flt.val, sub_eq_add_neg]
    rfl
  obtain ⟨s1, hrun, hsf, hin, hout⟩ := lineLoop_horizontal
    (⟨(x0 : K), (y : K), zA, wA⟩ : Vector K) ⟨(x1 : K), (y : K), zB, wB⟩ colorA colorB
    x1 y |x1 - x0| (if x0 ≥ x1 then -1 else 1) hdx hsx |x1 - x0|.toNat fuel x0 s hwf
    (by rw [hnat]; exact (step_reaches x0 x1 _).2 rfl) (by omega)
    (fun k hk => hwrites _ (hbetween k hk).1 (hbetween k hk).2)
  refine ⟨s1, ?_, hsf, ?_, ?_⟩
  · unfold RasterizeLine scanLine
    rw [hA, hB]
    simp only [toInt_intCast, sub_self, abs_zero, neg_zero, add_zero, ge_iff_le, le_refl,
      if_true]
    exact hrun
  · intro x hlo hhi
    obtain ⟨k, hk, rfl⟩ := hcover x hlo hhi
    rw [hin k hk, hcellv]
  · intro j hj
    apply hout
    intro k hk
    exact hj _ (hbetween k hk).1 (hbetween k hk).2

end

/-- A concrete instance of C9: the line from (0,0) to (5,0) in a scene six pixels wide
and one pixel high writes the 6 pixels x = 0..5 of row 0. -/
theorem RasterizeLine_horizontal_witness :
    (demo.scene 6 1 (List.replicate 6 demo.black) (List.replicate 6 1)).WellFormed ∧
    ∃ s1 : Scene ℚ,
      RasterizeLine 6 (demo.scene 6 1 (List.replicate 6 demo.black) (List.replicate 6 1))
        (demo.pt 0 0 (1/2)) (demo.pt 5 0 (1/2)) demo.white demo.white = Result.ok s1 ∧
      ∀ x : Int, min 0 5 ≤ x → x ≤ max 0 5 →
        cellAt s1 ((demo.scene 6 1 (List.replicate 6 demo.black) (List.replicate 6 1)).width * 0
            + x) =
          some (lerpTriColor demo.white demo.white Vector.zero
              (1 - ((x : ℚ) - (0 : Int)) / (((5 : Int) : ℚ) - (0 : Int)))
              (((x : ℚ) - (0 : Int)) / (((5 : Int) : ℚ) - (0 : Int))) 0,
            1/2 * (1 - ((x : ℚ) - (0 : Int)) / (((5 : Int) : ℚ) - (0 : Int)))
              + 1/2 * (((x : ℚ) - (0 : Int)) / (((5 : Int) : ℚ) - (0 : Int)))) :=
  ⟨by decide,
    (RasterizeLine_horizontal
      (s := demo.scene 6 1 (List.replicate 6 demo.black) (List.replicate 6 1)) (by decide)
      (demo.pt 0 0 (1/2)) (demo.pt 5 0 (1/2)) demo.white demo.white 0 5 0 (1/2) (1/2) 1 1
      (by decide!) (by decide!) (by decide) (by norm_num) (by norm_num) (by decide) (by decide)
      (by decide) 6 (by decide)).imp (fun _ h => ⟨h.1, h.2.2.1⟩)⟩

end rasterizer

/-! ## The lighting callback and the depth of a projected point -/

namespace obj

open math3d rasterizer

section
variable {K : Type} [LinearOrderedField K] [FloorRing K]

/-- C7: whatever the material (present or absent), the stored color, the triangle data
and the weights, when the dot product of the normalized interpolated normal with the
negated light direction is negative the callback built by lightingCalculator returns
without a fault, sets the color of the pixel it was given to exactly (0, 0, 0, 1) and
changes nothing else. -/
theorem lightingCalculator_facing_away {σ : Type} (sqrt : K → K) (pow : K → K → K)
    (a b c normalA normalB normalC : Vector K) (st0 st1 st2 : texCoord K)
    (lightDir : Vector K) (mat : Option (material K)) (s : Scene K) (e : σ)
    (w u t : K) (idx : Int) (color : Vector K)
    (hidx : getAt s.Buffers.FrameBuffer idx = some color)
    (hdot : Dot (Normalize sqrt (Add (Add (Mul normalA w) (Mul normalB u)) (Mul normalC t)))
      (Mul lightDir (-1)) < 0) :
    ∃ s1 : Scene K,
      lightingCalculator sqrt pow a b c normalA normalB normalC st0 st1 st2 lightDir mat
        w u t idx (s, e) = Result.ok (s1, e) ∧
      getAt s1.Buffers.FrameBuffer idx = some ⟨0, 0, 0, 1⟩ ∧
      (∀ j : Int, j ≠ idx → getAt s1.Buffers.FrameBuffer j = getAt s.Buffers.FrameBuffer j) ∧
      s1.Buffers.DepthBuffer = s.Buffers.DepthBuffer ∧ s.SameFrame s1 := by
  obtain ⟨h0, hlt⟩ := (getAt_eq_some_iff_lt _ _).1 ⟨color, hidx⟩
  refine ⟨{ s with Buffers := { s.Buffers with
      FrameBuffer := s.Buffers.FrameBuffer.set idx.toNat ⟨0, 0, 0, 1⟩ } }, ?_, ?_, ?_, rfl, ?_⟩
  · unfold lightingCalculator
    simp only [hidx, ge_iff_le, not_le.2 hdot, if_false, VectorOf]
  · simp only [getAt_set _ _ _ _ h0 hlt, if_true]
  · intro j hj
    simp only [getAt_set _ _ _ _ h0 hlt, hj, if_false]
  · simp [Scene.SameFrame]

end

end obj

namespace rasterizer

open math3d

section
variable {K : Type} [LinearOrderedField K]

/-- The depth row of the viewport matrix: depth is remapped from [-1, 1] to [0, 1]. -/
theorem viewport_depth_row (x y w h : K) :
    (Viewport x y w h).X.Z = 0 ∧ (Viewport x y w h).Y.Z = 0 ∧
      (Viewport x y w h).Z.Z = 1 / 2 ∧ (Viewport x y w h).W.Z = 1 / 2 := by
  simp [Viewport, Translate, Scale, Multiply, IdentityMatrix]

theorem transform_identity (v : Vector K) : Transform IdentityMatrix v false = v := by
  simp [Transform, IdentityMatrix]

/-- The depth VectorToScreencoords returns for a point in front of the eye, under an
identity model-view matrix, a perspective projection and a viewport at the origin. -/
theorem screen_depth_formula (tan : K → K) (pi fov aspect zNear zFar w h : K) (s : Scene K)
    (hMV : s.ModelViewMatrix = IdentityMatrix)
    (hP : s.ProjectionMatrix = ProjectionMatrix tan pi fov aspect zNear zFar)
    (hV : s.ViewportMatrix = Viewport 0 0 w h)
    (hnf : zNear < zFar) (px py pz : K) (hpz : pz < 0) :
    (VectorToScreencoords s ⟨px, py, pz, 1⟩).Z
      = zFar * (-pz - zNear) / ((zFar - zNear) * (-pz)) := by
  have h1 : zFar - zNear ≠ 0 := ne_of_gt (sub_pos.2 hnf)
  have h2 : pz ≠ 0 := ne_of_lt hpz
  obtain ⟨r1, r2, r3, r4⟩ := viewport_depth_row (0 : K) 0 w h
  have hz : (Transform (ProjectionMatrix tan pi fov aspect zNear zFar) ⟨px, py, pz, 1⟩ false).Z
      = (-zFar - zNear) / (zFar - zNear) * pz + -2 * zNear * zFar / (zFar - zNear) := by
    simp [Transform, ProjectionMatrix]
  have hw : (Transform (ProjectionMatrix tan pi fov aspect zNear zFar) ⟨px, py, pz, 1⟩ false).W
      = -pz := by
    simp [Transform, ProjectionMatrix]
  unfold VectorToScreencoords
  rw [hMV, hP, hV, transform_identity]
  simp only [Transform, Bool.not_false, if_true, math3d.Mul, r1, r2, r3, r4] at hz hw ⊢
  rw [hz, hw]
  field_simp
  ring

/-- C10 (amended): over exact arithmetic, with the rounding of `float64` set aside.
Under an identity model-view matrix, the projection
`ProjectionMatrix(fov, aspect, zNear, zFar)` with `0 < zNear < zFar`, with
`tan(fov*π/360) ≠ 0` and `aspect ≠ 0` (so that ProjectionMatrix divides by no zero) and
the viewport `Viewport(0, 0, w, h)`, the Z that VectorToScreencoords returns for a point
(px, py, pz, 1) with `pz < 0` lies in [0, 1] exactly when `-zFar ≤ pz ≤ -zNear`, is 0
on the near plane, 1 on the far plane, and is strictly larger for a point in front of
the eye that is farther along the view axis. -/
theorem VectorToScreencoords_depth (tan : K → K) (pi fov aspect zNear zFar w h : K)
    (s : Scene K) (hMV : s.ModelViewMatrix = IdentityMatrix)
    (hP : s.ProjectionMatrix = ProjectionMatrix tan pi fov aspect zNear zFar)
    (hV : s.ViewportMatrix = Viewport 0 0 w h)
    (hn : 0 < zNear) (hnf : zNear < zFar) (_htan : tan (fov * pi / 360) ≠ 0)
    (_haspect : aspect ≠ 0) (px py pz : K) (hpz : pz < 0) :
    ((0 ≤ (VectorToScreencoords s ⟨px, py, pz, 1⟩).Z ∧
        (VectorToScreencoords s ⟨px, py, pz, 1⟩).Z ≤ 1) ↔ (-zFar ≤ pz ∧ pz ≤ -zNear)) ∧
      (VectorToScreencoords s ⟨px, py, -zNear, 1⟩).Z = 0 ∧
      (VectorToScreencoords s ⟨px, py, -zFar, 1⟩).Z = 1 ∧
      ∀ qx qy qz : K, qz < pz →
        (VectorToScreencoords s ⟨px, py, pz, 1⟩).Z < (VectorToScreencoords s ⟨qx, qy, qz, 1⟩).Z := by
  have hf : 0 < zFar := lt_trans hn hnf
  have hfn : 0 < zFar - zNear := sub_pos.2 hnf
  have hd : 0 < -pz := neg_pos.2 hpz
  have hden : 0 < (zFar - zNear) * (-pz) := mul_pos hfn hd
  refine ⟨?_, ?_, ?_, ?_⟩
  · rw [screen_depth_formula tan pi fov aspect zNear zFar w h s hMV hP hV hnf px py pz hpz,
      le_div_iff₀ hden, div_le_iff₀ hden]
    constructor
    · rintro ⟨h1, h2⟩
      constructor
      · nlinarith
      · have : 0 ≤ -pz - zNear := by
          by_contra hneg
          have := mul_neg_of_pos_of_neg hf (not_le.1 hneg)
          linarith
        linarith
    · rintro ⟨h1, h2⟩
      constructor
      · have : 0 ≤ zFar * (-pz - zNear) := mul_nonneg hf.le (by linarith)
        linarith
      · nlinarith
  · rw [screen_depth_formula tan pi fov aspect zNear zFar w h s hMV hP hV hnf px py (-zNear)
      (neg_lt_zero.2 hn)]
    simp
  · rw [screen_depth_formula tan pi fov aspect zNear zFar w h s hMV hP hV hnf px py (-zFar)
      (neg_lt_zero.2 hf)]
    have h1 : zFar - zNear ≠ 0 := ne_of_gt hfn
    have h2 : zFar ≠ 0 := ne_of_gt hf
    field_simp
    ring
  · intro qx qy qz hq
    have hqz : qz < 0 := lt_trans hq hpz
    rw [screen_depth_formula tan pi fov aspect zNear zFar w h s hMV hP hV hnf px py pz hpz,
      screen_depth_formula tan pi fov aspect zNear zFar w h s hMV hP hV hnf qx qy qz hqz,
      div_lt_div_iff₀ hden (mul_pos hfn (neg_pos.2 hqz))]
    have hprod : 0 < zFar * zNear * (zFar - zNear) := mul_pos (mul_pos hf hn) hfn
    nlinarith [mul_pos hprod (sub_pos.2 hq)]

end

end rasterizer

/-! ## Concrete instances -/

namespace rasterizer

open math3d

/-- A concrete instance of C2: a triangle of depth 1/2 on a one-pixel scene. -/
theorem RasterizeTriangle_depth_test_witness :
    (demo.scene 1 1 [demo.black] [1]).WellFormed ∧
    (∀ d ∈ (demo.scene 1 1 [demo.black] [1]).Buffers.DepthBuffer, d ≤ 1) ∧
    ∃ s1 : Scene ℚ, RasterizeTriangleNil (demo.scene 1 1 [demo.black] [1])
      (demo.pt 0 0 (1/2)) (demo.pt 1 0 (1/2)) (demo.pt 0 1 (1/2))
      demo.red demo.red demo.red = Result.ok s1 :=
  ⟨by decide, by decide!,
    (RasterizeTriangle_depth_test (s := demo.scene 1 1 [demo.black] [1]) (by decide)
      (by decide!) (demo.pt 0 0 (1/2)) (demo.pt 1 0 (1/2)) (demo.pt 0 1 (1/2))
      demo.red demo.red demo.red).imp (fun _ h => h.1)⟩

/-- A concrete instance of C4: a triangle to the right of a one-pixel viewport. -/
theorem RasterizeTriangle_touches_bounding_box_witness :
    (demo.scene 1 1 [demo.black] [1]).WellFormed ∧
    ∃ s1 : Scene ℚ, RasterizeTriangleNil (demo.scene 1 1 [demo.black] [1])
      (demo.pt 5 0 (1/2)) (demo.pt 6 0 (1/2)) (demo.pt 5 1 (1/2))
      demo.red demo.red demo.red = Result.ok s1 :=
  ⟨by decide,
    (RasterizeTriangle_touches_bounding_box (s := demo.scene 1 1 [demo.black] [1]) (by decide)
      (demo.pt 5 0 (1/2)) (demo.pt 6 0 (1/2)) (demo.pt 5 1 (1/2))
      demo.red demo.red demo.red).imp (fun _ h => h.1)⟩

/-- A concrete instance of C5: the collinear points (0,0), (1,1), (2,2) with the
recording callback. -/
theorem RasterizeTriangle_degenerate_witness :
    RasterizeTriangle (demo.scene 3 3 (List.replicate 9 demo.black) (List.replicate 9 1))
      (demo.pt 0 0 (1/2)) (demo.pt 1 1 (1/2)) (demo.pt 2 2 (1/2))
      demo.red demo.red demo.red (some recorder) []
      = Result.ok (demo.scene 3 3 (List.replicate 9 demo.black) (List.replicate 9 1), []) :=
  RasterizeTriangle_degenerate _ _ _ _ _ _ _ _ _ (by decide!)

/-- A concrete instance of the callback theorem over exact arithmetic: a triangle over
a one-pixel scene. -/
theorem RasterizeTriangle_callback_witness :
    (demo.scene 1 1 [demo.black] [1]).WellFormed ∧
    ∃ (s1 : Scene ℚ) (log : List (Call ℚ)),
      RasterizeTriangle (demo.scene 1 1 [demo.black] [1])
        (demo.pt 0 0 (1/2)) (demo.pt 1 0 (1/2)) (demo.pt 0 1 (1/2))
        demo.red demo.red demo.red (some recorder) [] = Result.ok (s1, log) ∧
      List.Pairwise (fun e1 e2 : Call ℚ => e1.idx < e2.idx) log :=
  ⟨by decide,
    let ⟨s1, log, h1, _, h3, _⟩ :=
      RasterizeTriangle_callback (s := demo.scene 1 1 [demo.black] [1]) (by decide)
        (demo.pt 0 0 (1/2)) (demo.pt 1 0 (1/2)) (demo.pt 0 1 (1/2))
        demo.red demo.red demo.red _ _ _ rfl rfl rfl
    ⟨s1, log, h1, h3⟩⟩

/-- A concrete instance of C8 (amended): an 11 by 11 scene and depths 1/2. -/
theorem RasterizeTriangle_right_triangle_witness :
    (demo.scene 11 11 (List.replicate 121 demo.black) (List.replicate 121 0)).WellFormed ∧
    ∃ s s1 : Scene ℚ,
      ClearBuffers (demo.scene 11 11 (List.replicate 121 demo.black) (List.replicate 121 0))
        demo.green = Result.ok s ∧
      RasterizeTriangleNil s (demo.pt 0 0 (1/2)) (demo.pt 10 0 (1/2)) (demo.pt 0 10 (1/2))
        ⟨1, 1, 1, 1⟩ ⟨1, 1, 1, 1⟩ ⟨1, 1, 1, 1⟩ = Result.ok s1 :=
  ⟨by simp [Scene.WellFormed, demo.scene],
    let ⟨s, s1, h1, h2, _⟩ :=
      RasterizeTriangle_right_triangle
        (demo.scene 11 11 (List.replicate 121 demo.black) (List.replicate 121 0))
        (by simp [Scene.WellFormed, demo.scene]) (by decide) (by decide) demo.green
        (demo.pt 0 0 (1/2)) (demo.pt 10 0 (1/2)) (demo.pt 0 10 (1/2)) (1/2) (1/2) (1/2) 1 1 1
        (by decide!) (by decide!) (by decide!) (by norm_num) (by norm_num) (by norm_num)
    ⟨s, s1, h1, h2⟩⟩

/-- A concrete instance of C10 (amended): near plane 1, far plane 3, the point
(0, 0, -2, 1). -/
theorem VectorToScreencoords_depth_witness :
    (0 : ℚ) < 1 ∧ (1 : ℚ) < 3 ∧ (fun _ : ℚ => (1 : ℚ)) (90 * 3 / 360) ≠ 0 ∧ (1 : ℚ) ≠ 0 ∧
    (-2 : ℚ) < 0 ∧
    (VectorToScreencoords
      ({ ModelViewMatrix := IdentityMatrix
         ProjectionMatrix := ProjectionMatrix (fun _ => 1) 3 90 1 1 3
         ViewportMatrix := Viewport 0 0 2 2
         Buffers := ⟨[], []⟩, width := 2, height := 2, wh := 4 } : Scene ℚ)
      ⟨0, 0, -1, 1⟩).Z = 0 :=
  ⟨by norm_num, by norm_num, by norm_num, by norm_num, by norm_num,
    (VectorToScreencoords_depth (fun _ => (1 : ℚ)) 3 90 1 1 3 2 2
      ({ ModelViewMatrix := IdentityMatrix
         ProjectionMatrix := ProjectionMatrix (fun _ => 1) 3 90 1 1 3
         ViewportMatrix := Viewport 0 0 2 2
         Buffers := ⟨[], []⟩, width := 2, height := 2, wh := 4 } : Scene ℚ)
      rfl rfl rfl (by norm_num) (by norm_num) (by norm_num) (by norm_num) 0 0 (-2)
      (by norm_num)).2.1⟩

end rasterizer

namespace obj

open math3d rasterizer

/-- A concrete instance of C7: the normal (0, 0, 1) under the light direction
(0, 0, 1), without a material. -/
theorem lightingCalculator_facing_away_witness :
    ∃ s1 : Scene ℚ,
      lightingCalculator (fun x => x) (fun x _ => x)
        (demo.pt 0 0 0) (demo.pt 1 0 0) (demo.pt 0 1 0)
        (demo.pt 0 0 1) (demo.pt 0 0 1) (demo.pt 0 0 1) ⟨-1, -1⟩ ⟨-1, -1⟩ ⟨-1, -1⟩
        (demo.pt 0 0 1) none 1 0 0 0 (demo.scene 1 1 [demo.red] [1], ())
        = Result.ok (s1, ()) ∧
      getAt s1.Buffers.FrameBuffer 0 = some ⟨0, 0, 0, 1⟩ :=
  let ⟨s1, h1, h2, _⟩ :=
    lightingCalculator_facing_away (fun x : ℚ => x) (fun x _ => x)
      (demo.pt 0 0 0) (demo.pt 1 0 0) (demo.pt 0 1 0)
      (demo.pt 0 0 1) (demo.pt 0 0 1) (demo.pt 0 0 1) ⟨-1, -1⟩ ⟨-1, -1⟩ ⟨-1, -1⟩
      (demo.pt 0 0 1) none (demo.scene 1 1 [demo.red] [1]) () 1 0 0 0 demo.red
      (by decide!) (by decide!)
  ⟨s1, h1, h2⟩

end obj

/-! ## The matrix and vector library -/

namespace math3d

variable {K : Type} [LinearOrderedField K]

/-- C15: the identity matrix is a right and a left unit of Multiply. -/
theorem Multiply_identity (M : Matrix K) :
    Multiply M IdentityMatrix = M ∧ Multiply IdentityMatrix M = M := by
  obtain ⟨⟨a1, a2, a3, a4⟩, ⟨b1, b2, b3, b4⟩, ⟨c1, c2, c3, c4⟩, ⟨d1, d2, d3, d4⟩⟩ := M
  constructor <;> simp [Multiply, IdentityMatrix]

/-- What a translation built on the identity matrix does to a vector. -/
theorem transform_translate_identity (x y z : K) (p : Vector K) :
    Transform (Translate IdentityMatrix x y z) p false
      = ⟨p.X + x * p.W, p.Y + y * p.W, p.Z + z * p.W, p.W⟩ := by
  simp [Transform, Translate, Multiply, IdentityMatrix]

/-- C16: transforming a point by the translation by (x, y, z) and then by the translation
by (-x, -y, -z) returns the point. -/
theorem Translate_roundtrip (p : Vector K) (x y z : K) :
    Transform (Translate IdentityMatrix (-x) (-y) (-z))
      (Transform (Translate IdentityMatrix x y z) p false) false = p := by
  rw [transform_translate_identity, transform_translate_identity]
  obtain ⟨p1, p2, p3, p4⟩ := p
  simp

/-- C17: a direction vector is not translated: Translate does not change the image of a
vector transformed as a normal vector; that image has W = 0 and the X, Y, Z of the full
transform of the vector with its W replaced by 0. -/
theorem Transform_direction_not_translated (m : Matrix K) (v : Vector K) (x y z : K) :
    Transform (Translate m x y z) v true = Transform m v true ∧
      (Transform m v true).W = 0 ∧
      (Transform m v true).X = (Transform m { v with W := 0 } false).X ∧
      (Transform m v true).Y = (Transform m { v with W := 0 } false).Y ∧
      (Transform m v true).Z = (Transform m { v with W := 0 } false).Z := by
  refine ⟨?_, ?_, ?_, ?_, ?_⟩ <;> simp [Transform, Translate, Multiply, IdentityMatrix]

/-- The four columns of the viewport matrix. -/
theorem viewport_columns (x y w h : K) :
    Viewport x y w h
      = ⟨⟨w / 2, 0, 0, 0⟩, ⟨0, -h / 2, 0, 0⟩, ⟨0, 0, 1 / 2, 0⟩, ⟨x + w / 2, y + h / 2, 1 / 2, 1⟩⟩ := by
  simp [Viewport, Translate, Scale, Multiply, IdentityMatrix]
  constructor <;> ring

/-- C18: the viewport matrix maps a vector with W = 1 to
(x + (v.X + 1)*w/2, y + (1 - v.Y)*h/2, (v.Z + 1)/2, 1); the corner (-1, 1) goes to the
pixel (x, y), the corner (1, -1) to (x + w, y + h), the depths -1 and 1 to 0 and 1. -/
theorem Viewport_transform (x y w h : K) (v : Vector K) (hv : v.W = 1) :
    Transform (Viewport x y w h) v false
        = ⟨x + (v.X + 1) * w / 2, y + (1 - v.Y) * h / 2, (v.Z + 1) / 2, 1⟩ ∧
      (∀ d : K, (Transform (Viewport x y w h) ⟨-1, 1, d, 1⟩ false).X = x ∧
        (Transform (Viewport x y w h) ⟨-1, 1, d, 1⟩ false).Y = y ∧
        (Transform (Viewport x y w h) ⟨1, -1, d, 1⟩ false).X = x + w ∧
        (Transform (Viewport x y w h) ⟨1, -1, d, 1⟩ false).Y = y + h) ∧
      (∀ a b : K, (Transform (Viewport x y w h) ⟨a, b, -1, 1⟩ false).Z = 0 ∧
        (Transform (Viewport x y w h) ⟨a, b, 1, 1⟩ false).Z = 1) := by
  obtain ⟨v1, v2, v3, v4⟩ := v
  simp only at hv
  subst hv
  rw [viewport_columns]
  refine ⟨?_, ?_, ?_⟩
  · simp only [Transform, Bool.not_false, if_true]
    congr 1 <;> ring
  · intro d
    simp only [Transform, Bool.not_false, if_true]
    refine ⟨?_, ?_, ?_, ?_⟩ <;> ring
  · intro a b
    simp only [Transform, Bool.not_false, if_true]
    refine ⟨?_, ?_⟩ <;> ring

/-- C18 at the window of 640 by 480 pixels at the origin and the centre of the NDC square. -/
theorem Viewport_transform_witness :
    (⟨0, 0, 0, 1⟩ : Vector ℚ).W = 1 ∧
      Transform (Viewport (0 : ℚ) 0 640 480) ⟨0, 0, 0, 1⟩ false = ⟨320, 240, 1 / 2, 1⟩ := by
  refine ⟨rfl, ?_⟩
  rw [(Viewport_transform (0 : ℚ) 0 640 480 ⟨0, 0, 0, 1⟩ rfl).1]
  norm_num

/-- C19: over the real numbers, a vector of positive magnitude is normalized to a vector
of magnitude 1 with the same W. -/
theorem Normalize_magnitude (v : Vector ℝ) (h : 0 < Magnitude Real.sqrt v) :
    Magnitude Real.sqrt (Normalize Real.sqrt v) = 1 ∧ (Normalize Real.sqrt v).W = v.W := by
  refine ⟨?_, rfl⟩
  obtain ⟨x, y, z, w⟩ := v
  simp only [Magnitude, Normalize] at h ⊢
  have hS : 0 < x * x + y * y + z * z := Real.sqrt_pos.1 h
  have hm : Real.sqrt (x * x + y * y + z * z) * Real.sqrt (x * x + y * y + z * z)
      = x * x + y * y + z * z := Real.mul_self_sqrt (le_of_lt hS)
  have hne : Real.sqrt (x * x + y * y + z * z) ≠ 0 := ne_of_gt h
  have hone : x / Real.sqrt (x * x + y * y + z * z) * (x / Real.sqrt (x * x + y * y + z * z))
      + y / Real.sqrt (x * x + y * y + z * z) * (y / Real.sqrt (x * x + y * y + z * z))
      + z / Real.sqrt (x * x + y * y + z * z) * (z / Real.sqrt (x * x + y * y + z * z)) = 1 := by
    field_simp
  rw [hone, Real.sqrt_one]

/-- C19 at the vector (3, 4, 0, 2), whose magnitude is 5. -/
theorem Normalize_magnitude_witness :
    0 < Magnitude Real.sqrt ⟨3, 4, 0, 2⟩ ∧
      Magnitude Real.sqrt (Normalize Real.sqrt ⟨3, 4, 0, 2⟩) = 1 ∧
      (Normalize Real.sqrt ⟨3, 4, 0, 2⟩).W = 2 :=
  have h : 0 < Magnitude Real.sqrt ⟨3, 4, 0, 2⟩ := by
    simp only [Magnitude]
    exact Real.sqrt_pos.2 (by norm_num)
  ⟨h, Normalize_magnitude ⟨3, 4, 0, 2⟩ h⟩

end math3d

namespace math3d

variable {K : Type} [LinearOrderedField K]

omit [LinearOrderedField K] in
/-- The matrix Transpose leaves behind, entry by entry. -/
theorem Transpose_entries (m : Matrix K) :
    Transpose m
      = ⟨⟨m.X.X, m.Y.X, m.Z.X, m.W.X⟩, ⟨m.X.Y, m.Z.Y, m.Y.Z, m.W.Y⟩,
          ⟨m.X.Z, m.Y.Y, m.Z.Z, m.W.Z⟩, ⟨m.X.W, m.Y.W, m.Z.W, m.W.W⟩⟩ := by
  rfl

/-- C14 (the code at the identity matrix): Transpose exchanges the diagonal entry Y.Y
with Z.Y and leaves Y.Z where it is, so the transposed identity matrix has the columns
Y = (0, 0, 0, 0) and Z = (0, 1, 1, 0) and is not the identity matrix. -/
theorem Transpose_identity_not_identity :
    Transpose (IdentityMatrix : Matrix ℚ)
        = ⟨⟨1, 0, 0, 0⟩, ⟨0, 0, 0, 0⟩, ⟨0, 1, 1, 0⟩, ⟨0, 0, 0, 1⟩⟩ ∧
      Transpose (IdentityMatrix : Matrix ℚ) ≠ IdentityMatrix ∧
      (∀ m : Matrix ℚ, (Transpose m).Y.Y = m.Z.Y ∧ (Transpose m).Z.Y = m.Y.Y ∧
        (Transpose m).Y.Z = m.Y.Z) := by
  refine ⟨by rw [Transpose_entries]; rfl, ?_, fun m => ⟨rfl, rfl, rfl⟩⟩
  rw [Transpose_entries]
  simp [IdentityMatrix]

/-- The image of a direction under the rotation matrix, component by component. -/
theorem transform_rotate (sin cos : K → K) (theta x y z : K) (v : Vector K) :
    Transform (Rotate sin cos IdentityMatrix theta x y z) v true
      = ⟨(x * x * (1 - cos theta) + cos theta) * v.X + (x * y * (1 - cos theta) + z * sin theta) * v.Y
            + (x * z * (1 - cos theta) - y * sin theta) * v.Z,
          (y * x * (1 - cos theta) - z * sin theta) * v.X + (y * y * (1 - cos theta) + cos theta) * v.Y
            + (y * z * (1 - cos theta) + x * sin theta) * v.Z,
          (z * x * (1 - cos theta) + y * sin theta) * v.X + (z * y * (1 - cos theta) - x * sin theta) * v.Y
            + (z * z * (1 - cos theta) + cos theta) * v.Z,
          0⟩ := by
  simp [Transform, Rotate, Multiply, IdentityMatrix]

/-- C13 (as stated, at the quarter turn about the z axis): Rotate by pi/2 about (0, 0, 1)
takes (1, 0, 0) to (0, -1, 0), while Rodrigues' formula gives (0, 1, 0). -/
theorem Rotate_quarter_turn_clockwise :
    Dot (⟨0, 0, 1, 1⟩ : Vector ℝ) ⟨0, 0, 1, 1⟩ = 1 ∧
      Transform (Rotate Real.sin Real.cos IdentityMatrix (Real.pi / 2) 0 0 1) ⟨1, 0, 0, 1⟩ true
        = ⟨0, -1, 0, 0⟩ ∧
      rodrigues Real.sin Real.cos (Real.pi / 2) ⟨0, 0, 1, 1⟩ ⟨1, 0, 0, 1⟩ = ⟨0, 1, 0, 1⟩ ∧
      (Transform (Rotate Real.sin Real.cos IdentityMatrix (Real.pi / 2) 0 0 1)
          ⟨1, 0, 0, 1⟩ true).Y
        ≠ (rodrigues Real.sin Real.cos (Real.pi / 2) ⟨0, 0, 1, 1⟩ ⟨1, 0, 0, 1⟩).Y := by
  have h1 : Transform (Rotate Real.sin Real.cos IdentityMatrix (Real.pi / 2) 0 0 1)
      ⟨1, 0, 0, 1⟩ true = ⟨0, -1, 0, 0⟩ := by
    rw [transform_rotate]
    simp [Real.sin_pi_div_two, Real.cos_pi_div_two]
  have h2 : rodrigues Real.sin Real.cos (Real.pi / 2) ⟨0, 0, 1, 1⟩ ⟨1, 0, 0, 1⟩
      = (⟨0, 1, 0, 1⟩ : Vector ℝ) := by
    simp [rodrigues, math3d.Add, math3d.Mul, Cross, Dot, Real.sin_pi_div_two,
      Real.cos_pi_div_two]
  refine ⟨by simp [Dot], h1, h2, ?_⟩
  rw [h1, h2]
  norm_num

/-- C13 (amended): for every axis (x, y, z), unit or not, every angle theta and every
vector v, the X, Y, Z of Transform(Rotate(IdentityMatrix(), theta, x, y, z), v, true) are
those of Rodrigues' formula at the opposite angle -theta, that is of
v*cos(theta) - (k x v)*sin(theta) + k*(k . v)*(1 - cos(theta)); the W is 0; and the
rotation by pi/2 about (0, 0, 1) takes (1, 0, 0) to (0, -1, 0). -/
theorem Rotate_rodrigues_opposite_angle (theta x y z : ℝ) (v : Vector ℝ) :
    (Transform (Rotate Real.sin Real.cos IdentityMatrix theta x y z) v true).X
        = (rodrigues Real.sin Real.cos (-theta) ⟨x, y, z, 1⟩ v).X ∧
      (Transform (Rotate Real.sin Real.cos IdentityMatrix theta x y z) v true).Y
        = (rodrigues Real.sin Real.cos (-theta) ⟨x, y, z, 1⟩ v).Y ∧
      (Transform (Rotate Real.sin Real.cos IdentityMatrix theta x y z) v true).Z
        = (rodrigues Real.sin Real.cos (-theta) ⟨x, y, z, 1⟩ v).Z ∧
      (Transform (Rotate Real.sin Real.cos IdentityMatrix theta x y z) v true).X
        = v.X * Real.cos theta - (Cross ⟨x, y, z, 1⟩ v).X * Real.sin theta
          + x * (Dot ⟨x, y, z, 1⟩ v * (1 - Real.cos theta)) ∧
      (Transform (Rotate Real.sin Real.cos IdentityMatrix theta x y z) v true).Y
        = v.Y * Real.cos theta - (Cross ⟨x, y, z, 1⟩ v).Y * Real.sin theta
          + y * (Dot ⟨x, y, z, 1⟩ v * (1 - Real.cos theta)) ∧
      (Transform (Rotate Real.sin Real.cos IdentityMatrix theta x y z) v true).Z
        = v.Z * Real.cos theta - (Cross ⟨x, y, z, 1⟩ v).Z * Real.sin theta
          + z * (Dot ⟨x, y, z, 1⟩ v * (1 - Real.cos theta)) ∧
      (Transform (Rotate Real.sin Real.cos IdentityMatrix theta x y z) v true).W = 0 ∧
      Transform (Rotate Real.sin Real.cos IdentityMatrix (Real.pi / 2) 0 0 1) ⟨1, 0, 0, 1⟩ true
        = ⟨0, -1, 0, 0⟩ := by
  rw [transform_rotate]
  refine ⟨?_, ?_, ?_, ?_, ?_, ?_, rfl, ?_⟩
  · simp only [rodrigues, math3d.Add, math3d.Mul, Cross, Dot, Real.sin_neg, Real.cos_neg]
    ring
  · simp only [rodrigues, math3d.Add, math3d.Mul, Cross, Dot, Real.sin_neg, Real.cos_neg]
    ring
  · simp only [rodrigues, math3d.Add, math3d.Mul, Cross, Dot, Real.sin_neg, Real.cos_neg]
    ring
  · simp only [Cross, Dot]
    ring
  · simp only [Cross, Dot]
    ring
  · simp only [Cross, Dot]
    ring
  · rw [transform_rotate]
    simp [Real.sin_pi_div_two, Real.cos_pi_div_two]

/-- C20 (as stated, at two direction vectors): Lerp of (1, 2, 3, 0) and (4, 5, 6, 0) at
t = 0 is (1, 2, 3, 1): its W is 1 and not 0, and it is not the first vector. -/
theorem Lerp_forces_W :
    Lerp (⟨1, 2, 3, 0⟩ : Vector ℚ) ⟨4, 5, 6, 0⟩ 0 = ⟨1, 2, 3, 1⟩ ∧
      (Lerp (⟨1, 2, 3, 0⟩ : Vector ℚ) ⟨4, 5, 6, 0⟩ 0).W ≠ (1 - 0) * 0 + 0 * 0 ∧
      Lerp (⟨1, 2, 3, 0⟩ : Vector ℚ) ⟨4, 5, 6, 0⟩ 0 ≠ ⟨1, 2, 3, 0⟩ := by
  have h : Lerp (⟨1, 2, 3, 0⟩ : Vector ℚ) ⟨4, 5, 6, 0⟩ 0 = ⟨1, 2, 3, 1⟩ := by
    simp [Lerp, math3d.Add, math3d.Mul]
  refine ⟨h, ?_, ?_⟩
  · rw [h]
    norm_num
  · rw [h]
    simp

/-- C20 (amended): the X, Y and Z of Lerp(v, w, t) are (1 - t) times the component of v
plus t times the component of w; the W of the result is the constant 1; Lerp(v, w, 0) is v
with W set to 1 and Lerp(v, w, 1) is w with W set to 1. -/
theorem Lerp_components (v w : Vector K) (t : K) :
    (Lerp v w t).X = (1 - t) * v.X + t * w.X ∧
      (Lerp v w t).Y = (1 - t) * v.Y + t * w.Y ∧
      (Lerp v w t).Z = (1 - t) * v.Z + t * w.Z ∧
      (Lerp v w t).W = 1 ∧
      Lerp v w 0 = { v with W := 1 } ∧ Lerp v w 1 = { w with W := 1 } := by
  refine ⟨?_, ?_, ?_, rfl, ?_, ?_⟩
  · simp only [Lerp, math3d.Add, math3d.Mul]
    ring
  · simp only [Lerp, math3d.Add, math3d.Mul]
    ring
  · simp only [Lerp, math3d.Add, math3d.Mul]
    ring
  · simp [Lerp, math3d.Add, math3d.Mul]
  · simp [Lerp, math3d.Add, math3d.Mul]

end math3d

/-! ## The scene NewScene creates -/

namespace rasterizer

open math3d

theorem getAt_replicate {α : Type} (n : Nat) (a : α) (j : Int) :
    getAt (List.replicate n a) j = if 0 ≤ j ∧ j < n then some a else none := by
  by_cases h : 0 ≤ j ∧ j < n
  · rw [if_pos h]
    have hlt : j.toNat < n := by omega
    simp [getAt, h.1, List.getElem?_replicate, hlt]
  · rw [if_neg h]
    apply getAt_eq_none
    rw [List.length_replicate]
    intro h1
    apply h
    refine ⟨h1.1, ?_⟩
    have := h1.2
    omega

section
variable {K : Type} [LinearOrderedField K] [FloorRing K]

/-- The scene NewScene returns for a window of `w` by `h` pixels, `w` and `h` not
negative. -/
theorem NewScene_ok (tan : K → K) (pi : K) (w h : Int) (hw : 0 ≤ w) (hh : 0 ≤ h)
    (fov zNear zFar : K) :
    NewScene tan pi (w : K) (h : K) fov zNear zFar = Result.ok
      { ModelViewMatrix := IdentityMatrix
        ProjectionMatrix := ProjectionMatrix tan pi 90 ((w : K) / (h : K)) 1 1000
        ViewportMatrix := Viewport 0 0 (w : K) (h : K)
        Buffers :=
          { FrameBuffer := List.replicate (w * h).toNat Vector.zero
            DepthBuffer := List.replicate (w * h).toNat 0 }
        width := w
        height := h
        wh := w * h } := by
  have hn : toInt ((w : K) * (h : K)) = w * h := by
    rw [← Int.cast_mul]
    exact toInt_intCast _
  have hpos : ¬ w * h < 0 := not_lt.2 (Int.mul_nonneg hw hh)
  unfold NewScene
  rw [hn, if_neg hpos, toInt_intCast, toInt_intCast]

/-- C11 (the code at NewScene(2, 2, 90, 1, 100)): the projection matrix of the scene is
built from the constants 90, 1 and 1000, not from the arguments: it is
ProjectionMatrix(90, 2/2, 1, 1000) and differs from ProjectionMatrix(90, 2/2, 1, 100) in
the entry Z.Z, which is -1001/999 and not -101/99.  The model-view matrix is the identity
and the viewport matrix is Viewport(0, 0, 2, 2). -/
theorem NewScene_projection_from_constants (tan : ℚ → ℚ) (pi : ℚ) :
    ∃ s : Scene ℚ, NewScene tan pi 2 2 90 1 100 = Result.ok s ∧
      s.ProjectionMatrix = ProjectionMatrix tan pi 90 (2 / 2) 1 1000 ∧
      s.ProjectionMatrix ≠ ProjectionMatrix tan pi 90 (2 / 2) 1 100 ∧
      s.ProjectionMatrix.Z.Z = -1001 / 999 ∧
      (ProjectionMatrix tan pi 90 (2 / 2) 1 100).Z.Z = -101 / 99 ∧
      s.ViewportMatrix = Viewport 0 0 2 2 ∧ s.ModelViewMatrix = IdentityMatrix := by
  have h := NewScene_ok tan pi 2 2 (by norm_num) (by norm_num) (90 : ℚ) 1 100
  simp only [Int.cast_ofNat] at h
  refine ⟨_, h, rfl, ?_, ?_, ?_, rfl, rfl⟩
  · intro heq
    have hz := congrArg (fun m : Matrix ℚ => m.Z.Z) heq
    simp only [ProjectionMatrix] at hz
    norm_num at hz
  · simp only [ProjectionMatrix]
    norm_num
  · simp only [ProjectionMatrix]
    norm_num

/-- The scene of NewScene is well formed: its buffers hold exactly `w*h` cells. -/
theorem NewScene_wellFormed (tan : K → K) (pi : K) (w h : Int) (hw : 0 ≤ w) (hh : 0 ≤ h)
    (fov zNear zFar : K) :
    ∃ s0 : Scene K, NewScene tan pi (w : K) (h : K) fov zNear zFar = Result.ok s0 ∧
      s0.WellFormed ∧ s0.width = w ∧ s0.height = h ∧
      s0.Buffers.FrameBuffer.length = (w * h).toNat := by
  have hwh : 0 ≤ w * h := Int.mul_nonneg hw hh
  refine ⟨_, NewScene_ok tan pi w h hw hh fov zNear zFar, ⟨hw, hh, ?_, ?_⟩, rfl, rfl, ?_⟩
  · simp only [List.length_replicate]
    omega
  · simp only [List.length_replicate]
  · simp only [List.length_replicate]

/-- C12: for a scene created by NewScene with positive integer width `w` and height `h`,
ClearBuffers(c) returns without a fault (no index outside a buffer is accessed); afterwards
the color buffer consists of `w*h` entries equal to `c`, the depth buffer of `w*h` entries
equal to 1, and the three matrices and the sizes are those of the created scene. -/
theorem ClearBuffers_of_NewScene (tan : K → K) (pi : K) (w h : Int) (hw : 0 < w) (hh : 0 < h)
    (fov zNear zFar : K) (c : Vector K) :
    ∃ s0 s1 : Scene K, NewScene tan pi (w : K) (h : K) fov zNear zFar = Result.ok s0 ∧
      ClearBuffers s0 c = Result.ok s1 ∧
      s1.Buffers.FrameBuffer = List.replicate (w * h).toNat c ∧
      s1.Buffers.DepthBuffer = List.replicate (w * h).toNat 1 ∧
      s1.ModelViewMatrix = s0.ModelViewMatrix ∧
      s1.ProjectionMatrix = s0.ProjectionMatrix ∧
      s1.ViewportMatrix = s0.ViewportMatrix ∧
      s1.width = w ∧ s1.height = h := by
  obtain ⟨s0, hnew, hwf, hW, hH, hlen⟩ :=
    NewScene_wellFormed tan pi w h (le_of_lt hw) (le_of_lt hh) fov zNear zFar
  have hwh : 0 ≤ w * h := Int.mul_nonneg (le_of_lt hw) (le_of_lt hh)
  obtain ⟨s1, hrun, hsf, hcell⟩ := ClearBuffers_spec hwf c
  have hwf1 : s1.WellFormed := SameFrame.wellFormed hsf hwf
  have hout : ∀ j : Int, ¬ (0 ≤ j ∧ j < w * h) → cellAt s0 j = none := by
    intro j hj
    have hF : getAt s0.Buffers.FrameBuffer j = none := by
      apply getAt_eq_none
      rw [hlen]
      intro h1
      apply hj
      refine ⟨h1.1, ?_⟩
      have := h1.2
      omega
    simp [cellAt, hF]
  have hcells : ∀ j : Int, cellAt s1 j = if 0 ≤ j ∧ j < w * h then some (c, 1) else none := by
    intro j
    rw [hcell j, hW, hH]
    by_cases hj : 0 ≤ j ∧ j < w * h
    · rw [if_pos hj, if_pos hj]
    · rw [if_neg hj, if_neg hj]
      exact hout j hj
  have hrange : ∀ j : Int, (0 ≤ j ∧ j < w * h) ↔ (0 ≤ j ∧ j < (((w * h).toNat : Nat) : Int)) := by
    intro j
    rw [Int.toNat_of_nonneg hwh]
  refine ⟨s0, s1, hnew, hrun, ?_, ?_, hsf.1, hsf.2.1, hsf.2.2.1, hsf.2.2.2.1.trans hW,
    hsf.2.2.2.2.1.trans hH⟩
  · apply list_ext_getAt
    intro j
    rw [← WellFormed.map_fst_cellAt hwf1 j, hcells j, getAt_replicate]
    by_cases hj : 0 ≤ j ∧ j < w * h
    · rw [if_pos hj, if_pos ((hrange j).1 hj)]
      rfl
    · rw [if_neg hj, if_neg (fun h1 => hj ((hrange j).2 h1))]
      rfl
  · apply list_ext_getAt
    intro j
    rw [← WellFormed.map_snd_cellAt hwf1 j, hcells j, getAt_replicate]
    by_cases hj : 0 ≤ j ∧ j < w * h
    · rw [if_pos hj, if_pos ((hrange j).1 hj)]
      rfl
    · rw [if_neg hj, if_neg (fun h1 => hj ((hrange j).2 h1))]
      rfl

/-- C12 at a window of 3 by 2 pixels cleared to the color (1, 0, 0, 1). -/
theorem ClearBuffers_of_NewScene_witness :
    (0 : Int) < 3 ∧ (0 : Int) < 2 ∧
      ∃ s0 s1 : Scene ℚ, NewScene (fun _ => 1) 3 ((3 : Int) : ℚ) ((2 : Int) : ℚ) 90 1 1000
          = Result.ok s0 ∧
        ClearBuffers s0 ⟨1, 0, 0, 1⟩ = Result.ok s1 ∧
        s1.Buffers.FrameBuffer = List.replicate ((3 : Int) * 2).toNat ⟨1, 0, 0, 1⟩ ∧
        s1.Buffers.DepthBuffer = List.replicate ((3 : Int) * 2).toNat 1 ∧
        s1.ModelViewMatrix = s0.ModelViewMatrix ∧
        s1.ProjectionMatrix = s0.ProjectionMatrix ∧
        s1.ViewportMatrix = s0.ViewportMatrix ∧
        s1.width = 3 ∧ s1.height = 2 :=
  ⟨by decide, by decide,
    ClearBuffers_of_NewScene (fun _ => 1) 3 3 2 (by decide) (by decide) 90 1 1000 ⟨1, 0, 0, 1⟩⟩

end

end rasterizer

/-! ## The bounding box of a list of vectors -/

namespace math3d

variable {K : Type} [LinearOrderedField K]

/-- After the first iteration, one iteration of CalculateBoundingBox takes the minimum
and the maximum in X and in Y (the `else if` loses nothing because min is at most max). -/
theorem boundingBoxStep_eq (mn mx v : Vector K) (hX : mn.X ≤ mx.X) (hY : mn.Y ≤ mx.Y) :
    boundingBoxStep (mn, mx, false) v
      = (⟨min mn.X v.X, min mn.Y v.Y, mn.Z, mn.W⟩, ⟨max mx.X v.X, max mx.Y v.Y, mx.Z, mx.W⟩,
          false) := by
  obtain ⟨a1, a2, a3, a4⟩ := mn
  obtain ⟨b1, b2, b3, b4⟩ := mx
  obtain ⟨v1, v2, v3, v4⟩ := v
  simp only at hX hY
  simp only [boundingBoxStep, Bool.false_eq_true, if_false]
  have e1 : (if v1 < a1 then v1 else a1) = min a1 v1 := by
    rw [min_def]; split_ifs <;> first | rfl | (exfalso; linarith)
  have e3 : (if v2 < a2 then v2 else a2) = min a2 v2 := by
    rw [min_def]; split_ifs <;> first | rfl | (exfalso; linarith)
  have e2 : (if v1 < a1 then b1 else if v1 > b1 then v1 else b1) = max b1 v1 := by
    rw [max_def]; split_ifs <;> first | rfl | (exfalso; linarith) | linarith
  have e4 : (if v2 < a2 then b2 else if v2 > b2 then v2 else b2) = max b2 v2 := by
    rw [max_def]; split_ifs <;> first | rfl | (exfalso; linarith) | linarith
  rw [← e1, ← e2, ← e3, ← e4]
  by_cases h1 : v1 < a1 <;> by_cases h2 : v1 > b1 <;> by_cases h3 : v2 < a2 <;>
    by_cases h4 : v2 > b2 <;> simp [h1, h2, h3, h4]

/-- The loop of CalculateBoundingBox after its first iteration, in closed form. -/
theorem boundingBox_fold (rest : List (Vector K)) :
    ∀ mn mx : Vector K, mn.X ≤ mx.X → mn.Y ≤ mx.Y →
      rest.foldl boundingBoxStep (mn, mx, false)
        = (⟨rest.foldl (fun m v => min m v.X) mn.X, rest.foldl (fun m v => min m v.Y) mn.Y,
              mn.Z, mn.W⟩,
            ⟨rest.foldl (fun m v => max m v.X) mx.X, rest.foldl (fun m v => max m v.Y) mx.Y,
              mx.Z, mx.W⟩, false) := by
  induction rest with
  | nil => intro mn mx _ _; rfl
  | cons v rest ih =>
    intro mn mx hX hY
    rw [List.foldl_cons, boundingBoxStep_eq mn mx v hX hY,
      ih _ _ (le_trans (min_le_left _ _) (le_trans hX (le_max_left _ _)))
        (le_trans (min_le_left _ _) (le_trans hY (le_max_left _ _)))]
    rfl

/-- A running minimum is a lower bound of its start and of every element, and it is
attained. -/
theorem foldl_min_spec {α : Type} (f : α → K) (l : List α) :
    ∀ m0 : K, l.foldl (fun m v => min m (f v)) m0 ≤ m0 ∧
      (∀ v ∈ l, l.foldl (fun m v => min m (f v)) m0 ≤ f v) ∧
      (l.foldl (fun m v => min m (f v)) m0 = m0 ∨
        ∃ v ∈ l, l.foldl (fun m v => min m (f v)) m0 = f v) := by
  induction l with
  | nil => intro m0; simp
  | cons a l ih =>
    intro m0
    obtain ⟨h1, h2, h3⟩ := ih (min m0 (f a))
    simp only [List.foldl_cons, List.mem_cons, forall_eq_or_imp, exists_eq_or_imp]
    refine ⟨le_trans h1 (min_le_left _ _), ⟨le_trans h1 (min_le_right _ _), h2⟩, ?_⟩
    rcases h3 with h | ⟨v, hv, h⟩
    · rcases min_choice m0 (f a) with hm | hm
      · left; rw [h, hm]
      · right; left; rw [h, hm]
    · right; right; exact ⟨v, hv, h⟩

/-- A running maximum is an upper bound of its start and of every element, and it is
attained. -/
theorem foldl_max_spec {α : Type} (f : α → K) (l : List α) :
    ∀ m0 : K, m0 ≤ l.foldl (fun m v => max m (f v)) m0 ∧
      (∀ v ∈ l, f v ≤ l.foldl (fun m v => max m (f v)) m0) ∧
      (l.foldl (fun m v => max m (f v)) m0 = m0 ∨
        ∃ v ∈ l, l.foldl (fun m v => max m (f v)) m0 = f v) := by
  induction l with
  | nil => intro m0; simp
  | cons a l ih =>
    intro m0
    obtain ⟨h1, h2, h3⟩ := ih (max m0 (f a))
    simp only [List.foldl_cons, List.mem_cons, forall_eq_or_imp, exists_eq_or_imp]
    refine ⟨le_trans (le_max_left _ _) h1, ⟨le_trans (le_max_right _ _) h1, h2⟩, ?_⟩
    rcases h3 with h | ⟨v, hv, h⟩
    · rcases max_choice m0 (f a) with hm | hm
      · left; rw [h, hm]
      · right; left; rw [h, hm]
    · right; right; exact ⟨v, hv, h⟩

/-- The bounding box of a non-empty list in closed form. -/
theorem CalculateBoundingBox_cons (v0 : Vector K) (rest : List (Vector K)) :
    CalculateBoundingBox (v0 :: rest)
      = (⟨rest.foldl (fun m v => min m v.X) v0.X, rest.foldl (fun m v => min m v.Y) v0.Y,
            v0.Z, v0.W⟩,
          ⟨rest.foldl (fun m v => max m v.X) v0.X, rest.foldl (fun m v => max m v.Y) v0.Y,
            v0.Z, v0.W⟩) := by
  unfold CalculateBoundingBox
  have h0 : boundingBoxStep ((Vector.zero : Vector K), Vector.zero, true) v0 = (v0, v0, false) := by
    simp [boundingBoxStep]
  simp only [List.foldl_cons, h0]
  rw [boundingBox_fold rest v0 v0 (le_refl _) (le_refl _)]

/-- C21: for the non-empty list `v0 :: rest`, CalculateBoundingBox returns (min, max) where
min.X is the least and max.X the greatest X of the list, min.Y the least and max.Y the
greatest Y of the list (each a bound of every element and the coordinate of some
element), and the Z and W of both min and max are those of the first vector `v0`. -/
theorem CalculateBoundingBox_spec (v0 : Vector K) (rest : List (Vector K)) :
    (∀ v ∈ v0 :: rest, (CalculateBoundingBox (v0 :: rest)).1.X ≤ v.X) ∧
      (∃ v ∈ v0 :: rest, (CalculateBoundingBox (v0 :: rest)).1.X = v.X) ∧
      (∀ v ∈ v0 :: rest, v.X ≤ (CalculateBoundingBox (v0 :: rest)).2.X) ∧
      (∃ v ∈ v0 :: rest, (CalculateBoundingBox (v0 :: rest)).2.X = v.X) ∧
      (∀ v ∈ v0 :: rest, (CalculateBoundingBox (v0 :: rest)).1.Y ≤ v.Y) ∧
      (∃ v ∈ v0 :: rest, (CalculateBoundingBox (v0 :: rest)).1.Y = v.Y) ∧
      (∀ v ∈ v0 :: rest, v.Y ≤ (CalculateBoundingBox (v0 :: rest)).2.Y) ∧
      (∃ v ∈ v0 :: rest, (CalculateBoundingBox (v0 :: rest)).2.Y = v.Y) ∧
      (CalculateBoundingBox (v0 :: rest)).1.Z = v0.Z ∧
      (CalculateBoundingBox (v0 :: rest)).1.W = v0.W ∧
      (CalculateBoundingBox (v0 :: rest)).2.Z = v0.Z ∧
      (CalculateBoundingBox (v0 :: rest)).2.W = v0.W := by
  rw [CalculateBoundingBox_cons]
  obtain ⟨a1, a2, a3⟩ := foldl_min_spec (fun v : Vector K => v.X) rest v0.X
  obtain ⟨b1, b2, b3⟩ := foldl_max_spec (fun v : Vector K => v.X) rest v0.X
  obtain ⟨c1, c2, c3⟩ := foldl_min_spec (fun v : Vector K => v.Y) rest v0.Y
  obtain ⟨d1, d2, d3⟩ := foldl_max_spec (fun v : Vector K => v.Y) rest v0.Y
  have attained : ∀ (f : Vector K → K) (m : K),
      (m = f v0 ∨ ∃ v ∈ rest, m = f v) → ∃ v ∈ v0 :: rest, m = f v := by
    intro f m h
    rcases h with h | ⟨v, hv, h⟩
    · exact ⟨v0, List.mem_cons_self _ _, h⟩
    · exact ⟨v, List.mem_cons_of_mem _ hv, h⟩
  exact ⟨List.forall_mem_cons.2 ⟨a1, a2⟩, attained (fun v => v.X) _ a3,
    List.forall_mem_cons.2 ⟨b1, b2⟩, attained (fun v => v.X) _ b3,
    List.forall_mem_cons.2 ⟨c1, c2⟩, attained (fun v => v.Y) _ c3,
    List.forall_mem_cons.2 ⟨d1, d2⟩, attained (fun v => v.Y) _ d3, rfl, rfl, rfl, rfl⟩

end math3d

namespace obj

open math3d

/-- C22 (the code at a model with the vertices (1, 0, 0, 1) and (0, 0, 5, 1), scale 1):
the bounding box is min = (0, 0, 0, 1), max = (1, 0, 0, 1), its Z being the Z of the first
vertex; the largest absolute value found is 1, so NormalizeVertices leaves the vertices as
they are and the second vertex keeps Z = 5, outside [-1, 1]. -/
theorem NormalizeVertices_ignores_depth :
    CalculateBoundingBox ([⟨1, 0, 0, 1⟩, ⟨0, 0, 5, 1⟩] : List (Vector ℚ))
        = (⟨0, 0, 0, 1⟩, ⟨1, 0, 0, 1⟩) ∧
      (NormalizeVertices (⟨[⟨1, 0, 0, 1⟩, ⟨0, 0, 5, 1⟩], [], [], [], []⟩ : Model ℚ) 1).vertices
        = [⟨1, 0, 0, 1⟩, ⟨0, 0, 5, 1⟩] ∧
      ∃ v ∈ (NormalizeVertices (⟨[⟨1, 0, 0, 1⟩, ⟨0, 0, 5, 1⟩], [], [], [], []⟩ : Model ℚ)
          1).vertices, ¬ (v.Z ≤ 1) := by
  have hbb : CalculateBoundingBox ([⟨1, 0, 0, 1⟩, ⟨0, 0, 5, 1⟩] : List (Vector ℚ))
      = (⟨0, 0, 0, 1⟩, ⟨1, 0, 0, 1⟩) := by
    rw [CalculateBoundingBox_cons]
    simp
  have hn : (NormalizeVertices (⟨[⟨1, 0, 0, 1⟩, ⟨0, 0, 5, 1⟩], [], [], [], []⟩ : Model ℚ)
      1).vertices = [⟨1, 0, 0, 1⟩, ⟨0, 0, 5, 1⟩] := by
    simp [NormalizeVertices, hbb, math3d.Mul]
  refine ⟨hbb, hn, ?_⟩
  rw [hn]
  exact ⟨⟨0, 0, 5, 1⟩, by simp, by norm_num⟩

end obj

/-! ## Products of matrices and the weights at the vertices -/

namespace math3d

variable {K : Type} [LinearOrderedField K]

/-- The transform by a product of matrices is the composition of the transforms. -/
theorem transform_multiply (m n : Matrix K) (v : Vector K) :
    Transform (Multiply m n) v false = Transform m (Transform n v false) false := by
  simp only [Transform, Multiply, Bool.not_false, if_true]
  congr 1 <;> ring

/-- C27: the transform by Multiply(m, n) is the transform by n followed by the transform
by m; so Translate, Scale and Rotate, which return Multiply(m, B) for their own matrix B
(the matrix they build on the identity), apply B to the vector first and the existing
matrix m afterwards. -/
theorem Transform_Multiply_compose (m n : Matrix K) (v : Vector K) (sin cos : K → K)
    (x y z radians : K) :
    Transform (Multiply m n) v false = Transform m (Transform n v false) false ∧
      Translate m x y z = Multiply m (Translate IdentityMatrix x y z) ∧
      Scale m x y z = Multiply m (Scale IdentityMatrix x y z) ∧
      Rotate sin cos m radians x y z = Multiply m (Rotate sin cos IdentityMatrix radians x y z) ∧
      Transform (Translate m x y z) v false
        = Transform m (Transform (Translate IdentityMatrix x y z) v false) false ∧
      Transform (Scale m x y z) v false
        = Transform m (Transform (Scale IdentityMatrix x y z) v false) false ∧
      Transform (Rotate sin cos m radians x y z) v false
        = Transform m (Transform (Rotate sin cos IdentityMatrix radians x y z) v false) false := by
  have hT : Translate m x y z = Multiply m (Translate IdentityMatrix x y z) := by
    simp [Translate, Multiply, IdentityMatrix]
  have hS : Scale m x y z = Multiply m (Scale IdentityMatrix x y z) := by
    simp [Scale, Multiply, IdentityMatrix]
  have hR : Rotate sin cos m radians x y z
      = Multiply m (Rotate sin cos IdentityMatrix radians x y z) := by
    simp [Rotate, Multiply, IdentityMatrix]
  refine ⟨transform_multiply m n v, hT, hS, hR, ?_, ?_, ?_⟩
  · rw [hT, transform_multiply]
  · rw [hS, transform_multiply]
  · rw [hR, transform_multiply]

end math3d

namespace rasterizer

open math3d

section
variable {K : Type} [LinearOrderedField K]

/-- The values of `sf` at the three vertices of a triangle that is not degenerate. -/
theorem sf_at_vertices (a b c : Vector K)
    (hden : (a.Y - c.Y) * b.X + (c.X - a.X) * b.Y + a.X * c.Y - c.X * a.Y ≠ 0) (x y : Int) :
    ((x : K) = a.X → (y : K) = a.Y → sf x y a b c = Flt.fin 0) ∧
      ((x : K) = b.X → (y : K) = b.Y → sf x y a b c = Flt.fin 1) ∧
      ((x : K) = c.X → (y : K) = c.Y → sf x y a b c = Flt.fin 0) := by
  rw [sf_fin x y a b c hden]
  refine ⟨?_, ?_, ?_⟩
  · intro hx hy
    rw [hx, hy]
    congr 1
    rw [div_eq_zero_iff]
    left
    ring
  · intro hx hy
    rw [hx, hy]
    congr 1
    exact div_self hden
  · intro hx hy
    rw [hx, hy]
    congr 1
    rw [div_eq_zero_iff]
    left
    ring

/-- The values of `tf` at the three vertices of a triangle that is not degenerate. -/
theorem tf_at_vertices (a b c : Vector K)
    (hden : (a.Y - b.Y) * c.X + (b.X - a.X) * c.Y + a.X * b.Y - b.X * a.Y ≠ 0) (x y : Int) :
    ((x : K) = a.X → (y : K) = a.Y → tf x y a b c = Flt.fin 0) ∧
      ((x : K) = b.X → (y : K) = b.Y → tf x y a b c = Flt.fin 0) ∧
      ((x : K) = c.X → (y : K) = c.Y → tf x y a b c = Flt.fin 1) := by
  rw [tf_fin x y a b c hden]
  refine ⟨?_, ?_, ?_⟩
  · intro hx hy
    rw [hx, hy]
    congr 1
    rw [div_eq_zero_iff]
    left
    ring
  · intro hx hy
    rw [hx, hy]
    congr 1
    rw [div_eq_zero_iff]
    left
    ring
  · intro hx hy
    rw [hx, hy]
    congr 1
    exact div_self hden

/-- The denominators of `sf` and `tf` are opposite numbers. -/
theorem tf_den_eq_neg (a b c : Vector K) :
    (a.Y - b.Y) * c.X + (b.X - a.X) * c.Y + a.X * b.Y - b.X * a.Y
      = -((a.Y - c.Y) * b.X + (c.X - a.X) * b.Y + a.X * c.Y - c.X * a.Y) := by
  ring

/-- C26: for a triangle whose screen-space vertices a, b, c have integer coordinates and
are not collinear (the denominator of `sf`, which is the negative of the denominator of
`tf`, is not zero), `sf` and `tf` are 0, 0 at a, 1, 0 at b and 0, 1 at c, so the weights
(w, u, t) = (1 - sf - tf, sf, tf) are (1, 0, 0), (0, 1, 0) and (0, 0, 1). -/
theorem barycentric_at_vertices (aX aY bX bY cX cY : Int) (zA zB zC wA wB wC : K)
    (hnc : ((aY : K) - cY) * bX + ((cX : K) - aX) * bY + (aX : K) * cY - (cX : K) * aY ≠ 0) :
    sf aX aY
          (⟨(aX : K), (aY : K), zA, wA⟩ : Vector K) ⟨(bX : K), (bY : K), zB, wB⟩
          ⟨(cX : K), (cY : K), zC, wC⟩ = Flt.fin 0 ∧
      tf aX aY
          (⟨(aX : K), (aY : K), zA, wA⟩ : Vector K) ⟨(bX : K), (bY : K), zB, wB⟩
          ⟨(cX : K), (cY : K), zC, wC⟩ = Flt.fin 0 ∧
      sf bX bY
          (⟨(aX : K), (aY : K), zA, wA⟩ : Vector K) ⟨(bX : K), (bY : K), zB, wB⟩
          ⟨(cX : K), (cY : K), zC, wC⟩ = Flt.fin 1 ∧
      tf bX bY
          (⟨(aX : K), (aY : K), zA, wA⟩ : Vector K) ⟨(bX : K), (bY : K), zB, wB⟩
          ⟨(cX : K), (cY : K), zC, wC⟩ = Flt.fin 0 ∧
      sf cX cY
          (⟨(aX : K), (aY : K), zA, wA⟩ : Vector K) ⟨(bX : K), (bY : K), zB, wB⟩
          ⟨(cX : K), (cY : K), zC, wC⟩ = Flt.fin 0 ∧
      tf cX cY
          (⟨(aX : K), (aY : K), zA, wA⟩ : Vector K) ⟨(bX : K), (bY : K), zB, wB⟩
          ⟨(cX : K), (cY : K), zC, wC⟩ = Flt.fin 1 ∧
      Flt.fin 1 - sf aX aY
          (⟨(aX : K), (aY : K), zA, wA⟩ : Vector K) ⟨(bX : K), (bY : K), zB, wB⟩
          ⟨(cX : K), (cY : K), zC, wC⟩
        - tf aX aY
          (⟨(aX : K), (aY : K), zA, wA⟩ : Vector K) ⟨(bX : K), (bY : K), zB, wB⟩
          ⟨(cX : K), (cY : K), zC, wC⟩ = Flt.fin 1 ∧
      Flt.fin 1 - sf bX bY
          (⟨(aX : K), (aY : K), zA, wA⟩ : Vector K) ⟨(bX : K), (bY : K), zB, wB⟩
          ⟨(cX : K), (cY : K), zC, wC⟩
        - tf bX bY
          (⟨(aX : K), (aY : K), zA, wA⟩ : Vector K) ⟨(bX : K), (bY : K), zB, wB⟩
          ⟨(cX : K), (cY : K), zC, wC⟩ = Flt.fin 0 ∧
      Flt.fin 1 - sf cX cY
          (⟨(aX : K), (aY : K), zA, wA⟩ : Vector K) ⟨(bX : K), (bY : K), zB, wB⟩
          ⟨(cX : K), (cY : K), zC, wC⟩
        - tf cX cY
          (⟨(aX : K), (aY : K), zA, wA⟩ : Vector K) ⟨(bX : K), (bY : K), zB, wB⟩
          ⟨(cX : K), (cY : K), zC, wC⟩ = Flt.fin 0 := by
  have hs : (((⟨(aX : K), (aY : K), zA, wA⟩ : Vector K)).Y
        - (⟨(cX : K), (cY : K), zC, wC⟩ : Vector K).Y) * (⟨(bX : K), (bY : K), zB, wB⟩ : Vector K).X
      + ((⟨(cX : K), (cY : K), zC, wC⟩ : Vector K).X - (⟨(aX : K), (aY : K), zA, wA⟩ : Vector K).X)
        * (⟨(bX : K), (bY : K), zB, wB⟩ : Vector K).Y
      + (⟨(aX : K), (aY : K), zA, wA⟩ : Vector K).X * (⟨(cX : K), (cY : K), zC, wC⟩ : Vector K).Y
      - (⟨(cX : K), (cY : K), zC, wC⟩ : Vector K).X * (⟨(aX : K), (aY : K), zA, wA⟩ : Vector K).Y
      ≠ 0 := hnc
  have ht := hs
  rw [← neg_ne_zero, ← tf_den_eq_neg] at ht
  have s1 := (sf_at_vertices _ _ _ hs aX aY).1 rfl rfl
  have s2 := (sf_at_vertices _ _ _ hs bX bY).2.1 rfl rfl
  have s3 := (sf_at_vertices _ _ _ hs cX cY).2.2 rfl rfl
  have t1 := (tf_at_vertices _ _ _ ht aX aY).1 rfl rfl
  have t2 := (tf_at_vertices _ _ _ ht bX bY).2.1 rfl rfl
  have t3 := (tf_at_vertices _ _ _ ht cX cY).2.2 rfl rfl
  refine ⟨s1, t1, s2, t2, s3, t3, ?_, ?_, ?_⟩
  · rw [s1, t1, fin_sub_fin, fin_sub_fin]
    congr 1
    ring
  · rw [s2, t2, fin_sub_fin, fin_sub_fin]
    congr 1
    ring
  · rw [s3, t3, fin_sub_fin, fin_sub_fin]
    congr 1
    ring

/-- C26 at the triangle (0, 0), (10, 0), (0, 10). -/
theorem barycentric_at_vertices_witness :
    (((0 : Int) : ℚ) - (10 : Int)) * (10 : Int) + (((0 : Int) : ℚ) - (0 : Int)) * (0 : Int)
        + ((0 : Int) : ℚ) * (10 : Int) - ((0 : Int) : ℚ) * (0 : Int) ≠ 0 ∧
      sf 10 0 (⟨((0 : Int) : ℚ), ((0 : Int) : ℚ), 0, 1⟩ : Vector ℚ)
        ⟨((10 : Int) : ℚ), ((0 : Int) : ℚ), 0, 1⟩ ⟨((0 : Int) : ℚ), ((10 : Int) : ℚ), 0, 1⟩
          = Flt.fin 1 :=
  ⟨by norm_num,
    (barycentric_at_vertices 0 0 10 0 0 10 (0 : ℚ) 0 0 1 1 1 (by norm_num)).2.2.1⟩

end

end rasterizer

/-! ## The incremental scan against the formula recomputed at every pixel -/

namespace rasterizer

open math3d

section
variable {K : Type} [LinearOrderedField K]

/-- The loop body of RasterizeTriangle keeps the width of the scene when the callback
does. -/
theorem trianglePixel_width {σ : Type} (a b c colorA colorB colorC : Vector K)
    (cb : Option (LightingCalcCb K σ))
    (hcb : ∀ f, cb = some f → ∀ (w u t : K) (idx : Int) (st st1 : Scene K × σ),
      f w u t idx st = Result.ok st1 → st1.1.width = st.1.width)
    (x y idxOffset : Int) (u t : Flt K) (st st1 : Scene K × σ)
    (h : trianglePixel a b c colorA colorB colorC cb x y idxOffset u t st = Result.ok st1) :
    st1.1.width = st.1.width := by
  unfold trianglePixel at h
  simp only at h
  split at h
  · split at h
    · split at h
      · cases h
      · split at h
        · split at h
          · cases h
          · split at h
            · cases h
            · split at h
              · cases h
                rfl
              · rename_i f
                have hw := hcb f rfl _ _ _ _ _ _ h
                exact hw
        · cases h
          rfl
    · cases h
      rfl
  · cases h
    rfl

/-- The inner loop of RasterizeTriangle runs as the inner loop that recomputes the formula
when its accumulators hold the values of `sf` and `tf` along the row. -/
theorem triangleRow_eq_directRow {σ : Type} (a b c colorA colorB colorC : Vector K)
    (cb : Option (LightingCalcCb K σ))
    (hcb : ∀ f, cb = some f → ∀ (w u t : K) (idx : Int) (st st1 : Scene K × σ),
      f w u t idx st = Result.ok st1 → st1.1.width = st.1.width)
    (ux tx : Flt K) (y : Int) (k : Nat) :
    ∀ (x : Int) (u t : Flt K) (st : Scene K × σ),
      (∀ i : Nat, addN ux i u = sf (x + i) y a b c) →
      (∀ i : Nat, addN tx i t = tf (x + i) y a b c) →
      triangleRow a b c colorA colorB colorC cb ux tx y k x (st.1.width * y + x) u t st
        = match directRow a b c colorA colorB colorC cb y k x st with
          | Result.ok st1 => Result.ok (addN ux k u, addN tx k t, st1)
          | Result.fault => Result.fault
          | Result.outOfFuel => Result.outOfFuel := by
  induction k with
  | zero => intro x u t st _ _; rfl
  | succ k ih =>
    intro x u t st hu ht
    have hu0 : u = sf x y a b c := by simpa [addN] using hu 0
    have ht0 : t = tf x y a b c := by simpa [addN] using ht 0
    simp only [triangleRow, directRow]
    rw [← hu0, ← ht0]
    cases hpix : trianglePixel a b c colorA colorB colorC cb x y (st.1.width * y + x) u t st with
    | ok st1 =>
      have hw := trianglePixel_width a b c colorA colorB colorC cb hcb _ _ _ _ _ _ _ hpix
      have hidx : st.1.width * y + x + 1 = st1.1.width * y + (x + 1) := by rw [hw]; ring
      simp only
      rw [hidx, ih (x + 1) (u + ux) (t + tx) st1
        (fun i => by
          have := hu (i + 1)
          simp only [addN] at this
          rw [this]
          congr 1
          push_cast
          ring)
        (fun i => by
          have := ht (i + 1)
          simp only [addN] at this
          rw [this]
          congr 1
          push_cast
          ring)]
      rfl
    | fault => rfl
    | outOfFuel => rfl

/-- The outer loop of RasterizeTriangle runs as the outer loop that recomputes the formula
when its accumulators hold the values of `sf` and `tf` over the bounding box. -/
theorem triangleRows_eq_directRows {σ : Type} (a b c colorA colorB colorC : Vector K)
    (cb : Option (LightingCalcCb K σ))
    (hcb : ∀ f, cb = some f → ∀ (w u t : K) (idx : Int) (st st1 : Scene K × σ),
      f w u t idx st = Result.ok st1 → st1.1.width = st.1.width)
    (bbMinX : Int) (cols : Nat) (ux uy tx ty : Flt K) (n : K) (k : Nat) :
    ∀ (y : Int) (u t : Flt K) (st : Scene K × σ),
      (∀ i j : Nat, addN ux i (rowStart cols ux uy n j u) = sf (bbMinX + i) (y + j) a b c) →
      (∀ i j : Nat, addN tx i (rowStart cols tx ty n j t) = tf (bbMinX + i) (y + j) a b c) →
      triangleRows a b c colorA colorB colorC cb bbMinX cols ux uy tx ty n k y u t st
        = directRows a b c colorA colorB colorC cb bbMinX cols k y st := by
  induction k with
  | zero => intro y u t st _ _; rfl
  | succ k ih =>
    intro y u t st hu ht
    simp only [triangleRows, directRows]
    rw [triangleRow_eq_directRow a b c colorA colorB colorC cb hcb ux tx y cols bbMinX u t st
      (fun i => by simpa [rowStart] using hu i 0) (fun i => by simpa [rowStart] using ht i 0)]
    cases hrow : directRow a b c colorA colorB colorC cb y cols bbMinX st with
    | ok st1 =>
      simp only
      exact ih (y + 1) _ _ st1
        (fun i j => by
          have := hu i (j + 1)
          simp only [rowStart] at this
          rw [this]
          congr 1
          push_cast
          ring)
        (fun i j => by
          have := ht i (j + 1)
          simp only [rowStart] at this
          rw [this]
          congr 1
          push_cast
          ring)
    | fault => rfl
    | outOfFuel => rfl

/-- With a collinear triangle the inner loop that recomputes the formula leaves the state
alone: `sf` is not a finite number at any pixel. -/
theorem directRow_degenerate {σ : Type} (a b c colorA colorB colorC : Vector K)
    (cb : Option (LightingCalcCb K σ))
    (hdeg : (a.Y - c.Y) * b.X + (c.X - a.X) * b.Y + a.X * c.Y - c.X * a.Y = 0)
    (y : Int) (k : Nat) : ∀ (x : Int) (st : Scene K × σ),
      directRow a b c colorA colorB colorC cb y k x st = Result.ok st := by
  induction k with
  | zero => intro x st; rfl
  | succ k ih =>
    intro x st
    have hu : (sf x y a b c).isFin = false := by
      unfold sf
      rw [hdeg]
      exact div_zero_isFin _
    simp only [directRow, trianglePixel_outside a b c colorA colorB colorC cb x y _
      (insideTriangle_of_not_isFin hu _) st]
    exact ih (x + 1) st

/-- With a collinear triangle the outer loop that recomputes the formula leaves the state
alone. -/
theorem directRows_degenerate {σ : Type} (a b c colorA colorB colorC : Vector K)
    (cb : Option (LightingCalcCb K σ))
    (hdeg : (a.Y - c.Y) * b.X + (c.X - a.X) * b.Y + a.X * c.Y - c.X * a.Y = 0)
    (bbMinX : Int) (cols : Nat) (k : Nat) : ∀ (y : Int) (st : Scene K × σ),
      directRows a b c colorA colorB colorC cb bbMinX cols k y st = Result.ok st := by
  induction k with
  | zero => intro y st; rfl
  | succ k ih =>
    intro y st
    simp only [directRows, directRow_degenerate a b c colorA colorB colorC cb hdeg]
    exact ih (y + 1) st

variable [FloorRing K]

/-- The incremental scan of a screen-space triangle and the scan that recomputes the
formula at every pixel run alike, whether the triangle is degenerate or not. -/
theorem scanTriangle_eq_direct {σ : Type} (a b c colorA colorB colorC : Vector K)
    (cb : Option (LightingCalcCb K σ))
    (hcb : ∀ f, cb = some f → ∀ (w u t : K) (idx : Int) (st st1 : Scene K × σ),
      f w u t idx st = Result.ok st1 → st1.1.width = st.1.width)
    (st : Scene K × σ) :
    scanTriangle a b c colorA colorB colorC cb st
      = scanTriangleDirect a b c colorA colorB colorC cb st := by
  by_cases hs : (a.Y - c.Y) * b.X + (c.X - a.X) * b.Y + a.X * c.Y - c.X * a.Y = 0
  · unfold scanTriangleDirect
    simp only
    rw [directRows_degenerate a b c colorA colorB colorC cb hs]
    unfold scanTriangle
    simp only
    apply triangleRows_not_isFin
    unfold sf
    rw [hs]
    exact div_zero_isFin _
  · have ht : (a.Y - b.Y) * c.X + (b.X - a.X) * c.Y + a.X * b.Y - b.X * a.Y ≠ 0 := by
      rw [tf_den_eq_neg]
      exact neg_ne_zero.2 hs
    unfold scanTriangle scanTriangleDirect
    simp only
    apply triangleRows_eq_directRows a b c colorA colorB colorC cb hcb
    · intro i j
      exact congrArg Prod.fst (weightsAt_eq a b c hs ht i j)
    · intro i j
      exact congrArg Prod.snd (weightsAt_eq a b c hs ht i j)

end

end rasterizer

/-! ## The pixels RasterizeLine visits -/

namespace rasterizer

open math3d

/-- The Bresenham walk, started after `i` steps in x and `j` steps in y, ends as soon as
the fuel exceeds the number of steps that remain; it starts at the current pixel, ends at
(x1, y1) and every pixel it visits is `i1` steps in x and `j1` steps in y from the start
with `i ≤ i1 ≤ dx` and `j ≤ j1 ≤ ady`.  `dx` and `ady` are the absolute differences of the
end points. -/
theorem lineVisits_core (x0 y0 x1 y1 dx ady sx sy : Int) (hdx : 0 ≤ dx) (hady : 0 ≤ ady)
    (hxend : ∀ i, 0 ≤ i → i ≤ dx → (x0 + sx * i = x1 ↔ i = dx))
    (hyend : ∀ j, 0 ≤ j → j ≤ ady → (y0 + sy * j = y1 ↔ j = ady)) (fuel : Nat) :
    ∀ (i j : Int), 0 ≤ i → i ≤ dx → 0 ≤ j → j ≤ ady → (dx - i) + (ady - j) < fuel →
      ∃ l : List (Int × Int),
        lineVisits x1 y1 dx (-ady) sx sy fuel (x0 + sx * i) (y0 + sy * j)
          (dx + -ady + i * (-ady) + j * dx) = some l ∧
        l.head? = some (x0 + sx * i, y0 + sy * j) ∧ l.getLast? = some (x1, y1) ∧
        ∀ p ∈ l, ∃ i1 j1 : Int, i ≤ i1 ∧ i1 ≤ dx ∧ j ≤ j1 ∧ j1 ≤ ady ∧
          p = (x0 + sx * i1, y0 + sy * j1) := by
  induction fuel with
  | zero =>
    intro i j _ hi _ hj hm
    exfalso
    have : (0 : Int) ≤ dx - i + (ady - j) := by omega
    simp at hm
    omega
  | succ k ih =>
    intro i j hi0 hi hj0 hj hm
    simp only [lineVisits]
    by_cases hdone : x0 + sx * i = x1 ∧ y0 + sy * j = y1
    · rw [if_pos hdone]
      refine ⟨_, rfl, rfl, ?_, ?_⟩
      · rw [hdone.1, hdone.2]
        rfl
      · intro p hp
        rw [List.mem_singleton] at hp
        exact ⟨i, j, le_refl _, hi, le_refl _, hj, hp⟩
    · rw [if_neg hdone]
      have hnd : ¬ (i = dx ∧ j = ady) := fun h =>
        hdone ⟨(hxend i hi0 hi).2 h.1, (hyend j hj0 hj).2 h.2⟩
      have hA : i = dx → 2 * (dx + -ady + i * (-ady) + j * dx) < -ady := by
        intro h
        subst h
        have hj1 : j < ady := by
          rcases lt_or_eq_of_le hj with h | h
          · exact h
          · exact absurd ⟨rfl, h⟩ hnd
        have : i * (j + 1 - ady) ≤ 0 := mul_nonpos_of_nonneg_of_nonpos hi0 (by omega)
        nlinarith
      have hB : j = ady → dx < 2 * (dx + -ady + i * (-ady) + j * dx) := by
        intro h
        subst h
        have hi1 : i < dx := by
          rcases lt_or_eq_of_le hi with h | h
          · exact h
          · exact absurd ⟨h, rfl⟩ hnd
        have : 0 ≤ j * (dx - 1 - i) := mul_nonneg hj0 (by omega)
        nlinarith
      -- the part common to the three kinds of step
      have hcons : ∀ (i2 j2 : Int), i ≤ i2 → j ≤ j2 →
          (∃ l : List (Int × Int),
            lineVisits x1 y1 dx (-ady) sx sy k (x0 + sx * i2) (y0 + sy * j2)
              (dx + -ady + i2 * (-ady) + j2 * dx) = some l ∧
            l.head? = some (x0 + sx * i2, y0 + sy * j2) ∧ l.getLast? = some (x1, y1) ∧
            ∀ p ∈ l, ∃ i1 j1 : Int, i2 ≤ i1 ∧ i1 ≤ dx ∧ j2 ≤ j1 ∧ j1 ≤ ady ∧
              p = (x0 + sx * i1, y0 + sy * j1)) →
          ∃ l : List (Int × Int),
            (lineVisits x1 y1 dx (-ady) sx sy k (x0 + sx * i2) (y0 + sy * j2)
              (dx + -ady + i2 * (-ady) + j2 * dx)).map
                (fun l => (x0 + sx * i, y0 + sy * j) :: l) = some l ∧
            l.head? = some (x0 + sx * i, y0 + sy * j) ∧ l.getLast? = some (x1, y1) ∧
            ∀ p ∈ l, ∃ i1 j1 : Int, i ≤ i1 ∧ i1 ≤ dx ∧ j ≤ j1 ∧ j1 ≤ ady ∧
              p = (x0 + sx * i1, y0 + sy * j1) := by
        intro i2 j2 hi2 hj2 hrec
        obtain ⟨l, hl, hhead, hlast, hmem⟩ := hrec
        refine ⟨(x0 + sx * i, y0 + sy * j) :: l, by rw [hl]; rfl, rfl, ?_, ?_⟩
        · cases l with
          | nil => simp at hhead
          | cons q l => simpa using hlast
        · intro p hp
          rcases List.mem_cons.1 hp with h | h
          · exact ⟨i, j, le_refl _, hi, le_refl _, hj, h⟩
          · obtain ⟨i1, j1, h1, h2, h3, h4, h5⟩ := hmem p h
            exact ⟨i1, j1, le_trans hi2 h1, h2, le_trans hj2 h3, h4, h5⟩
      by_cases hx : 2 * (dx + -ady + i * (-ady) + j * dx) ≥ -ady
      · have hi1 : i + 1 ≤ dx := by
          by_contra hc
          have := hA (by omega)
          omega
        by_cases hy : 2 * (dx + -ady + i * (-ady) + j * dx) ≤ dx
        · have hj1 : j + 1 ≤ ady := by
            by_contra hc
            have := hB (by omega)
            omega
          have hrec := ih (i + 1) (j + 1) (by omega) hi1 (by omega) hj1
            (by push_cast at hm; omega)
          have := hcons (i + 1) (j + 1) (by omega) (by omega) hrec
          rw [if_pos hx, if_pos hx, if_pos hy, if_pos hy,
            show x0 + sx * i + sx = x0 + sx * (i + 1) by ring,
            show y0 + sy * j + sy = y0 + sy * (j + 1) by ring,
            show dx + -ady + i * (-ady) + j * dx + -ady + dx
              = dx + -ady + (i + 1) * (-ady) + (j + 1) * dx by ring]
          exact this
        · have hrec := ih (i + 1) j (by omega) hi1 hj0 hj (by push_cast at hm; omega)
          have := hcons (i + 1) j (by omega) (le_refl _) hrec
          rw [if_pos hx, if_pos hx, if_neg hy, if_neg hy,
            show x0 + sx * i + sx = x0 + sx * (i + 1) by ring,
            show dx + -ady + i * (-ady) + j * dx + -ady
              = dx + -ady + (i + 1) * (-ady) + j * dx by ring]
          exact this
      · have hy : 2 * (dx + -ady + i * (-ady) + j * dx) ≤ dx := by omega
        have hj1 : j + 1 ≤ ady := by
          by_contra hc
          have := hB (by omega)
          omega
        have hrec := ih i (j + 1) hi0 hi (by omega) hj1 (by push_cast at hm; omega)
        have := hcons i (j + 1) (le_refl _) (by omega) hrec
        rw [if_neg hx, if_neg hx, if_pos hy, if_pos hy,
          show y0 + sy * j + sy = y0 + sy * (j + 1) by ring,
          show dx + -ady + i * (-ady) + j * dx + dx
            = dx + -ady + i * (-ady) + (j + 1) * dx by ring]
        exact this

section
variable {K : Type} [LinearOrderedField K]
variable (a b colorA colorB : Vector K)

/-- On a well-formed scene the loop of RasterizeLine runs its body at the pixels of
`lineVisits`, in their order, and runs out of fuel exactly when `lineVisits` does. -/
theorem lineLoop_eq_visits (x1 y1 dx dy sx sy : Int) (fuel : Nat) :
    ∀ (x0 y0 err : Int) (s : Scene K), s.WellFormed →
      lineLoop a b colorA colorB x1 y1 dx dy sx sy fuel x0 y0 err s
        = match lineVisits x1 y1 dx dy sx sy fuel x0 y0 err with
          | none => Result.outOfFuel
          | some l =>
            Result.ok (l.foldl (fun s p => linePixelScene a b colorA colorB p.1 p.2 s) s) := by
  induction fuel with
  | zero => intro x0 y0 err s _; rfl
  | succ k ih =>
    intro x0 y0 err s hwf
    have hwf1 : (linePixelScene a b colorA colorB x0 y0 s).WellFormed :=
      SameFrame.wellFormed (linePixelScene_sameFrame a b colorA colorB s x0 y0) hwf
    simp only [lineLoop, lineVisits, linePixel_eq a b colorA colorB hwf]
    by_cases hdone : x0 = x1 ∧ y0 = y1
    · rw [if_pos hdone, if_pos hdone]
      rfl
    · rw [if_neg hdone, if_neg hdone, ih _ _ _ _ hwf1]
      cases lineVisits x1 y1 dx dy sx sy k (if 2 * err ≥ dy then x0 + sx else x0)
          (if 2 * err ≤ dx then y0 + sy else y0)
          (if 2 * err ≤ dx then (if 2 * err ≥ dy then err + dy else err) + dx
            else if 2 * err ≥ dy then err + dy else err) with
      | none => rfl
      | some l => rfl

end

end rasterizer

namespace rasterizer

open math3d

section
variable {K : Type} [LinearOrderedField K] [FloorRing K]

omit [FloorRing K] in
/-- The recording callback keeps the scene, so it keeps its width. -/
theorem recorder_width (f : LightingCalcCb K (List (Call K))) (hf : some recorder = some f)
    (w u t : K) (idx : Int) (st st1 : Scene K × List (Call K))
    (h : f w u t idx st = Result.ok st1) : st1.1.width = st.1.width := by
  cases hf
  unfold recorder at h
  cases h
  rfl

/-- C23 (as stated, at a collinear triangle): for the screen-space triangle (0, 0), (1, 1),
(2, 2) the scan starts with u = sf(0, 0) = NaN and t = tf(0, 0) = NaN (0/0); when the pixel
(1, 0) is tested, after one iteration of the inner loop, u and t are NaN, while the directly
evaluated sf(1, 0) and tf(1, 0) are -Inf. -/
theorem RasterizeTriangle_collinear_weights :
    VectorToScreencoords (demo.scene 3 3 [] []) (demo.pt 0 0 0) = demo.pt 0 0 0 ∧
      VectorToScreencoords (demo.scene 3 3 [] []) (demo.pt 1 1 0) = demo.pt 1 1 0 ∧
      VectorToScreencoords (demo.scene 3 3 [] []) (demo.pt 2 2 0) = demo.pt 2 2 0 ∧
      triangleRow (demo.pt 0 0 0) (demo.pt 1 1 0) (demo.pt 2 2 0) demo.white demo.white
          demo.white (none : Option (LightingCalcCb ℚ Unit))
          (sf 1 0 (demo.pt 0 0 0) (demo.pt 1 1 0) (demo.pt 2 2 0)
            - sf 0 0 (demo.pt 0 0 0) (demo.pt 1 1 0) (demo.pt 2 2 0))
          (tf 1 0 (demo.pt 0 0 0) (demo.pt 1 1 0) (demo.pt 2 2 0)
            - tf 0 0 (demo.pt 0 0 0) (demo.pt 1 1 0) (demo.pt 2 2 0))
          0 1 0 0
          (sf 0 0 (demo.pt 0 0 0) (demo.pt 1 1 0) (demo.pt 2 2 0))
          (tf 0 0 (demo.pt 0 0 0) (demo.pt 1 1 0) (demo.pt 2 2 0))
          (demo.scene 3 3 [] [], ())
        = Result.ok (Flt.nan, Flt.nan, (demo.scene 3 3 [] [], ())) ∧
      weightsAt (demo.pt 0 0 0) (demo.pt 1 1 0) (demo.pt 2 2 0) 1 0 = (Flt.nan, Flt.nan) ∧
      sf 1 0 (demo.pt 0 0 0) (demo.pt 1 1 0) (demo.pt 2 2 0) = Flt.ninf ∧
      tf 1 0 (demo.pt 0 0 0) (demo.pt 1 1 0) (demo.pt 2 2 0) = Flt.ninf ∧
      (weightsAt (demo.pt 0 0 0) (demo.pt 1 1 0) (demo.pt 2 2 0) 1 0).1
        ≠ sf 1 0 (demo.pt 0 0 0) (demo.pt 1 1 0) (demo.pt 2 2 0) := by
  decide!

/-- C23 (amended): RasterizeTriangle, with a callback that keeps the width of the scene
or with none, runs exactly as the scan that recomputes `sf(x, y, a, b, c)`,
`tf(x, y, a, b, c)` and the index `width*y + x` at every pixel of the bounding box: same
inside tests, same depths and colors, same invocations of the callback, for every
triangle, collinear or not.  When the screen-space vertices A, B, C are not collinear (the
denominator of `sf` is not zero), the values of `u` and `t` the scan holds when it tests
the pixel in column `i` and row `j` of the bounding box are `sf` and `tf` at that pixel.
`A`, `B`, `C` are the screen-space vertices, the ones the scan works on. -/
theorem RasterizeTriangle_incremental {σ : Type} (s : Scene K)
    (a b c colorA colorB colorC : Vector K) (cb : Option (LightingCalcCb K σ)) (e : σ)
    (hcb : ∀ f, cb = some f → ∀ (w u t : K) (idx : Int) (st st1 : Scene K × σ),
      f w u t idx st = Result.ok st1 → st1.1.width = st.1.width)
    (A B C : Vector K) (hA : VectorToScreencoords s a = A) (hB : VectorToScreencoords s b = B)
    (hC : VectorToScreencoords s c = C) :
    RasterizeTriangle s a b c colorA colorB colorC cb e
        = scanTriangle A B C colorA colorB colorC cb (s, e) ∧
      RasterizeTriangle s a b c colorA colorB colorC cb e
        = RasterizeTriangleDirect s a b c colorA colorB colorC cb e ∧
      ((A.Y - C.Y) * B.X + (C.X - A.X) * B.Y + A.X * C.Y - C.X * A.Y ≠ 0 →
        ∀ i j : Nat, weightsAt A B C i j
          = (sf (Int.ceil (min (min A.X B.X) C.X) + i) (Int.ceil (min (min A.Y B.Y) C.Y) + j)
              A B C,
             tf (Int.ceil (min (min A.X B.X) C.X) + i) (Int.ceil (min (min A.Y B.Y) C.Y) + j)
              A B C)) := by
  refine ⟨?_, ?_, ?_⟩
  · subst hA hB hC
    rfl
  · unfold RasterizeTriangle RasterizeTriangleDirect
    exact scanTriangle_eq_direct _ _ _ colorA colorB colorC cb hcb (s, e)
  · intro hs i j
    have ht : (A.Y - B.Y) * C.X + (B.X - A.X) * C.Y + A.X * B.Y - B.X * A.Y ≠ 0 := by
      rw [tf_den_eq_neg]
      exact neg_ne_zero.2 hs
    exact weightsAt_eq A B C hs ht i j

/-- C24: on a well-formed scene, for all endpoints, RasterizeLine returns as soon as the
fuel exceeds `|x1 - x0| + |y1 - y0|` (the loop terminates), where (x0, y0) and (x1, y1) are
the integer pixel coordinates of the screen-space endpoints A, B.  Its loop body runs at
the pixels of the list `visits`, in order: the first is (x0, y0), the last is (x1, y1),
every one lies in the rectangle spanned by the two, and when the two coincide the list
is the single pixel (x0, y0). -/
theorem RasterizeLine_visits {s : Scene K} (hwf : s.WellFormed)
    (a b colorA colorB A B : Vector K)
    (hA : VectorToScreencoords s a = A) (hB : VectorToScreencoords s b = B) (fuel : Nat)
    (hfuel : |toInt B.X - toInt A.X| + |toInt B.Y - toInt A.Y| < fuel) :
    ∃ visits : List (Int × Int),
      scanLineVisits fuel A B = some visits ∧
      RasterizeLine fuel s a b colorA colorB
        = Result.ok (visits.foldl (fun s p => linePixelScene A B colorA colorB p.1 p.2 s) s) ∧
      visits.head? = some (toInt A.X, toInt A.Y) ∧
      visits.getLast? = some (toInt B.X, toInt B.Y) ∧
      (∀ p ∈ visits, min (toInt A.X) (toInt B.X) ≤ p.1 ∧ p.1 ≤ max (toInt A.X) (toInt B.X) ∧
        min (toInt A.Y) (toInt B.Y) ≤ p.2 ∧ p.2 ≤ max (toInt A.Y) (toInt B.Y)) ∧
      (toInt A.X = toInt B.X → toInt A.Y = toInt B.Y → visits = [(toInt A.X, toInt A.Y)]) := by
  obtain ⟨l, hl, hhead, hlast, hmem⟩ := lineVisits_core (toInt A.X) (toInt A.Y)
    (toInt B.X) (toInt B.Y) |toInt B.X - toInt A.X| |toInt B.Y - toInt A.Y|
    (if toInt A.X ≥ toInt B.X then -1 else 1) (if toInt A.Y ≥ toInt B.Y then -1 else 1)
    (abs_nonneg _) (abs_nonneg _) (fun i _ _ => step_reaches _ _ i)
    (fun j _ _ => step_reaches _ _ j) fuel 0 0
    (le_refl 0) (abs_nonneg _) (le_refl 0) (abs_nonneg _) (by simpa using hfuel)
  have hvis : scanLineVisits fuel A B = some l := by
    unfold scanLineVisits
    simp only
    rw [← hl]
    congr 1 <;> ring
  refine ⟨l, hvis, ?_, ?_, hlast, ?_, ?_⟩
  · unfold RasterizeLine
    simp only
    rw [hA, hB]
    unfold scanLine
    simp only
    rw [lineLoop_eq_visits A B colorA colorB _ _ _ _ _ _ fuel _ _ _ s hwf]
    unfold scanLineVisits at hvis
    simp only at hvis
    rw [hvis]
  · simpa using hhead
  · intro p hp
    obtain ⟨i1, j1, h1, h2, h3, h4, h5⟩ := hmem p hp
    rw [h5]
    simp only
    refine ⟨?_, ?_, ?_, ?_⟩
    · by_cases h : toInt A.X ≥ toInt B.X
      · rw [if_pos h, min_eq_right h]
        rw [abs_of_nonpos (by omega)] at h2
        omega
      · rw [if_neg h, min_eq_left (by omega)]
        omega
    · by_cases h : toInt A.X ≥ toInt B.X
      · rw [if_pos h, max_eq_left h]
        omega
      · rw [if_neg h, max_eq_right (by omega)]
        rw [abs_of_nonneg (by omega)] at h2
        omega
    · by_cases h : toInt A.Y ≥ toInt B.Y
      · rw [if_pos h, min_eq_right h]
        rw [abs_of_nonpos (by omega)] at h4
        omega
      · rw [if_neg h, min_eq_left (by omega)]
        omega
    · by_cases h : toInt A.Y ≥ toInt B.Y
      · rw [if_pos h, max_eq_left h]
        omega
      · rw [if_neg h, max_eq_right (by omega)]
        rw [abs_of_nonneg (by omega)] at h4
        omega
  · intro hx hy
    unfold scanLineVisits at hvis
    simp only at hvis
    cases fuel with
    | zero => simp [lineVisits] at hvis
    | succ k =>
      simp only [lineVisits] at hvis
      rw [if_pos ⟨hx, hy⟩] at hvis
      exact (Option.some.inj hvis).symm

end

/-- C23 at the triangle (0, 0), (10, 0), (0, 10) drawn with the recording callback. -/
theorem RasterizeTriangle_incremental_witness :
    VectorToScreencoords (demo.scene 11 11 (List.replicate 121 demo.black)
        (List.replicate 121 1)) (demo.pt 0 0 0) = demo.pt 0 0 0 ∧
      VectorToScreencoords (demo.scene 11 11 (List.replicate 121 demo.black)
        (List.replicate 121 1)) (demo.pt 10 0 0) = demo.pt 10 0 0 ∧
      VectorToScreencoords (demo.scene 11 11 (List.replicate 121 demo.black)
        (List.replicate 121 1)) (demo.pt 0 10 0) = demo.pt 0 10 0 ∧
      ((demo.pt 0 0 0).Y - (demo.pt 0 10 0).Y) * (demo.pt 10 0 0).X
        + ((demo.pt 0 10 0).X - (demo.pt 0 0 0).X) * (demo.pt 10 0 0).Y
        + (demo.pt 0 0 0).X * (demo.pt 0 10 0).Y - (demo.pt 0 10 0).X * (demo.pt 0 0 0).Y ≠ 0 ∧
      RasterizeTriangle (demo.scene 11 11 (List.replicate 121 demo.black) (List.replicate 121 1))
          (demo.pt 0 0 0) (demo.pt 10 0 0) (demo.pt 0 10 0) demo.white demo.white demo.white
          (some recorder) []
        = RasterizeTriangleDirect
          (demo.scene 11 11 (List.replicate 121 demo.black) (List.replicate 121 1))
          (demo.pt 0 0 0) (demo.pt 10 0 0) (demo.pt 0 10 0) demo.white demo.white demo.white
          (some recorder) [] ∧
      weightsAt (demo.pt 0 0 0) (demo.pt 10 0 0) (demo.pt 0 10 0) 3 2
        = (Flt.fin (3 / 10), Flt.fin (2 / 10)) := by
  have hA : VectorToScreencoords (demo.scene 11 11 (List.replicate 121 demo.black)
      (List.replicate 121 1)) (demo.pt 0 0 0) = demo.pt 0 0 0 := by decide!
  have hB : VectorToScreencoords (demo.scene 11 11 (List.replicate 121 demo.black)
      (List.replicate 121 1)) (demo.pt 10 0 0) = demo.pt 10 0 0 := by decide!
  have hC : VectorToScreencoords (demo.scene 11 11 (List.replicate 121 demo.black)
      (List.replicate 121 1)) (demo.pt 0 10 0) = demo.pt 0 10 0 := by decide!
  have hne : ((demo.pt 0 0 0).Y - (demo.pt 0 10 0).Y) * (demo.pt 10 0 0).X
      + ((demo.pt 0 10 0).X - (demo.pt 0 0 0).X) * (demo.pt 10 0 0).Y
      + (demo.pt 0 0 0).X * (demo.pt 0 10 0).Y - (demo.pt 0 10 0).X * (demo.pt 0 0 0).Y ≠ 0 := by
    decide!
  have h := RasterizeTriangle_incremental
    (demo.scene 11 11 (List.replicate 121 demo.black) (List.replicate 121 1))
    (demo.pt 0 0 0) (demo.pt 10 0 0) (demo.pt 0 10 0) demo.white demo.white demo.white
    (some recorder) [] recorder_width _ _ _ hA hB hC
  refine ⟨hA, hB, hC, hne, h.2.1, ?_⟩
  rw [h.2.2 hne 3 2]
  decide!

/-- C24 at the line from (0, 0) to (3, 2): four pixels are visited. -/
theorem RasterizeLine_visits_witness :
    (demo.scene 4 3 (List.replicate 12 demo.black) (List.replicate 12 1)).WellFormed ∧
      VectorToScreencoords (demo.scene 4 3 (List.replicate 12 demo.black)
        (List.replicate 12 1)) (demo.pt 0 0 0) = demo.pt 0 0 0 ∧
      VectorToScreencoords (demo.scene 4 3 (List.replicate 12 demo.black)
        (List.replicate 12 1)) (demo.pt 3 2 0) = demo.pt 3 2 0 ∧
      |toInt (demo.pt 3 2 0).X - toInt (demo.pt 0 0 0).X|
        + |toInt (demo.pt 3 2 0).Y - toInt (demo.pt 0 0 0).Y| < ((6 : Nat) : Int) ∧
      scanLineVisits 6 (demo.pt 0 0 0) (demo.pt 3 2 0) = some [(0, 0), (1, 1), (2, 1), (3, 2)] ∧
      ∃ visits : List (Int × Int),
        scanLineVisits 6 (demo.pt 0 0 0) (demo.pt 3 2 0) = some visits ∧
        RasterizeLine 6 (demo.scene 4 3 (List.replicate 12 demo.black) (List.replicate 12 1))
            (demo.pt 0 0 0) (demo.pt 3 2 0) demo.white demo.white
          = Result.ok (visits.foldl
              (fun s p => linePixelScene (demo.pt 0 0 0) (demo.pt 3 2 0) demo.white demo.white
                p.1 p.2 s)
              (demo.scene 4 3 (List.replicate 12 demo.black) (List.replicate 12 1))) ∧
        visits.head? = some (toInt (demo.pt 0 0 0).X, toInt (demo.pt 0 0 0).Y) ∧
        visits.getLast? = some (toInt (demo.pt 3 2 0).X, toInt (demo.pt 3 2 0).Y) ∧
        (∀ p ∈ visits,
          min (toInt (demo.pt 0 0 0).X) (toInt (demo.pt 3 2 0).X) ≤ p.1 ∧
          p.1 ≤ max (toInt (demo.pt 0 0 0).X) (toInt (demo.pt 3 2 0).X) ∧
          min (toInt (demo.pt 0 0 0).Y) (toInt (demo.pt 3 2 0).Y) ≤ p.2 ∧
          p.2 ≤ max (toInt (demo.pt 0 0 0).Y) (toInt (demo.pt 3 2 0).Y)) ∧
        (toInt (demo.pt 0 0 0).X = toInt (demo.pt 3 2 0).X →
          toInt (demo.pt 0 0 0).Y = toInt (demo.pt 3 2 0).Y →
          visits = [(toInt (demo.pt 0 0 0).X, toInt (demo.pt 0 0 0).Y)]) := by
  have hwf : (demo.scene 4 3 (List.replicate 12 demo.black)
      (List.replicate 12 1)).WellFormed := by
    simp [Scene.WellFormed, demo.scene]
  have hA : VectorToScreencoords (demo.scene 4 3 (List.replicate 12 demo.black)
      (List.replicate 12 1)) (demo.pt 0 0 0) = demo.pt 0 0 0 := by decide!
  have hB : VectorToScreencoords (demo.scene 4 3 (List.replicate 12 demo.black)
      (List.replicate 12 1)) (demo.pt 3 2 0) = demo.pt 3 2 0 := by decide!
  have hfuel : |toInt (demo.pt 3 2 0).X - toInt (demo.pt 0 0 0).X|
      + |toInt (demo.pt 3 2 0).Y - toInt (demo.pt 0 0 0).Y| < ((6 : Nat) : Int) := by decide!
  exact ⟨hwf, hA, hB, hfuel, by decide!,
    RasterizeLine_visits hwf (demo.pt 0 0 0) (demo.pt 3 2 0) demo.white demo.white
      (demo.pt 0 0 0) (demo.pt 3 2 0) hA hB 6 hfuel⟩

end rasterizer

/-! ## The callbacks Render passes to RasterizeTriangle -/

namespace obj

open math3d rasterizer

section
variable {K : Type} [LinearOrderedField K] [FloorRing K]

/-- For a face with four vertices and normals, drawn with lighting, Render makes two calls
of RasterizeTriangle, for the triangles (v0, v1, v2) and (v0, v2, v3); the callback of
both is built from the positions (v0, v1, v2). -/
theorem faceCalls_quad (o : Model K) (t : indices) (lightDirection : Vector K)
    (h4 : t.hasFour = true) (hN : t.hasNormals = true) (calls : List (triangleCall K))
    (h : faceCalls o t true lightDirection = some calls) :
    ∃ (c1 c2 : triangleCall K) (l1 l2 : lightingArgs K), calls = [c1, c2] ∧
      c1.lightCalcCb = some l1 ∧ c2.lightCalcCb = some l2 ∧
      some c1.a = getAt o.vertices t.v0 ∧ some c1.b = getAt o.vertices t.v1 ∧
      some c1.c = getAt o.vertices t.v2 ∧
      some c2.a = getAt o.vertices t.v0 ∧ some c2.b = getAt o.vertices t.v2 ∧
      some c2.c = getAt o.vertices t.v3 ∧
      l1.a = c1.a ∧ l1.b = c1.b ∧ l1.c = c1.c ∧
      l2.a = c1.a ∧ l2.b = c1.b ∧ l2.c = c1.c := by
  unfold faceCalls at h
  obtain ⟨tex, -, h⟩ := Option.bind_eq_some.1 h
  obtain ⟨mat, -, h⟩ := Option.bind_eq_some.1 h
  simp only [h4, hN, if_true] at h
  obtain ⟨lc, hlc, h⟩ := Option.bind_eq_some.1 h
  obtain ⟨v0, hv0, h⟩ := Option.bind_eq_some.1 h
  obtain ⟨v1, hv1, h⟩ := Option.bind_eq_some.1 h
  obtain ⟨v2, hv2, h⟩ := Option.bind_eq_some.1 h
  obtain ⟨v3, hv3, h⟩ := Option.bind_eq_some.1 h
  rw [hv0, hv1, hv2] at hlc
  simp only [Option.some_bind] at hlc
  obtain ⟨na1, -, hlc⟩ := Option.bind_eq_some.1 hlc
  obtain ⟨nb1, -, hlc⟩ := Option.bind_eq_some.1 hlc
  obtain ⟨nc1, -, hlc⟩ := Option.bind_eq_some.1 hlc
  obtain ⟨na2, -, hlc⟩ := Option.bind_eq_some.1 hlc
  obtain ⟨nb2, -, hlc⟩ := Option.bind_eq_some.1 hlc
  obtain ⟨nc2, -, hlc⟩ := Option.bind_eq_some.1 hlc
  cases hlc
  cases h
  exact ⟨_, _, _, _, rfl, rfl, rfl, hv0.symm, hv1.symm, hv2.symm, hv0.symm, hv2.symm, hv3.symm,
    rfl, rfl, rfl, rfl, rfl, rfl⟩

end

/-- C25 (the code at a model of one quad with normals, lighting on): Render calls
RasterizeTriangle for (v0, v1, v2) and for (v0, v2, v3).  The callback of the first call
is built from the positions, normals and texture coordinates of (v0, v1, v2).  The
callback of the second call is built from the normals n0, n2, n3 and the texture
coordinates of the second triangle but from the positions v0, v1, v2 of the first: its
`b` is v1 = (1, 0, -2) where the triangle has v2 = (1, 1, -2), its `c` is v2 where the
triangle has v3 = (0, 1, -2). -/
theorem Render_second_callback_positions :
    faceCalls demo.quad demo.quadFace true ⟨0, 0, -1, 1⟩
      = some
        [⟨demo.pt 0 0 (-2), demo.pt 1 0 (-2), demo.pt 1 1 (-2), ⟨1, 1, 1, 1⟩, ⟨1, 1, 1, 1⟩,
            ⟨1, 1, 1, 1⟩,
            some ⟨demo.pt 0 0 (-2), demo.pt 1 0 (-2), demo.pt 1 1 (-2),
              ⟨0, 0, 1, 1⟩, ⟨1, 0, 0, 1⟩, ⟨0, 1, 0, 1⟩, ⟨-1, -1⟩, ⟨-1, -1⟩, ⟨-1, -1⟩,
              ⟨0, 0, -1, 1⟩, some demo.grey⟩⟩,
         ⟨demo.pt 0 0 (-2), demo.pt 1 1 (-2), demo.pt 0 1 (-2), ⟨1, 1, 1, 1⟩, ⟨1, 1, 1, 1⟩,
            ⟨1, 1, 1, 1⟩,
            some ⟨demo.pt 0 0 (-2), demo.pt 1 0 (-2), demo.pt 1 1 (-2),
              ⟨0, 0, 1, 1⟩, ⟨0, 1, 0, 1⟩, ⟨0, 0, -1, 1⟩, ⟨-1, -1⟩, ⟨-1, -1⟩, ⟨-1, -1⟩,
              ⟨0, 0, -1, 1⟩, some demo.grey⟩⟩] ∧
      demo.pt 1 0 (-2) ≠ demo.pt 1 1 (-2) ∧ demo.pt 1 1 (-2) ≠ demo.pt 0 1 (-2) := by
  decide!

end obj

/-! ## The numbers of `float64`: the exponent -/

namespace F64

theorem log2Aux_eq (fuel n : Nat) (h : n ≤ fuel) : log2Aux fuel n = Nat.log2 n := by
  induction fuel generalizing n with
  | zero =>
    have : n = 0 := by omega
    subst this
    simp [log2Aux, Nat.log2]
  | succ k ih =>
    rw [log2Aux, Nat.log2]
    by_cases h2 : n < 2
    · simp [h2, Nat.not_le.2 h2]
    · have h3 : n ≥ 2 := by omega
      simp only [h2, if_false, h3, if_true]
      rw [ih (n / 2) (by omega)]

/-- The exponent computed by halving is the binary logarithm of the library. -/
theorem log2_eq (n : Nat) : log2 n = Nat.log2 n := log2Aux_eq n n (le_refl n)

/-- Some values of the rounding: 1/10 and 1/3 go to the nearest `float64`, the sum
`0.1 + 0.2` is `0.30000000000000004`, `2^53 + 1` is a tie that goes to the even
neighbour `2^53`, half of the least subnormal is a tie that goes to zero, `2^1024`
overflows, and `1/0`, `-1/0`, `0/0` are `+Inf`, `-Inf` and a NaN. -/
theorem round_values :
    round (1 / 10) = fin (3602879701896397 / 36028797018963968) ∧
    round (1 / 3) = fin (6004799503160661 / 18014398509481984) ∧
    round (1 / 10) + round (2 / 10) = fin (1351079888211149 / 4503599627370496) ∧
    ofInt (2 ^ 53 + 1) = fin (2 ^ 53) ∧
    round (pow2 (-1075)) = fin 0 ∧ round (-pow2 (-1075)) = nzero ∧
    round (pow2 (-1074)) = fin (pow2 (-1074)) ∧
    round (pow2 1024) = pinf ∧
    (1 : F64) / 0 = pinf ∧ (-1 : F64) / 0 = ninf ∧ (0 : F64) / 0 = nan := by
  decide!

end F64

/-! ## The triangle scan on `float64` with the recording callback -/

namespace rasterizer

namespace binary64

open math3d

theorem stretch_nil (a b c colorA colorB colorC : Vector F64) (P : Int → Int → Prop)
    (s : Scene F64) : Stretch a b c colorA colorB colorC P s s [] :=
  ⟨SameFrame.refl s, List.Pairwise.nil, fun _ h => absurd h (List.not_mem_nil _), fun _ _ => rfl⟩

/-- Two stretches of the scan, the pixels of the first before those of the second in
buffer order, make one stretch. -/
theorem stretch_append {a b c colorA colorB colorC : Vector F64} {P1 P2 P : Int → Int → Prop}
    {s s1 s2 : Scene F64} {new1 new2 : List Call}
    (h1 : Stretch a b c colorA colorB colorC P1 s s1 new1)
    (h2 : Stretch a b c colorA colorB colorC P2 s1 s2 new2)
    (hP1 : ∀ x y, P1 x y → P x y) (hP2 : ∀ x y, P2 x y → P x y)
    (hord : ∀ x1 y1 x2 y2 : Int, P1 x1 y1 → P2 x2 y2 → 0 ≤ x1 → x1 < s.width → 0 ≤ x2 →
      x2 < s.width → s.width * y1 + x1 < s.width * y2 + x2) :
    Stretch a b c colorA colorB colorC P s s2 (new1 ++ new2) := by
  obtain ⟨hsf1, hpw1, hrec1, hun1⟩ := h1
  obtain ⟨hsf2, hpw2, hrec2, hun2⟩ := h2
  have hw : s1.width = s.width := hsf1.2.2.2.1
  have hh : s1.height = s.height := hsf1.2.2.2.2.1
  have hlt : ∀ e1 ∈ new1, ∀ e2 ∈ new2, e1.idx < e2.idx := by
    intro e1 he1 e2 he2
    obtain ⟨_, _, _, _, ⟨x1, y1, hp1, hx10, hx1W, _, _, hi1⟩, _⟩ := hrec1 e1 he1
    obtain ⟨_, _, _, _, ⟨x2, y2, hp2, hx20, hx2W, _, _, hi2⟩, _⟩ := hrec2 e2 he2
    rw [hi1, hi2, hw]
    rw [hw] at hx2W
    exact hord x1 y1 x2 y2 hp1 hp2 hx10 hx1W hx20 hx2W
  refine ⟨SameFrame.trans hsf1 hsf2, List.pairwise_append.2 ⟨hpw1, hpw2, hlt⟩, ?_, ?_⟩
  · intro e he
    rcases List.mem_append.1 he with he1 | he2
    · obtain ⟨g1, g2, g3, g4, ⟨x, y, hp, hx0, hxW, hy0, hyH, hi⟩, g5, g6, g7⟩ := hrec1 e he1
      refine ⟨g1, g2, g3, g4, ⟨x, y, hP1 x y hp, hx0, hxW, hy0, hyH, hi⟩, g5, ?_, g7⟩
      rw [hun2 e.idx (fun e2 he2 h => absurd h (ne_of_gt (hlt e he1 e2 he2)))]
      exact g6
    · obtain ⟨g1, g2, g3, g4, ⟨x, y, hp, hx0, hxW, hy0, hyH, hi⟩, g5, g6, col, d, hc, g7⟩ :=
        hrec2 e he2
      rw [hw] at hxW hi
      rw [hh] at hyH
      refine ⟨g1, g2, g3, g4, ⟨x, y, hP2 x y hp, hx0, hxW, hy0, hyH, hi⟩, g5, g6, col, d, ?_, g7⟩
      rw [← hun1 e.idx (fun e1 he1 h => absurd h (ne_of_lt (hlt e1 he1 e he2)))]
      exact hc
  · intro j hj
    rw [hun2 j (fun e he => hj e (List.mem_append.2 (Or.inr he))),
      hun1 j (fun e he => hj e (List.mem_append.2 (Or.inl he)))]

/-- The loop body with the recording callback at a pixel: it returns, and what it
does is a stretch of the scan that consists of this pixel. -/
theorem trianglePixel_stretch {s : Scene F64} (hwf : s.WellFormed)
    (a b c colorA colorB colorC : Vector F64) (x y : Int) (u t : F64) (log : List Call) :
    ∃ (s1 : Scene F64) (new : List Call),
      trianglePixel a b c colorA colorB colorC (some recorder) x y (s.width * y + x) u t (s, log)
        = Result.ok (s1, log ++ new) ∧
      Stretch a b c colorA colorB colorC (fun x1 y1 => x1 = x ∧ y1 = y) s s1 new := by
  have hnil : ∃ (s1 : Scene F64) (new : List Call),
      (Result.ok (s, log) : Result (Scene F64 × List Call)) = Result.ok (s1, log ++ new) ∧
      Stretch a b c colorA colorB colorC (fun x1 y1 => x1 = x ∧ y1 = y) s s1 new :=
    ⟨s, [], by rw [List.append_nil], stretch_nil _ _ _ _ _ _ _ _⟩
  unfold trianglePixel
  simp only
  by_cases hg : (F64.ge t 0 && F64.ge u 0 && F64.le (t + u) 1 &&
      (decide (x ≥ 0) && decide (x < s.width) && decide (y ≥ 0) && decide (y < s.height))) = true
  · rw [if_pos hg]
    simp only [Bool.and_eq_true] at hg
    obtain ⟨⟨⟨ht, hu⟩, hsum⟩, hvp⟩ := hg
    have hv : inViewport s x y = true := by
      unfold inViewport
      simp only [Bool.and_eq_true]
      exact hvp
    obtain ⟨hx0, hxW, hy0, hyH⟩ := (inViewport_iff s x y).1 hv
    obtain ⟨col, d, hcol, hd, hcell, h0, hF, hD⟩ := WellFormed.inViewport_cell hwf hv
    by_cases h1 : F64.ge (a.Z * (1 - u - t) + b.Z * u + c.Z * t) 0 = true
    · rw [if_pos h1, hd]
      simp only
      by_cases h2 : F64.le (a.Z * (1 - u - t) + b.Z * u + c.Z * t) d = true
      · rw [if_pos h2, setAt_eq_some _ _ _ h0 hF, setAt_eq_some _ _ _ h0 hD]
        simp only [recorder]
        have hcw := cellAt_writeCell s (s.width * y + x) (s.width * y + x)
          (lerpTriColor colorA colorB colorC (1 - u - t) u t,
            a.Z * (1 - u - t) + b.Z * u + c.Z * t) h0 hF hwf.2.2.2
        rw [if_pos rfl] at hcw
        refine ⟨writeCell s (s.width * y + x)
          (lerpTriColor colorA colorB colorC (1 - u - t) u t,
            a.Z * (1 - u - t) + b.Z * u + c.Z * t), [⟨1 - u - t, u, t, s.width * y + x,
              cellAt (writeCell s (s.width * y + x)
                (lerpTriColor colorA colorB colorC (1 - u - t) u t,
                  a.Z * (1 - u - t) + b.Z * u + c.Z * t)) (s.width * y + x)⟩], rfl, ?_⟩
        refine ⟨writeCell_sameFrame _ _ _, List.pairwise_singleton _ _, ?_, ?_⟩
        · intro e he
          rw [List.mem_singleton] at he
          subst he
          exact ⟨ht, hu, hsum, rfl, ⟨x, y, ⟨rfl, rfl⟩, hx0, hxW, hy0, hyH, rfl⟩, hcw, rfl,
            col, d, hcell, h1, h2⟩
        · intro j hj
          have hne : j ≠ s.width * y + x := fun h => hj _ (List.mem_singleton.2 rfl) h.symm
          rw [cellAt_writeCell s (s.width * y + x) j _ h0 hF hwf.2.2.2, if_neg hne]
      · rw [if_neg h2]
        exact hnil
    · rw [if_neg h1]
      exact hnil
  · rw [if_neg hg]
    exact hnil

/-- The inner loop with the recording callback: it returns, and what it does is a
stretch of the scan over the pixels (x, y), ..., (x + k - 1, y). -/
theorem triangleRow_stretch (a b c colorA colorB colorC : Vector F64) (ux tx : F64) (y : Int)
    (k : Nat) : ∀ {s : Scene F64}, s.WellFormed → ∀ (x : Int) (u t : F64) (log : List Call),
    ∃ (u1 t1 : F64) (s1 : Scene F64) (new : List Call),
      triangleRow a b c colorA colorB colorC (some recorder) ux tx y k x (s.width * y + x) u t
        (s, log) = Result.ok (u1, t1, (s1, log ++ new)) ∧
      Stretch a b c colorA colorB colorC (fun x1 y1 => x ≤ x1 ∧ y1 = y) s s1 new := by
  induction k with
  | zero =>
    intro s _ x u t log
    exact ⟨u, t, s, [], by rw [List.append_nil]; rfl, stretch_nil _ _ _ _ _ _ _ _⟩
  | succ k ih =>
    intro s hwf x u t log
    obtain ⟨s1, new1, hpix, hst1⟩ := trianglePixel_stretch hwf a b c colorA colorB colorC x y u t log
    have hwf1 := SameFrame.wellFormed hst1.1 hwf
    have hw : s1.width = s.width := hst1.1.2.2.2.1
    obtain ⟨u2, t2, s2, new2, hrow, hst2⟩ := ih hwf1 (x + 1) (u + ux) (t + tx) (log ++ new1)
    refine ⟨u2, t2, s2, new1 ++ new2, ?_, ?_⟩
    · rw [triangleRow, hpix]
      simp only
      have hidx : s.width * y + x + 1 = s1.width * y + (x + 1) := by rw [hw]; ring
      rw [hidx, hrow, List.append_assoc]
    · refine stretch_append hst1 hst2 ?_ ?_ ?_
      · rintro x1 y1 ⟨rfl, rfl⟩
        exact ⟨le_refl _, rfl⟩
      · rintro x1 y1 ⟨h, rfl⟩
        exact ⟨by omega, rfl⟩
      · rintro x1 y1 x2 y2 ⟨rfl, rfl⟩ ⟨h, rfl⟩ _ _ _ _
        omega

/-- The outer loop with the recording callback: it returns, and what it does is a
stretch of the scan over the rows y, ..., y + k - 1. -/
theorem triangleRows_stretch (a b c colorA colorB colorC : Vector F64) (bbMinX : Int)
    (cols : Nat) (ux uy tx ty n : F64) (k : Nat) :
    ∀ {s : Scene F64}, s.WellFormed → ∀ (y : Int) (u t : F64) (log : List Call),
    ∃ (s1 : Scene F64) (new : List Call),
      triangleRows a b c colorA colorB colorC (some recorder) bbMinX cols ux uy tx ty n k y u t
        (s, log) = Result.ok (s1, log ++ new) ∧
      Stretch a b c colorA colorB colorC (fun _ y1 => y ≤ y1) s s1 new := by
  induction k with
  | zero =>
    intro s _ y u t log
    exact ⟨s, [], by rw [List.append_nil]; rfl, stretch_nil _ _ _ _ _ _ _ _⟩
  | succ k ih =>
    intro s hwf y u t log
    obtain ⟨u1, t1, s1, new1, hrow, hst1⟩ :=
      triangleRow_stretch a b c colorA colorB colorC ux tx y cols hwf bbMinX u t log
    have hwf1 := SameFrame.wellFormed hst1.1 hwf
    obtain ⟨s2, new2, hrows, hst2⟩ :=
      ih hwf1 (y + 1) (u1 + (uy - n * ux)) (t1 + (ty - n * tx)) (log ++ new1)
    refine ⟨s2, new1 ++ new2, ?_, ?_⟩
    · rw [triangleRows]
      simp only
      rw [hrow]
      simp only
      rw [hrows, List.append_assoc]
    · refine stretch_append hst1 hst2 ?_ ?_ ?_
      · rintro x1 y1 ⟨_, rfl⟩
        exact le_refl _
      · intro x1 y1 h
        exact le_trans (by omega) h
      · rintro x1 y1 x2 y2 ⟨_, rfl⟩ h _ hx1W hx20 _
        have h3 : s.width * (y1 + 1) ≤ s.width * y2 := mul_le_mul_of_nonneg_left h hwf.1
        have h4 : s.width * (y1 + 1) = s.width * y1 + s.width := by ring
        omega

end binary64

end rasterizer

namespace rasterizer

namespace binary64

open math3d

/-- C6 (amended): RasterizeTriangle on `float64` with a callback that records its
invocations, on a well-formed scene.  The run returns.  The records are in strictly
increasing order of buffer index, so no pixel is recorded twice.  Every record has
arguments with `u >= 0`, `t >= 0`, `t+u <= 1` for the rounded sum and `w` the
`float64` value of `1 - u - t` (nothing is said of its sign), and an index
`idx = width*y + x` of a pixel of the viewport; at the time of the invocation, and at
the end, the cell of `idx` holds the color `lerpTriColor(colorA, colorB, colorC, w, u, t)`
and the depth `a.Z*w + b.Z*u + c.Z*t` just written, a depth that passed the depth test
against the depth stored before the call.  A cell without a record is as it was
before the call: every pixel written is recorded.  `a.Z`, `b.Z`, `c.Z` are the depths
of the screen-space vertices. -/
theorem RasterizeTriangle_callback_float64 {s : Scene F64} (hwf : s.WellFormed)
    (a b c colorA colorB colorC : Vector F64) :
    ∃ (s1 : Scene F64) (log : List Call),
      RasterizeTriangle s a b c colorA colorB colorC (some recorder) [] = Result.ok (s1, log) ∧
      List.Pairwise (fun e1 e2 : Call => e1.idx < e2.idx) log ∧
      (∀ e ∈ log, F64.ge e.u 0 = true ∧ F64.ge e.t 0 = true ∧ F64.le (e.t + e.u) 1 = true ∧
        e.w = 1 - e.u - e.t ∧
        (∃ x y : Int, 0 ≤ x ∧ x < s.width ∧ 0 ≤ y ∧ y < s.height ∧ e.idx = s.width * y + x) ∧
        e.cell = some (lerpTriColor colorA colorB colorC e.w e.u e.t,
          (VectorToScreencoords s a).Z * e.w + (VectorToScreencoords s b).Z * e.u
            + (VectorToScreencoords s c).Z * e.t) ∧
        cellAt s1 e.idx = e.cell ∧
        ∃ (col : Vector F64) (d : F64), cellAt s e.idx = some (col, d) ∧
          F64.ge ((VectorToScreencoords s a).Z * e.w + (VectorToScreencoords s b).Z * e.u
            + (VectorToScreencoords s c).Z * e.t) 0 = true ∧
          F64.le ((VectorToScreencoords s a).Z * e.w + (VectorToScreencoords s b).Z * e.u
            + (VectorToScreencoords s c).Z * e.t) d = true) ∧
      (∀ j : Int, (∀ e ∈ log, e.idx ≠ j) → cellAt s1 j = cellAt s j) := by
  obtain ⟨s1, new, hrun, hsf, hpw, hrec, hun⟩ :=
    triangleRows_stretch (VectorToScreencoords s a) (VectorToScreencoords s b)
      (VectorToScreencoords s c) colorA colorB colorC
      (F64.toInt (F64.Ceil (F64.Min (F64.Min (VectorToScreencoords s a).X
        (VectorToScreencoords s b).X) (VectorToScreencoords s c).X)))
      (F64.toInt (F64.Ceil (F64.Max (F64.Max (VectorToScreencoords s a).X
        (VectorToScreencoords s b).X) (VectorToScreencoords s c).X))
        - F64.toInt (F64.Ceil (F64.Min (F64.Min (VectorToScreencoords s a).X
          (VectorToScreencoords s b).X) (VectorToScreencoords s c).X)) + 1).toNat
      _ _ _ _ _ _ hwf _ _ _ []
  rw [List.nil_append] at hrun
  refine ⟨s1, new, hrun, hpw, ?_, hun⟩
  intro e he
  obtain ⟨g1, g2, g3, g4, ⟨x, y, _, hx0, hxW, hy0, hyH, hi⟩, g5, g6, g7⟩ := hrec e he
  exact ⟨g2, g1, g3, g4, ⟨x, y, hx0, hxW, hy0, hyH, hi⟩, g5, g6, g7⟩

/-- C6, as stated, fails on `float64`: the triangle with the screen points (0,0), (0,1),
(3,4) is drawn in white in a cleared 5 by 5 scene with the recording callback.  The
callback is invoked four times, with the arguments `(idx, w, u, t)` listed.  At pixel
(1, 2), buffer index 11, it is given `u ≥ 0` and `t ≥ 0` whose rounded sum passed the
test `t+u <= 1`, and `w = 1 - u - t = -2^-54`, which is not `≥ 0`; at pixel (2, 3),
index 17, it is given `w = -2^-53`. -/
theorem RasterizeTriangle_negative_weight :
    callsOf (RasterizeTriangle
      (demo.binary64.scene 5 5 (List.replicate 25 demo.binary64.black) (List.replicate 25 1))
      (demo.binary64.pt 0 0 0) (demo.binary64.pt 0 1 0) (demo.binary64.pt 3 4 0)
      demo.binary64.white demo.binary64.white demo.binary64.white (some recorder) []) =
      some [(0, 1, 0, F64.nzero), (5, 0, 1, 0),
        (11, F64.fin (-1 / 18014398509481984), F64.fin (3002399751580331 / 4503599627370496),
          F64.fin (6004799503160661 / 18014398509481984)),
        (17, F64.fin (-1 / 9007199254740992), F64.fin (750599937895083 / 2251799813685248),
          F64.fin (6004799503160661 / 9007199254740992))] ∧
    F64.ge (F64.fin (-1 / 18014398509481984)) 0 = false ∧
    F64.ge (F64.fin (-1 / 9007199254740992)) 0 = false := by
  decide!

/-- C8, as stated, fails on `float64`: the triangle with the screen points (0,0), (10,0),
(0,10), depth 0 and white at each vertex, is drawn without a callback in a cleared
11 by 11 scene (black, depth 1).  Pixel (0, 1), buffer index 11, has `0 + 1 ≤ 10` and
is not written: it still holds black and the depth 1, although the formula `sf`
evaluated at (0, 1) is `-0`, which passes `u >= 0`; the accumulated `u` does not.
Pixel (2, 1), index 13, is written with a color whose channels are `1 + 2^-52`, not
white. -/
theorem RasterizeTriangle_edge_pixel_rounded :
    cellOf (RasterizeTriangle
      (demo.binary64.scene 11 11 (List.replicate 121 demo.binary64.black) (List.replicate 121 1))
      (demo.binary64.pt 0 0 0) (demo.binary64.pt 10 0 0) (demo.binary64.pt 0 10 0)
      demo.binary64.white demo.binary64.white demo.binary64.white
      (none : Option (LightingCalcCb F64 Unit)) ()) 11 = some (demo.binary64.black, 1) ∧
    sf 0 1 (demo.binary64.pt 0 0 0) (demo.binary64.pt 10 0 0) (demo.binary64.pt 0 10 0)
      = F64.nzero ∧
    F64.ge F64.nzero 0 = true ∧
    cellOf (RasterizeTriangle
      (demo.binary64.scene 11 11 (List.replicate 121 demo.binary64.black) (List.replicate 121 1))
      (demo.binary64.pt 0 0 0) (demo.binary64.pt 10 0 0) (demo.binary64.pt 0 10 0)
      demo.binary64.white demo.binary64.white demo.binary64.white
      (none : Option (LightingCalcCb F64 Unit)) ()) 13 =
      some (⟨F64.fin (4503599627370497 / 4503599627370496),
        F64.fin (4503599627370497 / 4503599627370496),
        F64.fin (4503599627370497 / 4503599627370496), 1⟩, 0) := by
  decide!

/-- C10, as stated, fails on `float64`.  With the constants of NewScene (field of view
90, near plane 1, far plane 1000) and a 640 by 480 window, whether `math.Tan` returns 1
or the `float64` just below 1 for the half angle: the point (0, 0, -1, 1) of the near
plane gets `Z = -2^-53`, which is not 0 and not in [0, 1]; the point at `pz = -500` and
the point at the next `float64` farther away, `pz = -500 - 2^-44`, get the same `Z`.
With a field of view of 0, where `math.Tan` returns 0, the projection matrix holds
`+Inf` and `Z` is a NaN. -/
theorem VectorToScreencoords_near_plane_rounded :
    (VectorToScreencoords
      (demo.binary64.projected (fun _ => 1) demo.binary64.pi 90 1 1000 640 480)
      ⟨0, 0, -1, 1⟩).Z = F64.fin (-1 / 9007199254740992) ∧
    (VectorToScreencoords
      (demo.binary64.projected (fun _ => F64.fin (9007199254740991 / 9007199254740992))
        demo.binary64.pi 90 1 1000 640 480)
      ⟨0, 0, -1, 1⟩).Z = F64.fin (-1 / 9007199254740992) ∧
    F64.ge (F64.fin (-1 / 9007199254740992)) 0 = false ∧
    (VectorToScreencoords
      (demo.binary64.projected (fun _ => 1) demo.binary64.pi 90 1 1000 640 480)
      ⟨0, 0, F64.fin (-500 - 1 / 17592186044416), 1⟩).Z =
      (VectorToScreencoords
        (demo.binary64.projected (fun _ => 1) demo.binary64.pi 90 1 1000 640 480)
        ⟨0, 0, -500, 1⟩).Z ∧
    F64.lt (F64.fin (-500 - 1 / 17592186044416)) (-500) = true ∧
    (VectorToScreencoords
      (demo.binary64.projected (fun _ => 0) demo.binary64.pi 0 1 1000 640 480)
      ⟨0, 0, -1, 1⟩).Z = F64.nan := by
  decide!

/-- A concrete instance of C6 on `float64`: a triangle over a one-pixel scene. -/
theorem RasterizeTriangle_callback_float64_witness :
    (demo.binary64.scene 1 1 [demo.binary64.black] [1]).WellFormed ∧
    ∃ (s1 : Scene F64) (log : List Call),
      RasterizeTriangle (demo.binary64.scene 1 1 [demo.binary64.black] [1])
        (demo.binary64.pt 0 0 0) (demo.binary64.pt 1 0 0) (demo.binary64.pt 0 1 0)
        demo.binary64.white demo.binary64.white demo.binary64.white (some recorder) []
          = Result.ok (s1, log) ∧
      List.Pairwise (fun e1 e2 : Call => e1.idx < e2.idx) log :=
  ⟨by decide,
    let ⟨s1, log, h1, h2, _⟩ :=
      RasterizeTriangle_callback_float64
        (s := demo.binary64.scene 1 1 [demo.binary64.black] [1]) (by decide)
        (demo.binary64.pt 0 0 0) (demo.binary64.pt 1 0 0) (demo.binary64.pt 0 1 0)
        demo.binary64.white demo.binary64.white demo.binary64.white
    ⟨s1, log, h1, h2⟩⟩

end binary64

end rasterizer
